import Mathlib

/-!
# CHIP-8 interpreter: shallow embedding of `chip8.h` / `chip8.c`

The machine state `Chip8` is the C struct of `chip8.h`.  Arrays are total
functions `Nat → Nat` of which only the indices below the array size are
meaningful (`memory` 4096, `display` 256, `stack` 16, `v` 16); every access whose
index the C code does not itself keep inside the array is checked, and an
out-of-bounds access (undefined behaviour in C) makes the operation return
`none`.  Machine integers are natural numbers; every store into a `uint8_t` or
`uint16_t` object truncates with an explicit `% 256` / `% 65536`, and the places
where C computes a possibly negative `int` before storing it (the subtractions of
`0x8XY5` / `0x8XY7`, `pc -= 2`, the coordinates of `chip8_get_pixel`) go through
`Int`.  `int` is taken to be 32 bits wide.
-/

set_option linter.unusedVariables false

/-! ## Constants of `chip8.h` and `chip8.c` -/

def SIZE_MEMORY : Nat := 4096
def SIZE_DISPLAY : Nat := 256
def SIZE_STACK : Nat := 16
def SIZE_V : Nat := 16
def DISPLAY_WIDTH : Nat := 64
def DISPLAY_HEIGHT : Nat := 32
def ADDRESS_CODE_BEG : Nat := 0x0200

/-- The 80-byte font table `FONT_DATA` of `chip8.c`. -/
def FONT_DATA : List Nat :=
  [ 0xF0, 0x90, 0x90, 0x90, 0xF0,
    0x20, 0x60, 0x20, 0x20, 0x70,
    0xF0, 0x10, 0xF0, 0x80, 0xF0,
    0xF0, 0x10, 0xF0, 0x10, 0xF0,
    0x90, 0x90, 0xF0, 0x10, 0x10,
    0xF0, 0x80, 0xF0, 0x10, 0xF0,
    0xF0, 0x80, 0xF0, 0x90, 0xF0,
    0xF0, 0x10, 0x20, 0x40, 0x40,
    0xF0, 0x90, 0xF0, 0x90, 0xF0,
    0xF0, 0x90, 0xF0, 0x10, 0xF0,
    0xF0, 0x90, 0xF0, 0x90, 0x90,
    0xE0, 0x90, 0xE0, 0x90, 0xE0,
    0xF0, 0x80, 0x80, 0x80, 0xF0,
    0xE0, 0x90, 0x90, 0x90, 0xE0,
    0xF0, 0x80, 0xF0, 0x80, 0xF0,
    0xF0, 0x80, 0xF0, 0x80, 0x80 ]

/-- The enum `HaltCode` of `chip8.h`. -/
inductive HaltCode where
  | HLT_NONE
  | HLT_UNKNOWN_INSTRUCTION
  | HLT_STACK_OVERFLOW
  | HLT_STACK_UNDERFLOW
  | HLT_NOT_IMPLEMENTED
  deriving DecidableEq, Repr

/-- The struct `Chip8` of `chip8.h`, field for field. -/
structure Chip8 where
  memory : Nat → Nat
  display : Nat → Nat
  stack : Nat → Nat
  v : Nat → Nat
  i : Nat
  pc : Nat
  sp : Nat
  timer_delay : Nat
  timer_sound : Nat
  keys : Nat
  halt_code : HaltCode
  vblank : Nat

/-- Every field holds a value of its C type: bytes below 256, 16-bit words below
65536, on the indices that exist in the C arrays. -/
def Chip8.WF (c : Chip8) : Prop :=
  (∀ a, a < 4096 → c.memory a < 256) ∧
  (∀ a, a < 256 → c.display a < 256) ∧
  (∀ k, k < 16 → c.stack k < 65536) ∧
  (∀ k, k < 16 → c.v k < 256) ∧
  c.i < 65536 ∧ c.pc < 65536 ∧ c.sp < 256 ∧
  c.timer_delay < 256 ∧ c.timer_sound < 256 ∧
  c.keys < 65536 ∧ c.vblank < 256

/-! ## Array primitives -/

/-- Assignment `a[k] = val`. -/
def store (a : Nat → Nat) (k val : Nat) : Nat → Nat :=
  fun j => if j = k then val else a j

/-- The call `memset(a, 0, n)` on an array of bytes: the first `n` elements become 0. -/
def memset_zero (a : Nat → Nat) (n : Nat) : Nat → Nat :=
  fun j => if j < n then 0 else a j

/-- The call `memset(a, 0, n)` on an array of `uint16_t`: element `j` occupies the
bytes `2*j` and `2*j+1`, so it is zeroed when both lie among the first `n` bytes
(`n` is even at the only call). -/
def memset_zero16 (a : Nat → Nat) (n : Nat) : Nat → Nat :=
  fun j => if 2 * j + 2 ≤ n then 0 else a j

/-- The call `memcpy(a, src, sizeof(src))` for a byte table `src`. -/
def memcpy_list (a : Nat → Nat) (src : List Nat) : Nat → Nat :=
  fun j => if j < src.length then src.getD j 0 else a j

/-- The call `fread(a + off, size, 1, f)` where the file holds exactly the bytes
`bytes` and `size = bytes.length`. -/
def fread_at (a : Nat → Nat) (off : Nat) (bytes : List Nat) : Nat → Nat :=
  fun j => if off ≤ j ∧ j < off + bytes.length then bytes.getD (j - off) 0 else a j

/-! ## Private functions of `chip8.c` -/

/-- The function `clear_chip8`.  Note that `stack` is an array of `uint16_t` and
is cleared with `memset(chip8->stack, 0, SIZE_STACK)`, a count of 16 bytes. -/
def clear_chip8 (c : Chip8) : Chip8 :=
  { memory := memcpy_list (memset_zero c.memory SIZE_MEMORY) FONT_DATA
    display := memset_zero c.display SIZE_DISPLAY
    stack := memset_zero16 c.stack SIZE_STACK
    v := memset_zero c.v SIZE_V
    i := 0
    pc := ADDRESS_CODE_BEG
    sp := 0
    halt_code := HaltCode.HLT_NONE
    timer_delay := 0
    timer_sound := 0
    keys := 0
    vblank := 0 }

/-- The handler `op_0x0NNN`; `stack[--sp]` is out of bounds when `sp > 16`. -/
def op_0x0NNN (c : Chip8) (opcode : Nat) : Option Chip8 :=
  match opcode &&& 0x00FF with
  | 0xE0 => some { c with display := memset_zero c.display SIZE_DISPLAY }
  | 0xEE =>
    if c.sp = 0 then
      some { c with halt_code := HaltCode.HLT_STACK_UNDERFLOW }
    else if c.sp - 1 < SIZE_STACK then
      some { c with sp := c.sp - 1, pc := c.stack (c.sp - 1) }
    else none
  | _ => some c

/-- The handler `op_0x2000`; `stack[sp++]` is out of bounds when `sp > 16`. -/
def op_0x2000 (c : Chip8) (opcode : Nat) : Option Chip8 :=
  let nnn := opcode &&& 0x0FFF
  if c.sp = SIZE_STACK then
    some { c with halt_code := HaltCode.HLT_STACK_OVERFLOW }
  else if c.sp < SIZE_STACK then
    some { c with stack := store c.stack c.sp c.pc, sp := (c.sp + 1) % 256, pc := nnn }
  else none

/-- The handler `op_0x8XYN`.  Each case writes `v[x]` first and `v[0xF]` last. -/
def op_0x8XYN (c : Chip8) (opcode : Nat) : Chip8 :=
  let x := ((opcode &&& 0x0F00) >>> 8) % 256
  let y := ((opcode &&& 0x00F0) >>> 4) % 256
  match opcode &&& 0x000F with
  | 0x0 => { c with v := store c.v x (c.v y) }
  | 0x1 => { c with v := store (store c.v x ((c.v x ||| c.v y) % 256)) 0xF 0 }
  | 0x2 => { c with v := store (store c.v x ((c.v x &&& c.v y) % 256)) 0xF 0 }
  | 0x3 => { c with v := store (store c.v x ((c.v x ^^^ c.v y) % 256)) 0xF 0 }
  | 0x4 =>
    let sum := (c.v x + c.v y) % 65536
    { c with v := store (store c.v x ((sum &&& 0xFF) % 256)) 0xF (if sum > 0xFF then 0x01 else 0x00) }
  | 0x5 =>
    let tmp := if c.v x ≥ c.v y then 0x01 else 0x00
    { c with v := store (store c.v x (Int.toNat (((c.v x : Int) - (c.v y : Int)) % 256))) 0xF tmp }
  | 0x6 =>
    let tmp := (c.v y &&& 0x01) % 256
    { c with v := store (store c.v x ((c.v y >>> 1) % 256)) 0xF tmp }
  | 0x7 =>
    let tmp := if c.v y ≥ c.v x then 0x01 else 0x00
    { c with v := store (store c.v x (Int.toNat (((c.v y : Int) - (c.v x : Int)) % 256))) 0xF tmp }
  | 0xE =>
    let tmp := ((c.v y >>> 7) &&& 0x01) % 256
    { c with v := store (store c.v x ((c.v y <<< 1) % 256)) 0xF tmp }
  | _ => { c with halt_code := HaltCode.HLT_UNKNOWN_INSTRUCTION }

/-- Inner loop of `op_0xDXYN` (`for j`), `k` iterations left, on the pair
(display, unset).  `i` is the row, `sprite` the row byte. -/
def draw_cols (sprite vx vy i : Nat) : Nat → Nat → (Nat → Nat) × Nat → (Nat → Nat) × Nat
  | 0, _, st => st
  | k + 1, j, st =>
    if vx + j ≥ DISPLAY_WIDTH then st
    else
      let pixel := ((sprite >>> (7 - j)) &&& 1) % 256
      let index := ((vx + j) + (vy + i) * DISPLAY_WIDTH) % 65536
      let old_pixel := ((st.1 (index / 8) >>> (7 - (index % 8))) &&& 1) % 256
      let d := store st.1 (index / 8) ((st.1 (index / 8) ^^^ (pixel <<< (7 - (index % 8)))) % 256)
      let unset :=
        if old_pixel = 1 ∧ pixel = 1 ∧ ((d (index / 8) >>> (7 - (index % 8))) &&& 1) = 0 then 1
        else st.2
      draw_cols sprite vx vy i k (j + 1) (d, unset)

/-- Outer loop of `op_0xDXYN` (`for i`), `k` iterations left.  The sprite byte
`memory[address + i]` is read before the row is tested against the bottom edge. -/
def draw_rows (memory : Nat → Nat) (address vx vy : Nat) :
    Nat → Nat → (Nat → Nat) × Nat → Option ((Nat → Nat) × Nat)
  | 0, _, st => some st
  | k + 1, i, st =>
    if address + i < SIZE_MEMORY then
      let sprite := memory (address + i)
      if vy + i ≥ DISPLAY_HEIGHT then some st
      else draw_rows memory address vx vy k (i + 1) (draw_cols sprite vx vy i 8 0 st)
    else none

/-- The handler `op_0xDXYN`, entered with `pc` already advanced. -/
def op_0xDXYN (c : Chip8) (opcode : Nat) : Option Chip8 :=
  let x := ((opcode &&& 0x0F00) >>> 8) % 256
  let y := ((opcode &&& 0x00F0) >>> 4) % 256
  if c.vblank = 0 then
    some { c with pc := Int.toNat (((c.pc : Int) - 2) % 65536) }
  else
    let vx := (c.v x % DISPLAY_WIDTH) % 256
    let vy := (c.v y % DISPLAY_HEIGHT) % 256
    let count := (opcode &&& 0x000F) % 256
    let address := c.i
    match draw_rows c.memory address vx vy count 0 (c.display, 0) with
    | none => none
    | some st => some { c with vblank := 0, display := st.1, v := store c.v 0xF st.2 }

/-- The handler `op_0xEXNN`.  `1 << v[x]` is an `int` shift: undefined from 31 up. -/
def op_0xEXNN (c : Chip8) (opcode : Nat) : Option Chip8 :=
  let x := ((opcode &&& 0x0F00) >>> 8) % 256
  match opcode &&& 0x00FF with
  | 0x9E =>
    if c.v x < 31 then
      if c.keys &&& (1 <<< c.v x) ≠ 0 then some { c with pc := (c.pc + 2) % 65536 }
      else some c
    else none
  | 0xA1 =>
    if c.v x < 31 then
      if ¬ (c.keys &&& (1 <<< c.v x) ≠ 0) then some { c with pc := (c.pc + 2) % 65536 }
      else some c
    else none
  | _ => some { c with halt_code := HaltCode.HLT_UNKNOWN_INSTRUCTION }

/-- Loop of `0xFX0A` (`for i < 16`), `k` iterations left: the first set bit of
`keys` is stored into `v[x]`. -/
def key_loop (keys x : Nat) : Nat → Nat → (Nat → Nat) → (Nat → Nat)
  | 0, _, v => v
  | k + 1, i, v =>
    if keys &&& (1 <<< i) ≠ 0 then store v x (i % 256)
    else key_loop keys x k (i + 1) v

/-- Loop of `0xFX55` (`for i <= x`), `k` iterations left: `memory[I + i] = v[i]`. -/
def store_loop (v : Nat → Nat) (I : Nat) : Nat → Nat → (Nat → Nat) → Option (Nat → Nat)
  | 0, _, m => some m
  | k + 1, i, m =>
    if I + i < SIZE_MEMORY then store_loop v I k (i + 1) (store m (I + i) (v i))
    else none

/-- Loop of `0xFX65` (`for i <= x`), `k` iterations left: `v[i] = memory[I + i]`. -/
def fill_loop (memory : Nat → Nat) (I : Nat) : Nat → Nat → (Nat → Nat) → Option (Nat → Nat)
  | 0, _, v => some v
  | k + 1, i, v =>
    if I + i < SIZE_MEMORY then fill_loop memory I k (i + 1) (store v i (memory (I + i)))
    else none

/-- The handler `op_0xFXNN`. -/
def op_0xFXNN (c : Chip8) (opcode : Nat) : Option Chip8 :=
  let x := ((opcode &&& 0x0F00) >>> 8) % 256
  match opcode &&& 0x00FF with
  | 0x07 => some { c with v := store c.v x c.timer_delay }
  | 0x0A =>
    if c.keys = 0 then
      some { c with pc := Int.toNat (((c.pc : Int) - 2) % 65536) }
    else
      some { c with v := key_loop c.keys x 16 0 c.v }
  | 0x15 => some { c with timer_delay := c.v x }
  | 0x18 => some { c with timer_sound := c.v x }
  | 0x1E => some { c with i := (c.i + c.v x) % 65536 }
  | 0x29 =>
    if c.v x * 5 < SIZE_MEMORY then some { c with i := c.memory (c.v x * 5) }
    else none
  | 0x33 =>
    if c.i + 2 < SIZE_MEMORY then
      let m1 := store c.memory c.i ((c.v x / 100) % 256)
      let m2 := store m1 (c.i + 1) (((c.v x / 10) % 10) % 256)
      let m3 := store m2 (c.i + 2) ((c.v x % 10) % 256)
      some { c with memory := m3 }
    else none
  | 0x55 =>
    match store_loop c.v c.i (x + 1) 0 c.memory with
    | none => none
    | some m => some { c with memory := m, i := (c.i + (x + 1)) % 65536 }
  | 0x65 =>
    match fill_loop c.memory c.i (x + 1) 0 c.v with
    | none => none
    | some w => some { c with v := w, i := (c.i + (x + 1)) % 65536 }
  | _ => some { c with halt_code := HaltCode.HLT_UNKNOWN_INSTRUCTION }

/-! ## Public functions of `chip8.c` -/

/-- The function `chip8_new`: `raw` is the block returned by `malloc`, with
indeterminate contents, or `none` when the allocation fails. -/
def chip8_new (raw : Option Chip8) : Option Chip8 :=
  match raw with
  | none => none
  | some c => some (clear_chip8 c)

/-- The function `chip8_load`, with the file system abstracted: `file` is `none`
when the file cannot be opened and otherwise the bytes of the file.  Returns the
C return value and the machine state after the call. -/
def chip8_load (c : Chip8) (file : Option (List Nat)) : Nat × Chip8 :=
  match file with
  | none => (1, c)
  | some bytes =>
    let size := bytes.length
    if size > SIZE_MEMORY - ADDRESS_CODE_BEG then (2, c)
    else
      let c1 := clear_chip8 c
      (0, { c1 with memory := fread_at c1.memory ADDRESS_CODE_BEG bytes })

/-- The function `chip8_get_pixel`, on C `int` coordinates (`/` and `%` truncate
towards zero).  `address` is a `uint16_t`; the display read is checked. -/
def chip8_get_pixel (c : Chip8) (x y : Int) : Option Nat :=
  let address := Int.toNat ((Int.tdiv (Int.tmod x 64) 8 + Int.tmod y 32 * 8) % 65536)
  if address < SIZE_DISPLAY then
    some ((c.display address >>> Int.toNat (7 - Int.tmod x 8)) &&& 1)
  else none

/-- The function `chip8_current_instruction`: the big-endian word at `pc`. -/
def chip8_current_instruction (c : Chip8) : Option Nat :=
  if c.pc + 1 < SIZE_MEMORY then
    some (((c.memory c.pc <<< 8) ||| c.memory (c.pc + 1)) % 65536)
  else none

/-- The function `chip8_next_instruction`; `rnd` is the value returned by `rand()`
should the instruction call it. -/
def chip8_next_instruction (c : Chip8) (rnd : Nat) : Option Chip8 :=
  if c.pc + 1 < SIZE_MEMORY then
    let opcode := ((c.memory c.pc <<< 8) ||| c.memory (c.pc + 1)) % 65536
    let c := { c with pc := (c.pc + 2) % 65536 }
    let x := ((opcode &&& 0x0F00) >>> 8) % 256
    let y := ((opcode &&& 0x00F0) >>> 4) % 256
    let nn := (opcode &&& 0x00FF) % 256
    let nnn := (opcode &&& 0x0FFF) % 65536
    match opcode &&& 0xF000 with
    | 0x0000 => op_0x0NNN c opcode
    | 0x1000 => some { c with pc := nnn }
    | 0x2000 => op_0x2000 c opcode
    | 0x3000 => if c.v x = nn then some { c with pc := (c.pc + 2) % 65536 } else some c
    | 0x4000 => if c.v x ≠ nn then some { c with pc := (c.pc + 2) % 65536 } else some c
    | 0x5000 => if c.v x = c.v y then some { c with pc := (c.pc + 2) % 65536 } else some c
    | 0x6000 => some { c with v := store c.v x nn }
    | 0x7000 => some { c with v := store c.v x ((c.v x + nn) % 256) }
    | 0x8000 => some (op_0x8XYN c opcode)
    | 0x9000 => if c.v x ≠ c.v y then some { c with pc := (c.pc + 2) % 65536 } else some c
    | 0xA000 => some { c with i := nnn }
    | 0xB000 => some { c with pc := (nnn + c.v 0) % 65536 }
    | 0xC000 => some { c with v := store c.v x ((rnd &&& nn) % 256) }
    | 0xD000 => op_0xDXYN c opcode
    | 0xE000 => op_0xEXNN c opcode
    | 0xF000 => op_0xFXNN c opcode
    | _ => some c
  else none

/-- The function `chip8_vblank`. -/
def chip8_vblank (c : Chip8) : Chip8 :=
  let c := { c with vblank := 1 }
  let c := if c.timer_delay > 0 then { c with timer_delay := c.timer_delay - 1 } else c
  if c.timer_sound > 0 then { c with timer_sound := c.timer_sound - 1 } else c

/-- The function `chip8_key_down`. -/
def chip8_key_down (c : Chip8) (key : Nat) : Chip8 :=
  { c with keys := (c.keys ||| (1 <<< (key &&& 0xF))) % 65536 }

/-- The function `chip8_key_up`; `~` is the complement of a 32-bit `int`. -/
def chip8_key_up (c : Chip8) (key : Nat) : Chip8 :=
  { c with keys := (c.keys &&& (0xFFFFFFFF - (1 <<< (key &&& 0xF)))) % 65536 }

/-! ## Entry points as seen by the host -/

/-- One call made by the host (`main.c`) on the machine. -/
inductive Entry where
  | step (rnd : Nat)
  | vblank
  | key_down (key : Nat)
  | key_up (key : Nat)
  | load (file : Option (List Nat))

/-- Effect of one host call; `none` when the call has undefined behaviour. -/
def run_entry (c : Chip8) : Entry → Option Chip8
  | Entry.step rnd => chip8_next_instruction c rnd
  | Entry.vblank => some (chip8_vblank c)
  | Entry.key_down key => some (chip8_key_down c key)
  | Entry.key_up key => some (chip8_key_up c key)
  | Entry.load file => some (chip8_load c file).2

/-- Runs `n` instructions in a row, `rnd k` being what `rand()` returns when `k`
more instructions are to follow; `none` at undefined behaviour. -/
def run_steps (rnd : Nat → Nat) : Nat → Chip8 → Option Chip8
  | 0, c => some c
  | n + 1, c =>
    match chip8_next_instruction c (rnd n) with
    | none => none
    | some c' => run_steps rnd n c'

/-- The bytes a host call brings into the machine are bytes: every element of a
loaded file is below 256. -/
def Entry.bytes_ok : Entry → Prop
  | Entry.load (some bytes) => ∀ b, b ∈ bytes → b < 256
  | _ => True

/-! ## Concrete machine states used as examples -/

/-- A zeroed machine block, as `calloc` would give. -/
def blank : Chip8 :=
  { memory := fun _ => 0, display := fun _ => 0, stack := fun _ => 0, v := fun _ => 0,
    i := 0, pc := 0, sp := 0, timer_delay := 0, timer_sound := 0, keys := 0,
    halt_code := HaltCode.HLT_NONE, vblank := 0 }

/-- The machine right after loading the ROM `bytes`. -/
def loaded (bytes : List Nat) : Chip8 := (chip8_load blank (some bytes)).2

/-- A loaded machine whose first instruction is the call `0x2204`, stack empty. -/
def call_state : Chip8 := loaded [0x22, 0x04]

/-- The machine `call_state` after its call instruction. -/
def call_state_after : Chip8 :=
  { call_state with stack := store call_state.stack 0 0x202, sp := 1, pc := 0x204 }

/-- A loaded machine about to call `0x2204` with all 16 stack slots in use. -/
def full_stack_state : Chip8 := { loaded [0x22, 0x04] with sp := 16 }

/-- A loaded machine whose first instruction is the return `0x00EE`, stack empty. -/
def ret_state : Chip8 := loaded [0x00, 0xEE]

/-- A loaded machine about to return with one entry (`0x0300`) on the stack. -/
def ret_state_one : Chip8 :=
  { loaded [0x00, 0xEE] with stack := store (loaded [0x00, 0xEE]).stack 0 0x0300, sp := 1 }

/-- A ROM of nine nested calls: the instruction at `0x200 + 2k` calls `0x202 + 2k`. -/
def nine_calls_rom : List Nat :=
  [0x22, 0x02, 0x22, 0x04, 0x22, 0x06, 0x22, 0x08, 0x22, 0x0A, 0x22, 0x0C, 0x22, 0x0E,
   0x22, 0x10, 0x22, 0x12]

/-- The machine after loading `nine_calls_rom` and executing its nine calls. -/
def nine_calls_state : Chip8 :=
  (run_steps (fun _ => 0) 9 (loaded nine_calls_rom)).getD blank

/-- A loaded machine whose first instruction is `op` (two bytes `hi`, `lo`), with
`v[0] = a`, `v[1] = b` and `v[0xF] = f`. -/
def alu_state (hi lo a b f : Nat) : Chip8 :=
  { loaded [hi, lo] with v := store (store (store (loaded [hi, lo]).v 0 a) 1 b) 0xF f }

/-- A loaded machine whose first instruction draws the one-row sprite at `i = 0`
(the font byte `0xF0`) at `(v[0], v[1]) = (0, 0)`, with the given `vblank`. -/
def draw_state (vb : Nat) : Chip8 := { loaded [0xD0, 0x11] with vblank := vb }

/-! ## Pixels of the display, for the draw instruction -/

/-- Bit `7 - q % 8` of byte `q / 8` of a packed bitmap: the pixel with linear index
`q`, read as the draw loop and `chip8_get_pixel` read it. -/
def display_bit (d : Nat → Nat) (q : Nat) : Nat := (d (q / 8) >>> (7 - q % 8)) &&& 1

/-- Bit `7 - j` of a sprite row, the pixel of column `j`. -/
def sprite_bit (sprite j : Nat) : Nat := (sprite >>> (7 - j)) &&& 1

/-- A set sprite bit of row `i`, in a column `j ≤ j' < j + k` on the screen, meets a
set pixel of the bitmap `d`. -/
def row_hit (d : Nat → Nat) (sprite vx vy i j k : Nat) : Prop :=
  ∃ j', j ≤ j' ∧ j' < j + k ∧ vx + j' < 64 ∧ sprite_bit sprite j' = 1 ∧
    display_bit d (vx + j' + (vy + i) * 64) = 1

/-- A set sprite bit of one of the rows `i ≤ r < i + k` that lie on the screen
meets a set pixel of the bitmap `d`. -/
def sprite_hit (d memory : Nat → Nat) (address vx vy i k : Nat) : Prop :=
  ∃ r, i ≤ r ∧ r < i + k ∧ vy + r < 32 ∧ row_hit d (memory (address + r)) vx vy r 0 8

/-- A loaded machine that draws the font byte `0xF0` at `(0, 0)` onto a display whose
top-left pixel is already set. -/
def draw_hit_state : Chip8 :=
  { loaded [0xD0, 0x11] with vblank := 1, display := store (loaded [0xD0, 0x11]).display 0 0x80 }

/-- A loaded machine with two consecutive draws `0xD011` of the one-row sprite
`0xFF` stored at `i = 0x204`, display cleared. -/
def draw_twice_state : Chip8 := { loaded [0xD0, 0x11, 0xD0, 0x11, 0xFF] with i := 0x204 }

/-! ## Further example states, host runs and opcode classes -/

/-- A loaded machine whose first instruction is `0xF033`, with `v[0] = 156` and
`i = 0x300`. -/
def bcd_state : Chip8 :=
  { loaded [0xF0, 0x33] with v := store (loaded [0xF0, 0x33]).v 0 156, i := 0x300 }

/-- A loaded machine whose first instruction is `0xF155` (store `v[0]`, `v[1]`),
with `v[0] = 7`, `v[1] = 9` and `i = 0x300`. -/
def block_store_state : Chip8 :=
  { alu_state 0xF1 0x55 7 9 0 with i := 0x300 }

/-- A loaded machine whose first instruction is `0xF165` (fill `v[0]`, `v[1]`),
with `i = 0` so that the bytes read are the font bytes `0xF0`, `0x90`. -/
def block_fill_state : Chip8 := loaded [0xF1, 0x65]

/-- A loaded machine whose first instruction is `0xF055` (store `v[0]`), with
`v[0] = 0x42` and `i = 0` as the load leaves it. -/
def low_write_state : Chip8 := alu_state 0xF0 0x55 0x42 0 0

/-- Runs a sequence of host calls, stopping at undefined behaviour. -/
def run_entries (c : Chip8) : List Entry → Option Chip8
  | [] => some c
  | e :: es =>
    match run_entry c e with
    | none => none
    | some c' => run_entries c' es

/-- The range the code keeps `pc` in: at most 16 stack entries in use, `pc` at
most `0x10FE`, and every return address in use at most `0x1000`. -/
def Chip8.pc_inv (c : Chip8) : Prop :=
  c.sp ≤ 16 ∧ c.pc ≤ 0x10FE ∧ ∀ k, k < c.sp → c.stack k ≤ 0x1000

/-- The machine after loading the single jump `0x1000`. -/
def jump_low_state : Chip8 := loaded [0x10, 0x00]

/-- The machine after loading `0x60FF` (`v[0] = 0xFF`) followed by `0xBFFF` (jump to
`0xFFF + v[0]`). -/
def jump_high_state : Chip8 := loaded [0x60, 0xFF, 0xBF, 0xFF]

/-- The opcodes that reach a `default:` case setting `HLT_UNKNOWN_INSTRUCTION`:
`0x8XYN` with `N` outside `0..7, E`, `0xEXNN` with `NN` outside `9E, A1`, `0xFXNN`
with `NN` outside `07, 0A, 15, 18, 1E, 29, 33, 55, 65`. -/
def unknown_instruction (op : Nat) : Prop :=
  (op &&& 0xF000 = 0x8000 ∧ ¬ (op &&& 0x000F ≤ 7 ∨ op &&& 0x000F = 0xE)) ∨
  (op &&& 0xF000 = 0xE000 ∧ ¬ (op &&& 0x00FF = 0x9E ∨ op &&& 0x00FF = 0xA1)) ∨
  (op &&& 0xF000 = 0xF000 ∧
    ¬ (op &&& 0x00FF = 0x07 ∨ op &&& 0x00FF = 0x0A ∨ op &&& 0x00FF = 0x15 ∨
      op &&& 0x00FF = 0x18 ∨ op &&& 0x00FF = 0x1E ∨ op &&& 0x00FF = 0x29 ∨
      op &&& 0x00FF = 0x33 ∨ op &&& 0x00FF = 0x55 ∨ op &&& 0x00FF = 0x65))

instance (op : Nat) : Decidable (unknown_instruction op) := by
  unfold unknown_instruction
  infer_instance

/-- The machine after loading `22 04 00 00 01 EE`: a call to `0x204`, where the
word `0x01EE` stands. -/
def stray_return_state : Chip8 := loaded [0x22, 0x04, 0x00, 0x00, 0x01, 0xEE]

/-- The machine after loading `D0 01 01 E0`: a draw of the font row at `i = 0`,
then the word `0x01E0`. -/
def stray_clear_state : Chip8 := loaded [0xD0, 0x01, 0x01, 0xE0]

/-! ## Ticks, runs of instructions and their example states -/

/-- The machine after `n` calls of `chip8_vblank`, as the 60 Hz loop of `main.c`
makes them. -/
def ticks : Nat → Chip8 → Chip8
  | 0, c => c
  | n + 1, c => ticks n (chip8_vblank c)

/-- A loaded machine whose first instruction is `0xF015` (delay timer from `v[0]`),
with `v[0] = 3`. -/
def delay_state : Chip8 := alu_state 0xF0 0x15 3 0 0

/-- The machine after the first `k` instructions, `rnd j` being what `rand()`
returns in instruction number `j`; `none` at undefined behaviour. -/
def state_after (rnd : Nat → Nat) (c : Chip8) : Nat → Option Chip8
  | 0 => some c
  | k + 1 =>
    match state_after rnd c k with
    | none => none
    | some s => chip8_next_instruction s (rnd k)

/-- State `b` is state `a` up to `pc` and the stack entries from `a.sp` on. -/
def Chip8.kept (a b : Chip8) : Prop :=
  b.sp = a.sp ∧ (∀ i, i < a.sp → b.stack i = a.stack i) ∧ b.v = a.v ∧ b.i = a.i ∧
  b.memory = a.memory ∧ b.display = a.display ∧ b.halt_code = a.halt_code ∧
  b.timer_delay = a.timer_delay ∧ b.timer_sound = a.timer_sound ∧ b.keys = a.keys ∧
  b.vblank = a.vblank

/-- A ROM of two nested calls and their returns: `0x200` calls `0x206`, `0x206`
calls `0x20A`, and `0x00EE` stands at `0x20A` and at `0x208`. -/
def nested_calls_state : Chip8 :=
  loaded [0x22, 0x06, 0x00, 0x00, 0x00, 0x00, 0x22, 0x0A, 0x00, 0xEE, 0x00, 0xEE]

/-! ## Array accesses in bounds -/

/-- Every array access and shift made by the handler of `opcode` is inside its
array or type: the sprite rows read by a proceeding draw (a row is read before it
is tested against the bottom edge), the shift of the key tests, the font lookup,
the three BCD bytes, the `x + 1` bytes of a block transfer, and the stack slot of
a return or a call. -/
def handler_in_bounds (c : Chip8) (opcode : Nat) : Prop :=
  (opcode &&& 0xF000 = 0xD000 → c.vblank ≠ 0 →
    ∀ r, r < (opcode &&& 0x000F) % 256 →
      (c.v (((opcode &&& 0x00F0) >>> 4) % 256) % DISPLAY_HEIGHT) % 256 + r ≤ DISPLAY_HEIGHT →
      c.i + r < SIZE_MEMORY) ∧
  (opcode &&& 0xF000 = 0xE000 → (opcode &&& 0x00FF = 0x9E ∨ opcode &&& 0x00FF = 0xA1) →
    c.v (((opcode &&& 0x0F00) >>> 8) % 256) < 31) ∧
  (opcode &&& 0xF000 = 0xF000 → opcode &&& 0x00FF = 0x29 →
    c.v (((opcode &&& 0x0F00) >>> 8) % 256) * 5 < SIZE_MEMORY) ∧
  (opcode &&& 0xF000 = 0xF000 → opcode &&& 0x00FF = 0x33 → c.i + 2 < SIZE_MEMORY) ∧
  (opcode &&& 0xF000 = 0xF000 → (opcode &&& 0x00FF = 0x55 ∨ opcode &&& 0x00FF = 0x65) →
    c.i + ((opcode &&& 0x0F00) >>> 8) % 256 < SIZE_MEMORY) ∧
  (opcode &&& 0xF000 = 0x0000 → opcode &&& 0x00FF = 0xEE → c.sp ≠ 0 →
    c.sp - 1 < SIZE_STACK) ∧
  (opcode &&& 0xF000 = 0x2000 → c.sp ≤ SIZE_STACK)

/-- Every array access of `chip8_next_instruction` on state `c` is in bounds: the
two opcode bytes lie in `memory`, and so does what the handler touches. -/
def step_in_bounds (c : Chip8) : Prop :=
  c.pc + 1 < SIZE_MEMORY ∧
  handler_in_bounds c (((c.memory c.pc <<< 8) ||| c.memory (c.pc + 1)) % 65536)

instance (c : Chip8) (opcode : Nat) : Decidable (handler_in_bounds c opcode) := by
  unfold handler_in_bounds
  infer_instance

instance (c : Chip8) : Decidable (step_in_bounds c) := by
  unfold step_in_bounds
  infer_instance

/-- The machine after loading `60 FF AF FF F0 1E 60 36 F0 1E 60 C8 F0 55`: six
instructions bring `i` to `0xFFF + 0xFF + 0x36 = 4404` and `v[0]` to 200, then
`0xF055` stores `v[0]` at `memory[i]`. -/
def stray_store_state : Chip8 :=
  loaded [0x60, 0xFF, 0xAF, 0xFF, 0xF0, 0x1E, 0x60, 0x36, 0xF0, 0x1E, 0x60, 0xC8, 0xF0, 0x55]

/-- Every instruction executed in the run of the host calls `es` from `c` has all
its array accesses in bounds. -/
def run_in_bounds (c : Chip8) : List Entry → Prop
  | [] => True
  | e :: es =>
    (∀ rnd, e = Entry.step rnd → step_in_bounds c) ∧
    (∀ c', run_entry c e = some c' → run_in_bounds c' es)

/-! ## Bit-field decoding -/

theorem and_shiftLeft_mask (x m k : Nat) : x &&& (m <<< k) = ((x >>> k) &&& m) <<< k := by
  apply Nat.eq_of_testBit_eq
  intro i
  simp only [Nat.testBit_and, Nat.testBit_shiftLeft, Nat.testBit_shiftRight]
  by_cases h : k ≤ i
  · have : k + (i - k) = i := by omega
    simp [h, this]
  · simp [h]

theorem and_F000 (x : Nat) : x &&& 0xF000 = (x / 4096 % 16) * 4096 := by
  have h := and_shiftLeft_mask x 0xF 12
  have h2 : (x >>> 12) &&& 0xF = x / 4096 % 16 := by
    rw [Nat.shiftRight_eq_div_pow]
    exact Nat.and_pow_two_sub_one_eq_mod _ 4
  rw [h2] at h
  have h3 : x &&& 0xF000 = (x / 4096 % 16) <<< 12 := h
  rw [h3, Nat.shiftLeft_eq]

theorem and_0F00_shr (x : Nat) : (x &&& 0x0F00) >>> 8 = x / 256 % 16 := by
  have h := and_shiftLeft_mask x 0xF 8
  have h2 : (x >>> 8) &&& 0xF = x / 256 % 16 := by
    rw [Nat.shiftRight_eq_div_pow]
    exact Nat.and_pow_two_sub_one_eq_mod _ 4
  rw [h2] at h
  have h3 : x &&& 0x0F00 = (x / 256 % 16) <<< 8 := h
  rw [h3, Nat.shiftLeft_eq, Nat.shiftRight_eq_div_pow]
  omega

theorem and_00F0_shr (x : Nat) : (x &&& 0x00F0) >>> 4 = x / 16 % 16 := by
  have h := and_shiftLeft_mask x 0xF 4
  have h2 : (x >>> 4) &&& 0xF = x / 16 % 16 := by
    rw [Nat.shiftRight_eq_div_pow]
    exact Nat.and_pow_two_sub_one_eq_mod _ 4
  rw [h2] at h
  have h3 : x &&& 0x00F0 = (x / 16 % 16) <<< 4 := h
  rw [h3, Nat.shiftLeft_eq, Nat.shiftRight_eq_div_pow]
  omega

theorem and_000F (x : Nat) : x &&& 0x000F = x % 16 := Nat.and_pow_two_sub_one_eq_mod x 4

theorem and_00FF (x : Nat) : x &&& 0x00FF = x % 256 := Nat.and_pow_two_sub_one_eq_mod x 8

theorem and_0FFF (x : Nat) : x &&& 0x0FFF = x % 4096 := Nat.and_pow_two_sub_one_eq_mod x 12

/-! ## Basic facts on the array primitives -/

@[simp] theorem store_same (a : Nat → Nat) (k val : Nat) : store a k val k = val := by
  simp [store]

theorem store_other (a : Nat → Nat) (k val j : Nat) (h : j ≠ k) : store a k val j = a j := by
  simp [store, h]

theorem store_apply (a : Nat → Nat) (k val j : Nat) :
    store a k val j = if j = k then val else a j := rfl

/-! ## Fetch and dispatch -/

theorem fetch_some (c : Chip8) (op : Nat) (hop : chip8_current_instruction c = some op) :
    c.pc + 1 < 4096 ∧ ((c.memory c.pc <<< 8) ||| c.memory (c.pc + 1)) % 65536 = op := by
  unfold chip8_current_instruction SIZE_MEMORY at hop
  split_ifs at hop with h
  exact ⟨h, Option.some.inj hop⟩

theorem step_0x0NNN (c : Chip8) (rnd op : Nat) (hop : chip8_current_instruction c = some op)
    (h : op &&& 0xF000 = 0x0000) :
    chip8_next_instruction c rnd = op_0x0NNN { c with pc := (c.pc + 2) % 65536 } op := by
  obtain ⟨h1, h2⟩ := fetch_some c op hop
  simp [chip8_next_instruction, SIZE_MEMORY, h1, h2, h]

theorem step_0x2NNN (c : Chip8) (rnd op : Nat) (hop : chip8_current_instruction c = some op)
    (h : op &&& 0xF000 = 0x2000) :
    chip8_next_instruction c rnd = op_0x2000 { c with pc := (c.pc + 2) % 65536 } op := by
  obtain ⟨h1, h2⟩ := fetch_some c op hop
  simp [chip8_next_instruction, SIZE_MEMORY, h1, h2, h]

theorem step_0x8XYN (c : Chip8) (rnd op : Nat) (hop : chip8_current_instruction c = some op)
    (h : op &&& 0xF000 = 0x8000) :
    chip8_next_instruction c rnd = some (op_0x8XYN { c with pc := (c.pc + 2) % 65536 } op) := by
  obtain ⟨h1, h2⟩ := fetch_some c op hop
  simp [chip8_next_instruction, SIZE_MEMORY, h1, h2, h]

theorem step_0xDXYN (c : Chip8) (rnd op : Nat) (hop : chip8_current_instruction c = some op)
    (h : op &&& 0xF000 = 0xD000) :
    chip8_next_instruction c rnd = op_0xDXYN { c with pc := (c.pc + 2) % 65536 } op := by
  obtain ⟨h1, h2⟩ := fetch_some c op hop
  simp [chip8_next_instruction, SIZE_MEMORY, h1, h2, h]

theorem step_0xEXNN (c : Chip8) (rnd op : Nat) (hop : chip8_current_instruction c = some op)
    (h : op &&& 0xF000 = 0xE000) :
    chip8_next_instruction c rnd = op_0xEXNN { c with pc := (c.pc + 2) % 65536 } op := by
  obtain ⟨h1, h2⟩ := fetch_some c op hop
  simp [chip8_next_instruction, SIZE_MEMORY, h1, h2, h]

theorem step_0xFXNN (c : Chip8) (rnd op : Nat) (hop : chip8_current_instruction c = some op)
    (h : op &&& 0xF000 = 0xF000) :
    chip8_next_instruction c rnd = op_0xFXNN { c with pc := (c.pc + 2) % 65536 } op := by
  obtain ⟨h1, h2⟩ := fetch_some c op hop
  simp [chip8_next_instruction, SIZE_MEMORY, h1, h2, h]

/-! ## Reset and load, field by field -/

theorem chip8_load_ok (c : Chip8) (bytes : List Nat) (hlen : bytes.length ≤ 3584) :
    chip8_load c (some bytes) =
      (0, { clear_chip8 c with memory := fread_at (clear_chip8 c).memory 0x200 bytes }) := by
  have : ¬ bytes.length > 4096 - 0x200 := by omega
  simp only [chip8_load, SIZE_MEMORY, ADDRESS_CODE_BEG, this, if_false]

theorem clear_chip8_memory (c : Chip8) (a : Nat) (ha : a < 4096) :
    (clear_chip8 c).memory a = if a < 80 then FONT_DATA.getD a 0 else 0 := by
  have hlen : FONT_DATA.length = 80 := rfl
  simp only [clear_chip8, memcpy_list, memset_zero, SIZE_MEMORY, hlen, ha, if_true]

/-- What `clear_chip8` does to every field, from any prior state: display,
registers and the scalar fields are reset, the stack entries 0 to 7 are zeroed, and
the stack entries 8 to 15 keep their prior value. -/
theorem clear_chip8_fields (c : Chip8) :
    (∀ a, a < 256 → (clear_chip8 c).display a = 0) ∧
    (∀ k, k < 16 → (clear_chip8 c).v k = 0) ∧
    (∀ k, k < 8 → (clear_chip8 c).stack k = 0) ∧
    (∀ k, 8 ≤ k → (clear_chip8 c).stack k = c.stack k) ∧
    (clear_chip8 c).i = 0 ∧ (clear_chip8 c).pc = 0x200 ∧ (clear_chip8 c).sp = 0 ∧
    (clear_chip8 c).halt_code = HaltCode.HLT_NONE ∧
    (clear_chip8 c).timer_delay = 0 ∧ (clear_chip8 c).timer_sound = 0 ∧
    (clear_chip8 c).keys = 0 ∧ (clear_chip8 c).vblank = 0 := by
  refine ⟨?_, ?_, ?_, ?_, rfl, rfl, rfl, rfl, rfl, rfl, rfl, rfl⟩
  · intro a ha
    simp only [clear_chip8, memset_zero, SIZE_DISPLAY, ha, if_true]
  · intro k hk
    simp only [clear_chip8, memset_zero, SIZE_V, hk, if_true]
  · intro k hk
    have : 2 * k + 2 ≤ 16 := by omega
    simp only [clear_chip8, memset_zero16, SIZE_STACK, this, if_true]
  · intro k hk
    have : ¬ 2 * k + 2 ≤ 16 := by omega
    simp only [clear_chip8, memset_zero16, SIZE_STACK, this, if_false]

/-! ## When a step is defined

The model returns `none` exactly where the C code would access an array out of
bounds or shift an `int` too far.  The conditions below rule those accesses out,
so the results about the states a step produces are not vacuous. -/

theorem field_x_lt (op : Nat) : ((op &&& 0x0F00) >>> 8) % 256 < 16 := by
  rw [and_0F00_shr]; omega

/-- The outer draw loop completes when the sprite rows lie inside the memory. -/
theorem draw_rows_some (memory : Nat → Nat) (address vx vy : Nat) :
    ∀ (k i : Nat) (st : (Nat → Nat) × Nat), address + i + k ≤ 4096 →
      ∃ st', draw_rows memory address vx vy k i st = some st' := by
  intro k
  induction k with
  | zero => intro i st _; exact ⟨st, rfl⟩
  | succ k ih =>
    intro i st h
    have h1 : address + i < SIZE_MEMORY := by unfold SIZE_MEMORY; omega
    unfold draw_rows
    rw [if_pos h1]
    dsimp only
    split_ifs
    · exact ⟨st, rfl⟩
    · exact ih (i + 1) _ (by omega)

theorem store_loop_some (v : Nat → Nat) (I : Nat) :
    ∀ (k i : Nat) (m : Nat → Nat), I + i + k ≤ 4096 →
      ∃ m', store_loop v I k i m = some m' := by
  intro k
  induction k with
  | zero => intro i m _; exact ⟨m, rfl⟩
  | succ k ih =>
    intro i m h
    have h1 : I + i < SIZE_MEMORY := by unfold SIZE_MEMORY; omega
    unfold store_loop
    rw [if_pos h1]
    exact ih (i + 1) _ (by omega)

theorem fill_loop_some (memory : Nat → Nat) (I : Nat) :
    ∀ (k i : Nat) (v : Nat → Nat), I + i + k ≤ 4096 →
      ∃ v', fill_loop memory I k i v = some v' := by
  intro k
  induction k with
  | zero => intro i v _; exact ⟨v, rfl⟩
  | succ k ih =>
    intro i v h
    have h1 : I + i < SIZE_MEMORY := by unfold SIZE_MEMORY; omega
    unfold fill_loop
    rw [if_pos h1]
    exact ih (i + 1) _ (by omega)

theorem op_0x0NNN_some (c : Chip8) (op : Nat) (hsp : c.sp ≤ 16) :
    ∃ c', op_0x0NNN c op = some c' := by
  unfold op_0x0NNN
  split
  · exact ⟨_, rfl⟩
  · by_cases h0 : c.sp = 0
    · rw [if_pos h0]; exact ⟨_, rfl⟩
    · have h1 : c.sp - 1 < SIZE_STACK := by unfold SIZE_STACK; omega
      rw [if_neg h0, if_pos h1]; exact ⟨_, rfl⟩
  · exact ⟨_, rfl⟩

theorem op_0x2000_some (c : Chip8) (op : Nat) (hsp : c.sp ≤ 16) :
    ∃ c', op_0x2000 c op = some c' := by
  unfold op_0x2000 SIZE_STACK
  dsimp only
  by_cases h0 : c.sp = 16
  · rw [if_pos h0]; exact ⟨_, rfl⟩
  · have h1 : c.sp < 16 := by omega
    rw [if_neg h0, if_pos h1]; exact ⟨_, rfl⟩

theorem op_0xDXYN_some (c : Chip8) (op : Nat) (hi : c.i + 16 ≤ 4096) :
    ∃ c', op_0xDXYN c op = some c' := by
  have hcount : (op &&& 0x000F) % 256 ≤ 15 := by rw [and_000F]; omega
  obtain ⟨st, hst⟩ := draw_rows_some c.memory c.i
    ((c.v (((op &&& 0x0F00) >>> 8) % 256) % DISPLAY_WIDTH) % 256)
    ((c.v (((op &&& 0x00F0) >>> 4) % 256) % DISPLAY_HEIGHT) % 256)
    ((op &&& 0x000F) % 256) 0 (c.display, 0) (by omega)
  unfold op_0xDXYN
  dsimp only
  split_ifs
  · exact ⟨_, rfl⟩
  · rw [hst]; exact ⟨_, rfl⟩

theorem op_0xEXNN_some (c : Chip8) (op : Nat)
    (hv : c.v (((op &&& 0x0F00) >>> 8) % 256) < 31) : ∃ c', op_0xEXNN c op = some c' := by
  unfold op_0xEXNN
  dsimp only
  split
  · rw [if_pos hv]; split_ifs <;> exact ⟨_, rfl⟩
  · rw [if_pos hv]; split_ifs <;> exact ⟨_, rfl⟩
  · exact ⟨_, rfl⟩

theorem op_0xFXNN_some (c : Chip8) (op : Nat)
    (hv : c.v (((op &&& 0x0F00) >>> 8) % 256) < 256) (hi : c.i + 16 ≤ 4096) :
    ∃ c', op_0xFXNN c op = some c' := by
  have hx := field_x_lt op
  unfold op_0xFXNN
  dsimp only
  split
  · exact ⟨_, rfl⟩
  · split_ifs <;> exact ⟨_, rfl⟩
  · exact ⟨_, rfl⟩
  · exact ⟨_, rfl⟩
  · exact ⟨_, rfl⟩
  · have h1 : c.v (((op &&& 0x0F00) >>> 8) % 256) * 5 < SIZE_MEMORY := by
      unfold SIZE_MEMORY; omega
    rw [if_pos h1]; exact ⟨_, rfl⟩
  · have h1 : c.i + 2 < SIZE_MEMORY := by unfold SIZE_MEMORY; omega
    rw [if_pos h1]; exact ⟨_, rfl⟩
  · obtain ⟨m, hm⟩ := store_loop_some c.v c.i ((((op &&& 0x0F00) >>> 8) % 256) + 1) 0
      c.memory (by omega)
    rw [hm]; exact ⟨_, rfl⟩
  · obtain ⟨w, hw⟩ := fill_loop_some c.memory c.i ((((op &&& 0x0F00) >>> 8) % 256) + 1) 0
      c.v (by omega)
    rw [hw]; exact ⟨_, rfl⟩
  · exact ⟨_, rfl⟩

/-- A step produces a state whenever the two opcode bytes lie in memory, `sp ≤ 16`,
the sixteen bytes from `i` on lie in memory, the registers hold bytes, and a key
test (`0xEX9E`, `0xEXA1`) is not asked to shift by 31 or more. -/
theorem chip8_next_instruction_defined (c : Chip8) (rnd : Nat)
    (hpc : c.pc + 1 < 4096) (hsp : c.sp ≤ 16) (hi : c.i + 16 ≤ 4096)
    (hv : ∀ k, k < 16 → c.v k < 256)
    (hkey : ∀ op, chip8_current_instruction c = some op → op &&& 0xF000 = 0xE000 →
      c.v (((op &&& 0x0F00) >>> 8) % 256) < 31) :
    ∃ c', chip8_next_instruction c rnd = some c' := by
  have hfetch : chip8_current_instruction c =
      some (((c.memory c.pc <<< 8) ||| c.memory (c.pc + 1)) % 65536) := by
    have : c.pc + 1 < SIZE_MEMORY := hpc
    simp only [chip8_current_instruction, this, if_true]
  have hpc' : c.pc + 1 < SIZE_MEMORY := hpc
  unfold chip8_next_instruction
  rw [if_pos hpc']
  dsimp only
  split
  · exact op_0x0NNN_some _ _ hsp
  · exact ⟨_, rfl⟩
  · exact op_0x2000_some _ _ hsp
  · split_ifs <;> exact ⟨_, rfl⟩
  · split_ifs <;> exact ⟨_, rfl⟩
  · split_ifs <;> exact ⟨_, rfl⟩
  · exact ⟨_, rfl⟩
  · exact ⟨_, rfl⟩
  · exact ⟨_, rfl⟩
  · split_ifs <;> exact ⟨_, rfl⟩
  · exact ⟨_, rfl⟩
  · exact ⟨_, rfl⟩
  · exact ⟨_, rfl⟩
  · exact op_0xDXYN_some _ _ hi
  · rename_i hE
    exact op_0xEXNN_some _ _ (hkey _ hfetch hE)
  · exact op_0xFXNN_some _ _ (hv _ (field_x_lt _)) hi
  · exact ⟨_, rfl⟩

/-! ## Values stay in the range of their C type

The stores of the model truncate as the C assignments do, so a machine whose
fields hold bytes and 16-bit words steps to such a machine: the range hypotheses
of the results below (`c.v x < 256`) hold along every execution. -/

theorem store_lt (a : Nat → Nat) (n B j val : Nat) (h : ∀ k, k < n → a k < B)
    (hval : val < B) : ∀ k, k < n → store a j val k < B := by
  intro k hk
  unfold store
  split_ifs
  · exact hval
  · exact h k hk

theorem WF_v (c : Chip8) (w : Nat → Nat) (h : c.WF) (hw : ∀ k, k < 16 → w k < 256) :
    Chip8.WF { c with v := w } := by
  obtain ⟨h1, h2, h3, h4, h5⟩ := h
  exact ⟨h1, h2, h3, hw, h5⟩

theorem WF_pc (c : Chip8) (p : Nat) (h : c.WF) (hp : p < 65536) :
    Chip8.WF { c with pc := p } := by
  obtain ⟨h1, h2, h3, h4, h5, h6, h7⟩ := h
  exact ⟨h1, h2, h3, h4, h5, hp, h7⟩

theorem WF_i (c : Chip8) (p : Nat) (h : c.WF) (hp : p < 65536) :
    Chip8.WF { c with i := p } := by
  obtain ⟨h1, h2, h3, h4, h5, h6⟩ := h
  exact ⟨h1, h2, h3, h4, hp, h6⟩

theorem WF_halt (c : Chip8) (hc : HaltCode) (h : c.WF) :
    Chip8.WF { c with halt_code := hc } := h

theorem WF_display (c : Chip8) (d : Nat → Nat) (h : c.WF) (hd : ∀ a, a < 256 → d a < 256) :
    Chip8.WF { c with display := d } := by
  obtain ⟨h1, h2, h3⟩ := h
  exact ⟨h1, hd, h3⟩

theorem WF_memory (c : Chip8) (m : Nat → Nat) (h : c.WF) (hm : ∀ a, a < 4096 → m a < 256) :
    Chip8.WF { c with memory := m } := by
  obtain ⟨h1, h2⟩ := h
  exact ⟨hm, h2⟩

theorem op_0x8XYN_WF (c : Chip8) (op : Nat) (h : c.WF) : (op_0x8XYN c op).WF := by
  have hv := h.2.2.2.1
  have hx := hv _ (field_x_lt op)
  have hy : c.v (((op &&& 0x00F0) >>> 4) % 256) < 256 :=
    hv _ (by rw [and_00F0_shr]; omega)
  unfold op_0x8XYN
  dsimp only
  split
  · exact WF_v c _ h (store_lt _ _ _ _ _ hv hy)
  · exact WF_v c _ h (store_lt _ _ _ _ _ (store_lt _ _ _ _ _ hv (Nat.mod_lt _ (by decide)))
      (by decide))
  · exact WF_v c _ h (store_lt _ _ _ _ _ (store_lt _ _ _ _ _ hv (Nat.mod_lt _ (by decide)))
      (by decide))
  · exact WF_v c _ h (store_lt _ _ _ _ _ (store_lt _ _ _ _ _ hv (Nat.mod_lt _ (by decide)))
      (by decide))
  · exact WF_v c _ h (store_lt _ _ _ _ _ (store_lt _ _ _ _ _ hv (Nat.mod_lt _ (by decide)))
      (by split_ifs <;> decide))
  · exact WF_v c _ h (store_lt _ _ _ _ _ (store_lt _ _ _ _ _ hv (by omega))
      (by split_ifs <;> decide))
  · exact WF_v c _ h (store_lt _ _ _ _ _ (store_lt _ _ _ _ _ hv (Nat.mod_lt _ (by decide)))
      (Nat.mod_lt _ (by decide)))
  · exact WF_v c _ h (store_lt _ _ _ _ _ (store_lt _ _ _ _ _ hv (by omega))
      (by split_ifs <;> decide))
  · exact WF_v c _ h (store_lt _ _ _ _ _ (store_lt _ _ _ _ _ hv (Nat.mod_lt _ (by decide)))
      (Nat.mod_lt _ (by decide)))
  · exact WF_halt c _ h

theorem op_0x0NNN_WF (c c' : Chip8) (op : Nat) (h : c.WF) (hs : op_0x0NNN c op = some c') :
    c'.WF := by
  unfold op_0x0NNN at hs
  split at hs
  · cases hs
    refine WF_display c _ h ?_
    intro a _
    unfold memset_zero
    split_ifs
    · decide
    · exact h.2.1 a (by assumption)
  · split_ifs at hs with h0 h1
    · cases hs; exact WF_halt c _ h
    · cases hs
      obtain ⟨g1, g2, g3, g4, g5, g6, g7, g8⟩ := h
      exact ⟨g1, g2, g3, g4, g5, g3 _ h1, by dsimp only; omega, g8⟩
  · cases hs; exact h

theorem op_0x2000_WF (c c' : Chip8) (op : Nat) (h : c.WF) (hs : op_0x2000 c op = some c') :
    c'.WF := by
  unfold op_0x2000 at hs
  dsimp only at hs
  split_ifs at hs with h0 h1
  · cases hs; exact WF_halt c _ h
  · cases hs
    obtain ⟨g1, g2, g3, g4, g5, g6, g7, g8⟩ := h
    refine ⟨g1, g2, store_lt _ _ _ _ _ g3 g6, g4, g5, ?_, Nat.mod_lt _ (by decide), g8⟩
    dsimp only
    rw [and_0FFF]; omega

theorem draw_cols_WF (sprite vx vy i : Nat) :
    ∀ (k j : Nat) (st : (Nat → Nat) × Nat),
      (∀ a, a < 256 → st.1 a < 256) → st.2 < 256 →
      (∀ a, a < 256 → (draw_cols sprite vx vy i k j st).1 a < 256) ∧
        (draw_cols sprite vx vy i k j st).2 < 256 := by
  intro k
  induction k with
  | zero => intro j st h1 h2; exact ⟨h1, h2⟩
  | succ k ih =>
    intro j st h1 h2
    unfold draw_cols
    split_ifs with hw
    · exact ⟨h1, h2⟩
    · dsimp only
      apply ih
      · exact store_lt _ _ _ _ _ h1 (Nat.mod_lt _ (by decide))
      · dsimp only
        split_ifs
        · decide
        · exact h2

theorem draw_rows_WF (memory : Nat → Nat) (address vx vy : Nat) :
    ∀ (k i : Nat) (st st' : (Nat → Nat) × Nat),
      (∀ a, a < 256 → st.1 a < 256) → st.2 < 256 →
      draw_rows memory address vx vy k i st = some st' →
      (∀ a, a < 256 → st'.1 a < 256) ∧ st'.2 < 256 := by
  intro k
  induction k with
  | zero =>
    intro i st st' h1 h2 hs
    cases hs
    exact ⟨h1, h2⟩
  | succ k ih =>
    intro i st st' h1 h2 hs
    unfold draw_rows at hs
    split_ifs at hs with ha hb
    · cases hs; exact ⟨h1, h2⟩
    · obtain ⟨g1, g2⟩ := draw_cols_WF (memory (address + i)) vx vy i 8 0 st h1 h2
      exact ih (i + 1) _ st' g1 g2 hs

theorem op_0xDXYN_WF (c c' : Chip8) (op : Nat) (h : c.WF) (hs : op_0xDXYN c op = some c') :
    c'.WF := by
  unfold op_0xDXYN at hs
  dsimp only at hs
  split_ifs at hs with h0
  · cases hs
    refine WF_pc c _ h ?_
    omega
  · split at hs
    · cases hs
    · rename_i st hst
      cases hs
      have h0 : (0 : Nat) < 256 := by decide
      obtain ⟨g1, g2⟩ := draw_rows_WF _ _ _ _ _ _ _ st h.2.1 h0 hst
      obtain ⟨k1, k2, k3, k4, k5, k6, k7, k8, k9, k10, k11⟩ := h
      exact ⟨k1, g1, k3, store_lt _ _ _ _ _ k4 g2, k5, k6, k7, k8, k9, k10, h0⟩

theorem op_0xEXNN_WF (c c' : Chip8) (op : Nat) (h : c.WF) (hs : op_0xEXNN c op = some c') :
    c'.WF := by
  unfold op_0xEXNN at hs
  dsimp only at hs
  have hp : (c.pc + 2) % 65536 < 65536 := Nat.mod_lt _ (by decide)
  split at hs
  · split_ifs at hs
    all_goals first
      | (cases hs; exact h)
      | (cases hs; exact WF_pc c _ h hp)
  · split_ifs at hs
    all_goals first
      | (cases hs; exact h)
      | (cases hs; exact WF_pc c _ h hp)
  · cases hs; exact WF_halt c _ h

theorem key_loop_WF (keys x : Nat) :
    ∀ (k i : Nat) (v : Nat → Nat), (∀ a, a < 16 → v a < 256) →
      ∀ a, a < 16 → key_loop keys x k i v a < 256 := by
  intro k
  induction k with
  | zero => intro i v h; exact h
  | succ k ih =>
    intro i v h
    unfold key_loop
    split_ifs
    · exact store_lt _ _ _ _ _ h (Nat.mod_lt _ (by decide))
    · exact ih (i + 1) v h

theorem store_loop_WF (v : Nat → Nat) (I : Nat) (hv : ∀ a, a < 16 → v a < 256) :
    ∀ (k i : Nat) (m m' : Nat → Nat), i + k ≤ 16 → (∀ a, a < 4096 → m a < 256) →
      store_loop v I k i m = some m' → ∀ a, a < 4096 → m' a < 256 := by
  intro k
  induction k with
  | zero =>
    intro i m m' _ h hs
    cases hs
    exact h
  | succ k ih =>
    intro i m m' hik h hs
    unfold store_loop at hs
    split_ifs at hs
    exact ih (i + 1) _ m' (by omega) (store_lt _ _ _ _ _ h (hv i (by omega))) hs

theorem fill_loop_WF (memory : Nat → Nat) (I : Nat) (hm : ∀ a, a < 4096 → memory a < 256) :
    ∀ (k i : Nat) (v v' : Nat → Nat), (∀ a, a < 16 → v a < 256) →
      fill_loop memory I k i v = some v' → ∀ a, a < 16 → v' a < 256 := by
  intro k
  induction k with
  | zero =>
    intro i v v' h hs
    cases hs
    exact h
  | succ k ih =>
    intro i v v' h hs
    unfold fill_loop at hs
    split_ifs at hs with hb
    exact ih (i + 1) _ v' (store_lt _ _ _ _ _ h (hm _ hb)) hs

theorem op_0xFXNN_WF (c c' : Chip8) (op : Nat) (h : c.WF) (hs : op_0xFXNN c op = some c') :
    c'.WF := by
  have hx16 := field_x_lt op
  have hall := h
  obtain ⟨k1, k2, k3, k4, k5, k6, k7, k8, k9, k10, k11⟩ := h
  have hx := k4 _ hx16
  unfold op_0xFXNN at hs
  dsimp only at hs
  split at hs
  · cases hs; exact WF_v c _ hall (store_lt _ _ _ _ _ k4 k8)
  · split_ifs at hs
    · cases hs; exact WF_pc c _ hall (by omega)
    · cases hs; exact WF_v c _ hall (key_loop_WF _ _ _ _ _ k4)
  · cases hs; exact ⟨k1, k2, k3, k4, k5, k6, k7, hx, k9, k10, k11⟩
  · cases hs; exact ⟨k1, k2, k3, k4, k5, k6, k7, k8, hx, k10, k11⟩
  · cases hs; exact WF_i c _ hall (Nat.mod_lt _ (by decide))
  · split_ifs at hs with hb
    · cases hs
      have := k1 _ hb
      exact WF_i c _ hall (by omega)
  · split_ifs at hs with hb
    · cases hs
      refine WF_memory c _ hall ?_
      exact store_lt _ _ _ _ _ (store_lt _ _ _ _ _ (store_lt _ _ _ _ _ k1
        (Nat.mod_lt _ (by decide))) (Nat.mod_lt _ (by decide))) (Nat.mod_lt _ (by decide))
  · split at hs
    · cases hs
    · rename_i m hm
      cases hs
      have g := store_loop_WF c.v c.i k4 _ 0 c.memory m (by omega) k1 hm
      exact ⟨g, k2, k3, k4, Nat.mod_lt _ (by decide), k6, k7, k8, k9, k10, k11⟩
  · split at hs
    · cases hs
    · rename_i w hw
      cases hs
      have g := fill_loop_WF c.memory c.i k1 _ 0 c.v w k4 hw
      exact ⟨k1, k2, k3, g, Nat.mod_lt _ (by decide), k6, k7, k8, k9, k10, k11⟩
  · cases hs; exact WF_halt c _ hall

theorem chip8_next_instruction_WF (c c' : Chip8) (rnd : Nat) (h : c.WF)
    (hs : chip8_next_instruction c rnd = some c') : c'.WF := by
  have hp : (c.pc + 2) % 65536 < 65536 := Nat.mod_lt _ (by decide)
  have hp2 : ((c.pc + 2) % 65536 + 2) % 65536 < 65536 := Nat.mod_lt _ (by decide)
  have hc1 : Chip8.WF { c with pc := (c.pc + 2) % 65536 } := WF_pc c _ h hp
  have hv := h.2.2.2.1
  unfold chip8_next_instruction at hs
  dsimp only at hs
  split at hs
  case isFalse => cases hs
  split at hs
  · exact op_0x0NNN_WF _ _ _ hc1 hs
  · cases hs; exact WF_pc c _ h (Nat.mod_lt _ (by decide))
  · exact op_0x2000_WF _ _ _ hc1 hs
  · split_ifs at hs
    all_goals first
      | (cases hs; exact hc1)
      | (cases hs; exact WF_pc c _ h hp2)
  · split_ifs at hs
    all_goals first
      | (cases hs; exact hc1)
      | (cases hs; exact WF_pc c _ h hp2)
  · split_ifs at hs
    all_goals first
      | (cases hs; exact hc1)
      | (cases hs; exact WF_pc c _ h hp2)
  · cases hs
    exact WF_v _ _ hc1 (store_lt _ _ _ _ _ hv (Nat.mod_lt _ (by decide)))
  · cases hs
    exact WF_v _ _ hc1 (store_lt _ _ _ _ _ hv (Nat.mod_lt _ (by decide)))
  · cases hs; exact op_0x8XYN_WF _ _ hc1
  · split_ifs at hs
    all_goals first
      | (cases hs; exact hc1)
      | (cases hs; exact WF_pc c _ h hp2)
  · cases hs; exact WF_i _ _ hc1 (Nat.mod_lt _ (by decide))
  · cases hs; exact WF_pc c _ h (Nat.mod_lt _ (by decide))
  · cases hs
    exact WF_v _ _ hc1 (store_lt _ _ _ _ _ hv (Nat.mod_lt _ (by decide)))
  · exact op_0xDXYN_WF _ _ _ hc1 hs
  · exact op_0xEXNN_WF _ _ _ hc1 hs
  · exact op_0xFXNN_WF _ _ _ hc1 hs
  · cases hs; exact hc1

theorem chip8_vblank_WF (c : Chip8) (h : c.WF) : (chip8_vblank c).WF := by
  obtain ⟨k1, k2, k3, k4, k5, k6, k7, k8, k9, k10, k11⟩ := h
  have h1 : (1 : Nat) < 256 := by decide
  unfold chip8_vblank
  dsimp only
  split_ifs
  · exact ⟨k1, k2, k3, k4, k5, k6, k7, by dsimp only; omega, by dsimp only; omega, k10, h1⟩
  · exact ⟨k1, k2, k3, k4, k5, k6, k7, by dsimp only; omega, k9, k10, h1⟩
  · exact ⟨k1, k2, k3, k4, k5, k6, k7, k8, by dsimp only; omega, k10, h1⟩
  · exact ⟨k1, k2, k3, k4, k5, k6, k7, k8, k9, k10, h1⟩

theorem chip8_key_down_WF (c : Chip8) (key : Nat) (h : c.WF) : (chip8_key_down c key).WF := by
  obtain ⟨k1, k2, k3, k4, k5, k6, k7, k8, k9, k10, k11⟩ := h
  exact ⟨k1, k2, k3, k4, k5, k6, k7, k8, k9, Nat.mod_lt _ (by decide), k11⟩

theorem chip8_key_up_WF (c : Chip8) (key : Nat) (h : c.WF) : (chip8_key_up c key).WF := by
  obtain ⟨k1, k2, k3, k4, k5, k6, k7, k8, k9, k10, k11⟩ := h
  exact ⟨k1, k2, k3, k4, k5, k6, k7, k8, k9, Nat.mod_lt _ (by decide), k11⟩

theorem FONT_DATA_lt : ∀ j, j < 80 → FONT_DATA.getD j 0 < 256 := by decide

theorem clear_chip8_WF (c : Chip8) (h : c.WF) : (clear_chip8 c).WF := by
  have h0 : (0 : Nat) < 256 := by decide
  have h16 : (0 : Nat) < 65536 := by decide
  have hf := clear_chip8_fields c
  obtain ⟨f1, f2, f3, f4, f5, f6, f7, f8, f9, f10, f11, f12⟩ := hf
  refine ⟨?_, ?_, ?_, ?_, ?_, ?_, ?_, ?_, ?_, ?_, ?_⟩
  · intro a ha
    rw [clear_chip8_memory c a ha]
    split_ifs with h80
    · exact FONT_DATA_lt a h80
    · exact h0
  · intro a ha; rw [f1 a ha]; exact h0
  · intro k hk
    by_cases h8 : k < 8
    · rw [f3 k h8]; exact h16
    · rw [f4 k (by omega)]; exact h.2.2.1 k hk
  · intro k hk; rw [f2 k hk]; exact h0
  · rw [f5]; exact h16
  · rw [f6]; decide
  · rw [f7]; exact h0
  · rw [f9]; exact h0
  · rw [f10]; exact h0
  · rw [f11]; exact h16
  · rw [f12]; exact h0

theorem chip8_load_WF (c : Chip8) (file : Option (List Nat)) (h : c.WF)
    (hb : (Entry.load file).bytes_ok) : (chip8_load c file).2.WF := by
  unfold chip8_load
  split
  · exact h
  · rename_i bytes
    dsimp only
    split_ifs
    · exact h
    · refine WF_memory _ _ (clear_chip8_WF c h) ?_
      intro a ha
      unfold fread_at
      split_ifs with hin
      · rw [List.getD_eq_getElem _ _ (by omega)]
        exact hb _ (List.getElem_mem _)
      · exact (clear_chip8_WF c h).1 a ha

/-- Every host call that produces a state takes a machine whose fields are in the
range of their C types to such a machine. -/
theorem run_entry_WF (c c' : Chip8) (e : Entry) (h : c.WF) (hb : e.bytes_ok)
    (hs : run_entry c e = some c') : c'.WF := by
  cases e with
  | step rnd => exact chip8_next_instruction_WF c c' rnd h hs
  | vblank =>
    simp only [run_entry, Option.some.injEq] at hs
    rw [← hs]; exact chip8_vblank_WF c h
  | key_down key =>
    simp only [run_entry, Option.some.injEq] at hs
    rw [← hs]; exact chip8_key_down_WF c key h
  | key_up key =>
    simp only [run_entry, Option.some.injEq] at hs
    rw [← hs]; exact chip8_key_up_WF c key h
  | load file =>
    simp only [run_entry, Option.some.injEq] at hs
    rw [← hs]; exact chip8_load_WF c file h hb

theorem blank_WF : blank.WF := by
  have h8 : (0 : Nat) < 256 := by decide
  have h16 : (0 : Nat) < 65536 := by decide
  exact ⟨fun _ _ => h8, fun _ _ => h8, fun _ _ => h16, fun _ _ => h8, h16, h16, h8, h8, h8,
    h16, h8⟩

/-! ## The stack pointer through each handler -/

theorem op_0x0NNN_sp (c c' : Chip8) (opcode : Nat) (h : op_0x0NNN c opcode = some c') :
    c'.sp ≤ c.sp := by
  unfold op_0x0NNN at h
  split at h
  · cases h; exact Nat.le_refl _
  · split_ifs at h <;> cases h <;> simp
  · cases h; exact Nat.le_refl _

theorem op_0x2000_sp (c c' : Chip8) (opcode : Nat) (h : op_0x2000 c opcode = some c') :
    c'.sp ≤ 16 := by
  unfold op_0x2000 SIZE_STACK at h
  split_ifs at h with h1 h2 <;> cases h <;> simp <;> omega

theorem op_0x8XYN_sp (c : Chip8) (opcode : Nat) : (op_0x8XYN c opcode).sp = c.sp := by
  unfold op_0x8XYN
  dsimp only
  split <;> rfl

theorem op_0xDXYN_sp (c c' : Chip8) (opcode : Nat) (h : op_0xDXYN c opcode = some c') :
    c'.sp = c.sp := by
  unfold op_0xDXYN at h
  dsimp only at h
  split_ifs at h
  · cases h; rfl
  · split at h
    · cases h
    · cases h; rfl

theorem op_0xEXNN_sp (c c' : Chip8) (opcode : Nat) (h : op_0xEXNN c opcode = some c') :
    c'.sp = c.sp := by
  unfold op_0xEXNN at h
  dsimp only at h
  split at h
  · split_ifs at h <;> cases h <;> rfl
  · split_ifs at h <;> cases h <;> rfl
  · cases h; rfl

theorem op_0xFXNN_sp (c c' : Chip8) (opcode : Nat) (h : op_0xFXNN c opcode = some c') :
    c'.sp = c.sp := by
  unfold op_0xFXNN at h
  dsimp only at h
  split at h
  all_goals first
    | (cases h; rfl)
    | (split_ifs at h <;> cases h <;> rfl)
    | (split at h
       · cases h
       · cases h; rfl)

theorem chip8_next_instruction_sp (c c' : Chip8) (rnd : Nat) (hsp : c.sp ≤ 16)
    (h : chip8_next_instruction c rnd = some c') : c'.sp ≤ 16 := by
  unfold chip8_next_instruction at h
  dsimp only at h
  split at h
  case isFalse => cases h
  split at h
  all_goals first
    | (cases h; exact hsp)
    | (split_ifs at h <;> cases h <;> exact hsp)
    | (have h1 := op_0x0NNN_sp _ _ _ h; exact Nat.le_trans h1 hsp)
    | (exact op_0x2000_sp _ _ _ h)
    | (cases h; rw [op_0x8XYN_sp]; exact hsp)
    | (rw [op_0xDXYN_sp _ _ _ h]; exact hsp)
    | (rw [op_0xEXNN_sp _ _ _ h]; exact hsp)
    | (rw [op_0xFXNN_sp _ _ _ h]; exact hsp)

theorem chip8_vblank_sp (c : Chip8) : (chip8_vblank c).sp = c.sp := by
  unfold chip8_vblank
  dsimp only
  split_ifs <;> rfl

theorem chip8_load_sp (c : Chip8) (file : Option (List Nat)) (hsp : c.sp ≤ 16) :
    (chip8_load c file).2.sp ≤ 16 := by
  unfold chip8_load
  split
  · exact hsp
  · dsimp only
    split_ifs
    · exact hsp
    · simp [clear_chip8]

/-! ## Call and return -/

theorem op_0x2000_overflow (c : Chip8) (op : Nat) (h : c.sp = 16) :
    op_0x2000 c op = some { c with halt_code := HaltCode.HLT_STACK_OVERFLOW } := by
  simp only [op_0x2000, SIZE_STACK, h, if_true]

theorem op_0x2000_push (c : Chip8) (op : Nat) (h : c.sp < 16) :
    op_0x2000 c op =
      some { c with stack := store c.stack c.sp c.pc, sp := (c.sp + 1) % 256, pc := op &&& 0x0FFF } := by
  have hne : c.sp ≠ 16 := by omega
  simp only [op_0x2000, SIZE_STACK, h, hne, if_true, if_false]

theorem op_0x0NNN_underflow (c : Chip8) (op : Nat) (hl : op &&& 0x00FF = 0xEE) (h : c.sp = 0) :
    op_0x0NNN c op = some { c with halt_code := HaltCode.HLT_STACK_UNDERFLOW } := by
  simp only [op_0x0NNN, hl, h, if_true]

theorem op_0x0NNN_pop (c : Chip8) (op : Nat) (hl : op &&& 0x00FF = 0xEE) (h0 : 0 < c.sp)
    (h : c.sp ≤ 16) :
    op_0x0NNN c op = some { c with sp := c.sp - 1, pc := c.stack (c.sp - 1) } := by
  have hne : c.sp ≠ 0 := by omega
  have hlt : c.sp - 1 < 16 := by omega
  simp only [op_0x0NNN, SIZE_STACK, hl, hne, hlt, if_true, if_false]

/-- C2: stack errors halt and leave the stack untouched.  With the opcode at `pc`
being `0x2NNN` and `sp = 16` the step sets `halt_code` to stack-overflow; with the
opcode `0x00EE` and `sp = 0` it sets `halt_code` to stack-underflow; in both cases
`sp` and the whole stack are unchanged and `pc = pc_before + 2`.  Conversely a call
with `sp < 16`, and a return with `0 < sp` (`sp ≤ 16`), step to a state whose
`halt_code` is the one before the step, so it stays at none. -/
theorem stack_errors_halt (c : Chip8) (rnd op nnn : Nat)
    (hop : chip8_current_instruction c = some op) (hn : nnn < 4096) :
    (op = 0x2000 + nnn → c.sp = 16 →
      ∃ c', chip8_next_instruction c rnd = some c' ∧
        c'.halt_code = HaltCode.HLT_STACK_OVERFLOW ∧ c'.sp = c.sp ∧ c'.stack = c.stack ∧
        c'.pc = c.pc + 2) ∧
    (op = 0x00EE → c.sp = 0 →
      ∃ c', chip8_next_instruction c rnd = some c' ∧
        c'.halt_code = HaltCode.HLT_STACK_UNDERFLOW ∧ c'.sp = c.sp ∧ c'.stack = c.stack ∧
        c'.pc = c.pc + 2) ∧
    (op = 0x2000 + nnn → c.sp < 16 →
      ∃ c', chip8_next_instruction c rnd = some c' ∧ c'.halt_code = c.halt_code ∧
        (c.halt_code = HaltCode.HLT_NONE → c'.halt_code = HaltCode.HLT_NONE)) ∧
    (op = 0x00EE → 0 < c.sp → c.sp ≤ 16 →
      ∃ c', chip8_next_instruction c rnd = some c' ∧ c'.halt_code = c.halt_code ∧
        (c.halt_code = HaltCode.HLT_NONE → c'.halt_code = HaltCode.HLT_NONE)) := by
  obtain ⟨hpc, _⟩ := fetch_some c op hop
  have hpc2 : (c.pc + 2) % 65536 = c.pc + 2 := by omega
  refine ⟨?_, ?_, ?_, ?_⟩
  · intro h hsp
    have ht : op &&& 0xF000 = 0x2000 := by rw [and_F000]; omega
    rw [step_0x2NNN c rnd op hop ht, op_0x2000_overflow { c with pc := (c.pc + 2) % 65536 } op hsp]
    exact ⟨_, rfl, rfl, rfl, rfl, hpc2⟩
  · intro h hsp
    have ht : op &&& 0xF000 = 0x0000 := by rw [h]; rfl
    have hl : op &&& 0x00FF = 0xEE := by rw [h]; rfl
    rw [step_0x0NNN c rnd op hop ht, op_0x0NNN_underflow { c with pc := (c.pc + 2) % 65536 } op hl hsp]
    exact ⟨_, rfl, rfl, rfl, rfl, hpc2⟩
  · intro h hsp
    have ht : op &&& 0xF000 = 0x2000 := by rw [and_F000]; omega
    rw [step_0x2NNN c rnd op hop ht, op_0x2000_push { c with pc := (c.pc + 2) % 65536 } op hsp]
    exact ⟨_, rfl, rfl, fun hh => hh⟩
  · intro h hsp hle
    have ht : op &&& 0xF000 = 0x0000 := by rw [h]; rfl
    have hl : op &&& 0x00FF = 0xEE := by rw [h]; rfl
    rw [step_0x0NNN c rnd op hop ht, op_0x0NNN_pop { c with pc := (c.pc + 2) % 65536 } op hl hsp hle]
    exact ⟨_, rfl, rfl, fun hh => hh⟩

/-- Witness for `stack_errors_halt`: the overflow part on `full_stack_state`, the
underflow part on `ret_state`, and the two non-halting parts on `call_state` and
`ret_state_one`. -/
theorem stack_errors_halt_witness :
    (∃ c', chip8_next_instruction full_stack_state 0 = some c' ∧
        c'.halt_code = HaltCode.HLT_STACK_OVERFLOW ∧ c'.sp = full_stack_state.sp ∧
        c'.stack = full_stack_state.stack ∧ c'.pc = full_stack_state.pc + 2) ∧
    (∃ c', chip8_next_instruction ret_state 0 = some c' ∧
        c'.halt_code = HaltCode.HLT_STACK_UNDERFLOW ∧ c'.sp = ret_state.sp ∧
        c'.stack = ret_state.stack ∧ c'.pc = ret_state.pc + 2) ∧
    (∃ c', chip8_next_instruction call_state 0 = some c' ∧
        c'.halt_code = call_state.halt_code ∧
        (call_state.halt_code = HaltCode.HLT_NONE → c'.halt_code = HaltCode.HLT_NONE)) ∧
    (∃ c', chip8_next_instruction ret_state_one 0 = some c' ∧
        c'.halt_code = ret_state_one.halt_code ∧
        (ret_state_one.halt_code = HaltCode.HLT_NONE → c'.halt_code = HaltCode.HLT_NONE)) :=
  ⟨(stack_errors_halt full_stack_state 0 0x2204 0x204 rfl (by decide)).1 rfl rfl,
   (stack_errors_halt ret_state 0 0x00EE 0 rfl (by decide)).2.1 rfl rfl,
   (stack_errors_halt call_state 0 0x2204 0x204 rfl (by decide)).2.2.1 rfl (by decide),
   (stack_errors_halt ret_state_one 0 0x00EE 0 rfl (by decide)).2.2.2 rfl (by decide) (by decide)⟩

/-! ## Claims on loading and reset -/

/-- C3: load size limit.  Loading a ROM returns the ROM-too-large error (return
value 2) if and only if its length exceeds `4096 - 0x200 = 3584`; a ROM of at most
3584 bytes loads (return value 0), so 3584 bytes succeed and 3585 fail; and on that
failure the machine state is returned exactly as it was. -/
theorem load_size_limit (c : Chip8) (bytes : List Nat) :
    ((chip8_load c (some bytes)).1 = 2 ↔ bytes.length > 4096 - 0x200) ∧
    ((chip8_load c (some bytes)).1 = 2 ↔ bytes.length > 3584) ∧
    (bytes.length ≤ 3584 → (chip8_load c (some bytes)).1 = 0) ∧
    (bytes.length = 3584 → (chip8_load c (some bytes)).1 = 0) ∧
    (bytes.length = 3585 → (chip8_load c (some bytes)).1 = 2) ∧
    (bytes.length > 3584 → (chip8_load c (some bytes)).2 = c) := by
  have key : (chip8_load c (some bytes)).1 = 2 ↔ bytes.length > 3584 := by
    unfold chip8_load SIZE_MEMORY ADDRESS_CODE_BEG
    dsimp only
    split_ifs with h
    · simp; omega
    · simp; omega
  have ok : bytes.length ≤ 3584 → (chip8_load c (some bytes)).1 = 0 := by
    intro hle
    have : ¬ bytes.length > 4096 - 0x200 := by omega
    simp only [chip8_load, SIZE_MEMORY, ADDRESS_CODE_BEG, this, if_false]
  refine ⟨key, key, ok, ?_, ?_, ?_⟩
  · intro h; exact ok (by omega)
  · intro h; exact key.2 (by omega)
  · intro h
    have : bytes.length > 4096 - 0x200 := by omega
    simp only [chip8_load, SIZE_MEMORY, ADDRESS_CODE_BEG, this, if_true]

/-- Concrete instance of the load size limit: 3584 zero bytes load into the blank
machine, 3585 zero bytes are refused and leave it untouched. -/
theorem load_size_limit_witness :
    (chip8_load blank (some (List.replicate 3584 0))).1 = 0 ∧
    (chip8_load blank (some (List.replicate 3585 0))).1 = 2 ∧
    (chip8_load blank (some (List.replicate 3585 0))).2 = blank :=
  ⟨(load_size_limit blank (List.replicate 3584 0)).2.2.2.1 (List.length_replicate _ _),
   (load_size_limit blank (List.replicate 3585 0)).2.2.2.2.1 (List.length_replicate _ _),
   (load_size_limit blank (List.replicate 3585 0)).2.2.2.2.2
     (by rw [List.length_replicate]; decide)⟩

/-- C4: memory image after a successful load.  For every ROM of length at most
3584 and every prior state the load succeeds, and afterwards `memory[0x200 + k]` is
ROM byte `k` for every `k` below the length, `memory[a]` is font byte `a` for
`a < 80`, every other byte of the 4096 is 0, `pc = 0x200` and `halt_code` is none;
so loading a first ROM and then this one gives the same memory as loading this one
alone. -/
theorem load_memory_image (c : Chip8) (bytes : List Nat) (hlen : bytes.length ≤ 3584) :
    (chip8_load c (some bytes)).1 = 0 ∧
    (∀ (k : Nat) (hk : k < bytes.length),
      (chip8_load c (some bytes)).2.memory (0x200 + k) = bytes[k]) ∧
    (∀ a, a < 80 → (chip8_load c (some bytes)).2.memory a = FONT_DATA.getD a 0) ∧
    (∀ a, a < 4096 → 80 ≤ a → (a < 0x200 ∨ 0x200 + bytes.length ≤ a) →
      (chip8_load c (some bytes)).2.memory a = 0) ∧
    (chip8_load c (some bytes)).2.pc = 0x200 ∧
    (chip8_load c (some bytes)).2.halt_code = HaltCode.HLT_NONE ∧
    (∀ (c0 : Chip8) (bytes0 : List Nat), bytes0.length ≤ 3584 → ∀ a, a < 4096 →
      (chip8_load (chip8_load c0 (some bytes0)).2 (some bytes)).2.memory a =
        (chip8_load c0 (some bytes)).2.memory a) := by
  have hmem : ∀ (d : Chip8) (a : Nat), a < 4096 →
      (chip8_load d (some bytes)).2.memory a =
        if 0x200 ≤ a ∧ a < 0x200 + bytes.length then bytes.getD (a - 0x200) 0
        else if a < 80 then FONT_DATA.getD a 0 else 0 := by
    intro d a ha
    rw [chip8_load_ok d bytes hlen]
    simp only [fread_at, clear_chip8_memory d a ha]
  refine ⟨by rw [chip8_load_ok c bytes hlen], ?_, ?_, ?_, ?_, ?_, ?_⟩
  · intro k hk
    rw [hmem c _ (by omega)]
    have h1 : 0x200 ≤ 0x200 + k ∧ 0x200 + k < 0x200 + bytes.length := by omega
    have h2 : 0x200 + k - 0x200 = k := by omega
    rw [if_pos h1, h2, List.getD_eq_getElem _ _ hk]
  · intro a ha
    rw [hmem c _ (by omega)]
    have h1 : ¬ (0x200 ≤ a ∧ a < 0x200 + bytes.length) := by omega
    rw [if_neg h1, if_pos ha]
  · intro a ha h80 hout
    rw [hmem c _ ha]
    have h1 : ¬ (0x200 ≤ a ∧ a < 0x200 + bytes.length) := by omega
    have h2 : ¬ a < 80 := by omega
    rw [if_neg h1, if_neg h2]
  · rw [chip8_load_ok c bytes hlen]; rfl
  · rw [chip8_load_ok c bytes hlen]; rfl
  · intro c0 bytes0 _ a ha
    rw [hmem _ a ha, hmem _ a ha]

/-- Witness for `load_memory_image`: the two-byte ROM `22 04` loaded into the blank
machine. -/
theorem load_memory_image_witness :
    [0x22, 0x04].length ≤ 3584 ∧
    (loaded [0x22, 0x04]).memory 0x200 = 0x22 ∧ (loaded [0x22, 0x04]).memory 0x201 = 0x04 ∧
    (loaded [0x22, 0x04]).memory 0 = 0xF0 ∧ (loaded [0x22, 0x04]).memory 0x202 = 0 ∧
    (loaded [0x22, 0x04]).pc = 0x200 :=
  ⟨by decide,
   (load_memory_image blank [0x22, 0x04] (by decide)).2.1 0 (by decide),
   (load_memory_image blank [0x22, 0x04] (by decide)).2.1 1 (by decide),
   (load_memory_image blank [0x22, 0x04] (by decide)).2.2.1 0 (by decide),
   (load_memory_image blank [0x22, 0x04] (by decide)).2.2.2.1 0x202 (by decide) (by decide)
     (Or.inr (by decide)),
   (load_memory_image blank [0x22, 0x04] (by decide)).2.2.2.2.1⟩

/-- C5 (the code at the failing input): after the nine nested calls of
`nine_calls_rom` the stack slot 8 holds the return address `0x212`; `clear_chip8`,
and so a successful re-load, leaves `stack[8] = 0x212` instead of 0, while the same
reset of a zeroed machine gives `stack[8] = 0`: the state after reset depends on the
state before it. -/
theorem clear_chip8_keeps_stack_8 :
    run_steps (fun _ => 0) 9 (loaded nine_calls_rom) = some nine_calls_state ∧
    nine_calls_state.sp = 9 ∧ nine_calls_state.stack 8 = 0x212 ∧
    (clear_chip8 nine_calls_state).stack 8 = 0x212 ∧
    (chip8_load nine_calls_state (some nine_calls_rom)).1 = 0 ∧
    (chip8_load nine_calls_state (some nine_calls_rom)).2.stack 8 = 0x212 ∧
    (clear_chip8 blank).stack 8 = 0 ∧
    (clear_chip8 nine_calls_state).stack 8 ≠ (clear_chip8 blank).stack 8 := by
  refine ⟨rfl, by decide, by decide, by decide, by decide, by decide, by decide, by decide⟩

/-! ## Register-to-register operations `0x8XYN` -/

theorem decode_8XYN (x y n : Nat) (hx : x < 16) (hy : y < 16) (hn : n < 16) :
    (0x8000 + 256 * x + 16 * y + n) &&& 0xF000 = 0x8000 ∧
    (((0x8000 + 256 * x + 16 * y + n) &&& 0x0F00) >>> 8) % 256 = x ∧
    (((0x8000 + 256 * x + 16 * y + n) &&& 0x00F0) >>> 4) % 256 = y ∧
    (0x8000 + 256 * x + 16 * y + n) &&& 0x000F = n := by
  rw [and_F000, and_0F00_shr, and_00F0_shr, and_000F]
  omega

theorem op_0x8XYN_v_pc (c : Chip8) (p op : Nat) :
    (op_0x8XYN { c with pc := p } op).v = (op_0x8XYN c op).v := by
  unfold op_0x8XYN
  dsimp only
  split <;> rfl

/-- One step on an opcode `0x8XYN` is defined and its registers are those computed
by `op_0x8XYN` from the registers before the step. -/
theorem step_8XYN (c : Chip8) (rnd x y n : Nat) (hx : x < 16) (hy : y < 16) (hn : n < 16)
    (hop : chip8_current_instruction c = some (0x8000 + 256 * x + 16 * y + n)) :
    ∃ c', chip8_next_instruction c rnd = some c' ∧
      c'.v = (op_0x8XYN c (0x8000 + 256 * x + 16 * y + n)).v :=
  ⟨_, step_0x8XYN c rnd _ hop (decode_8XYN x y n hx hy hn).1, op_0x8XYN_v_pc c _ _⟩

theorem op_0x8XYN_add (c : Chip8) (x y : Nat) (hx : x < 16) (hy : y < 16) :
    (op_0x8XYN c (0x8000 + 256 * x + 16 * y + 4)).v =
      store (store c.v x ((((c.v x + c.v y) % 65536) &&& 0xFF) % 256)) 0xF
        (if (c.v x + c.v y) % 65536 > 0xFF then 0x01 else 0x00) := by
  obtain ⟨_, h2, h3, h4⟩ := decode_8XYN x y 4 hx hy (by decide)
  simp only [op_0x8XYN, h2, h3, h4]

/-- C6: `0x8XY4` add with carry.  For all register indices `x`, `y` and all byte
values of the registers, after the step `v[F] = 1` if `old v[x] + old v[y] > 255`
and `v[F] = 0` otherwise, and for `x ≠ 0xF` the new `v[x]` is
`(old v[x] + old v[y]) mod 256`; so `0xFF + 0x01` gives `v[x] = 0`, `v[F] = 1` and
`0x01 + 0x01` gives `v[x] = 2`, `v[F] = 0`. -/
theorem add_with_carry (c : Chip8) (rnd x y : Nat) (hx : x < 16) (hy : y < 16)
    (hop : chip8_current_instruction c = some (0x8004 + 256 * x + 16 * y))
    (hvx : c.v x < 256) (hvy : c.v y < 256) :
    ∃ c', chip8_next_instruction c rnd = some c' ∧
      c'.v 0xF = (if c.v x + c.v y > 255 then 1 else 0) ∧
      (x ≠ 0xF → c'.v x = (c.v x + c.v y) % 256) ∧
      (x ≠ 0xF → c.v x = 0xFF → c.v y = 0x01 → c'.v x = 0x00 ∧ c'.v 0xF = 1) ∧
      (x ≠ 0xF → c.v x = 0x01 → c.v y = 0x01 → c'.v x = 0x02 ∧ c'.v 0xF = 0) := by
  have hop' : chip8_current_instruction c = some (0x8000 + 256 * x + 16 * y + 4) := by
    rw [hop]; congr 1; omega
  obtain ⟨c', hstep, hv⟩ := step_8XYN c rnd x y 4 hx hy (by decide) hop'
  rw [op_0x8XYN_add c x y hx hy] at hv
  have hF : c'.v 0xF = (if c.v x + c.v y > 255 then 1 else 0) := by
    rw [hv, store_same]
    have : (c.v x + c.v y) % 65536 = c.v x + c.v y := by omega
    simp only [this]
  have hX : x ≠ 0xF → c'.v x = (c.v x + c.v y) % 256 := by
    intro hne
    rw [hv, store_other _ _ _ _ hne, store_same, and_00FF]
    omega
  refine ⟨c', hstep, hF, hX, ?_, ?_⟩
  · intro hne h1 h2
    rw [hF, hX hne, h1, h2]
    exact ⟨rfl, rfl⟩
  · intro hne h1 h2
    rw [hF, hX hne, h1, h2]
    exact ⟨rfl, rfl⟩

/-- Witness for `add_with_carry`: `0x8014` with `v[0] = 0xFF`, `v[1] = 0x01`. -/
theorem add_with_carry_witness :
    ∃ c', chip8_next_instruction (alu_state 0x80 0x14 0xFF 0x01 0) 0 = some c' ∧
      c'.v 0xF = 1 ∧ c'.v 0 = 0 := by
  obtain ⟨c', h1, h2, h3, _⟩ :=
    add_with_carry (alu_state 0x80 0x14 0xFF 0x01 0) 0 0 1 (by decide) (by decide) rfl
      (by decide) (by decide)
  exact ⟨c', h1, h2, h3 (by decide)⟩

theorem op_0x8XYN_or (c : Chip8) (x y : Nat) (hx : x < 16) (hy : y < 16) :
    (op_0x8XYN c (0x8000 + 256 * x + 16 * y + 1)).v =
      store (store c.v x ((c.v x ||| c.v y) % 256)) 0xF 0 := by
  obtain ⟨_, h2, h3, h4⟩ := decode_8XYN x y 1 hx hy (by decide)
  simp only [op_0x8XYN, h2, h3, h4]

theorem op_0x8XYN_and (c : Chip8) (x y : Nat) (hx : x < 16) (hy : y < 16) :
    (op_0x8XYN c (0x8000 + 256 * x + 16 * y + 2)).v =
      store (store c.v x ((c.v x &&& c.v y) % 256)) 0xF 0 := by
  obtain ⟨_, h2, h3, h4⟩ := decode_8XYN x y 2 hx hy (by decide)
  simp only [op_0x8XYN, h2, h3, h4]

theorem op_0x8XYN_xor (c : Chip8) (x y : Nat) (hx : x < 16) (hy : y < 16) :
    (op_0x8XYN c (0x8000 + 256 * x + 16 * y + 3)).v =
      store (store c.v x ((c.v x ^^^ c.v y) % 256)) 0xF 0 := by
  obtain ⟨_, h2, h3, h4⟩ := decode_8XYN x y 3 hx hy (by decide)
  simp only [op_0x8XYN, h2, h3, h4]

/-- Registers after two stores, one into `v[x]` and then one into `v[0xF]`: the
flag is the second value, `v[x]` the first when `x ≠ 0xF`, the others are kept. -/
theorem store_store_flag (v w : Nat → Nat) (x a f : Nat)
    (hv : w = store (store v x a) 0xF f) :
    w 0xF = f ∧ (x ≠ 0xF → w x = a) ∧ (∀ k, k ≠ x → k ≠ 0xF → w k = v k) := by
  subst hv
  refine ⟨store_same _ _ _, ?_, ?_⟩
  · intro hne
    rw [store_other _ _ _ _ hne, store_same]
  · intro k hk1 hk2
    rw [store_other _ _ _ _ hk2, store_other _ _ _ _ hk1]

/-- C7: `0x8XY1`, `0x8XY2` and `0x8XY3` always leave `v[F] = 0`, for every `x` and
`y` (`0xF` included) and every prior `v[F]`; for `x ≠ 0xF` the new `v[x]` is the
bitwise OR, AND, XOR respectively of the old `v[x]` and old `v[y]` (bytes), and no
register other than `v[x]` and `v[F]` changes. -/
theorem bitwise_ops_clear_flag (c : Chip8) (rnd x y : Nat) (hx : x < 16) (hy : y < 16) :
    (chip8_current_instruction c = some (0x8001 + 256 * x + 16 * y) →
      ∃ c', chip8_next_instruction c rnd = some c' ∧ c'.v 0xF = 0 ∧
        (x ≠ 0xF → c.v x < 256 → c.v y < 256 → c'.v x = c.v x ||| c.v y) ∧
        (∀ k, k ≠ x → k ≠ 0xF → c'.v k = c.v k)) ∧
    (chip8_current_instruction c = some (0x8002 + 256 * x + 16 * y) →
      ∃ c', chip8_next_instruction c rnd = some c' ∧ c'.v 0xF = 0 ∧
        (x ≠ 0xF → c.v x < 256 → c.v y < 256 → c'.v x = c.v x &&& c.v y) ∧
        (∀ k, k ≠ x → k ≠ 0xF → c'.v k = c.v k)) ∧
    (chip8_current_instruction c = some (0x8003 + 256 * x + 16 * y) →
      ∃ c', chip8_next_instruction c rnd = some c' ∧ c'.v 0xF = 0 ∧
        (x ≠ 0xF → c.v x < 256 → c.v y < 256 → c'.v x = c.v x ^^^ c.v y) ∧
        (∀ k, k ≠ x → k ≠ 0xF → c'.v k = c.v k)) := by
  refine ⟨?_, ?_, ?_⟩
  · intro hop
    have hop' : chip8_current_instruction c = some (0x8000 + 256 * x + 16 * y + 1) := by
      rw [hop]; congr 1; omega
    obtain ⟨c', hstep, hv⟩ := step_8XYN c rnd x y 1 hx hy (by decide) hop'
    rw [op_0x8XYN_or c x y hx hy] at hv
    obtain ⟨h1, h2, h3⟩ := store_store_flag _ _ _ _ _ hv
    refine ⟨c', hstep, h1, ?_, h3⟩
    intro hne hvx hvy
    rw [h2 hne]
    exact Nat.mod_eq_of_lt (Nat.or_lt_two_pow (n := 8) hvx hvy)
  · intro hop
    have hop' : chip8_current_instruction c = some (0x8000 + 256 * x + 16 * y + 2) := by
      rw [hop]; congr 1; omega
    obtain ⟨c', hstep, hv⟩ := step_8XYN c rnd x y 2 hx hy (by decide) hop'
    rw [op_0x8XYN_and c x y hx hy] at hv
    obtain ⟨h1, h2, h3⟩ := store_store_flag _ _ _ _ _ hv
    refine ⟨c', hstep, h1, ?_, h3⟩
    intro hne hvx hvy
    rw [h2 hne]
    exact Nat.mod_eq_of_lt (Nat.and_lt_two_pow (n := 8) _ hvy)
  · intro hop
    have hop' : chip8_current_instruction c = some (0x8000 + 256 * x + 16 * y + 3) := by
      rw [hop]; congr 1; omega
    obtain ⟨c', hstep, hv⟩ := step_8XYN c rnd x y 3 hx hy (by decide) hop'
    rw [op_0x8XYN_xor c x y hx hy] at hv
    obtain ⟨h1, h2, h3⟩ := store_store_flag _ _ _ _ _ hv
    refine ⟨c', hstep, h1, ?_, h3⟩
    intro hne hvx hvy
    rw [h2 hne]
    exact Nat.mod_eq_of_lt (Nat.xor_lt_two_pow (n := 8) hvx hvy)

/-- Witness for `bitwise_ops_clear_flag`: `0x8011`, `0x8012`, `0x8013` on
`v[0] = 0x0C`, `v[1] = 0x0A` with `v[F] = 1` before the step. -/
theorem bitwise_ops_clear_flag_witness :
    (∃ c', chip8_next_instruction (alu_state 0x80 0x11 0x0C 0x0A 1) 0 = some c' ∧
      c'.v 0xF = 0 ∧ c'.v 0 = 0x0E) ∧
    (∃ c', chip8_next_instruction (alu_state 0x80 0x12 0x0C 0x0A 1) 0 = some c' ∧
      c'.v 0xF = 0 ∧ c'.v 0 = 0x08) ∧
    (∃ c', chip8_next_instruction (alu_state 0x80 0x13 0x0C 0x0A 1) 0 = some c' ∧
      c'.v 0xF = 0 ∧ c'.v 0 = 0x06) := by
  refine ⟨?_, ?_, ?_⟩
  · obtain ⟨c', h1, h2, h3, _⟩ :=
      (bitwise_ops_clear_flag (alu_state 0x80 0x11 0x0C 0x0A 1) 0 0 1 (by decide)
        (by decide)).1 rfl
    exact ⟨c', h1, h2, h3 (by decide) (by decide) (by decide)⟩
  · obtain ⟨c', h1, h2, h3, _⟩ :=
      (bitwise_ops_clear_flag (alu_state 0x80 0x12 0x0C 0x0A 1) 0 0 1 (by decide)
        (by decide)).2.1 rfl
    exact ⟨c', h1, h2, h3 (by decide) (by decide) (by decide)⟩
  · obtain ⟨c', h1, h2, h3, _⟩ :=
      (bitwise_ops_clear_flag (alu_state 0x80 0x13 0x0C 0x0A 1) 0 0 1 (by decide)
        (by decide)).2.2 rfl
    exact ⟨c', h1, h2, h3 (by decide) (by decide) (by decide)⟩

theorem op_0x8XYN_sub (c : Chip8) (x y : Nat) (hx : x < 16) (hy : y < 16) :
    (op_0x8XYN c (0x8000 + 256 * x + 16 * y + 5)).v =
      store (store c.v x (Int.toNat (((c.v x : Int) - (c.v y : Int)) % 256))) 0xF
        (if c.v x ≥ c.v y then 0x01 else 0x00) := by
  obtain ⟨_, h2, h3, h4⟩ := decode_8XYN x y 5 hx hy (by decide)
  simp only [op_0x8XYN, h2, h3, h4]

theorem op_0x8XYN_subn (c : Chip8) (x y : Nat) (hx : x < 16) (hy : y < 16) :
    (op_0x8XYN c (0x8000 + 256 * x + 16 * y + 7)).v =
      store (store c.v x (Int.toNat (((c.v y : Int) - (c.v x : Int)) % 256))) 0xF
        (if c.v y ≥ c.v x then 0x01 else 0x00) := by
  obtain ⟨_, h2, h3, h4⟩ := decode_8XYN x y 7 hx hy (by decide)
  simp only [op_0x8XYN, h2, h3, h4]

theorem toNat_emod_256 (z : Int) : ((Int.toNat (z % 256) : Nat) : Int) = z % 256 :=
  Int.toNat_of_nonneg (Int.emod_nonneg z (by decide))

/-- C8: the subtract flag is "no borrow".  After `0x8XY5`, `v[F] = 1` iff
`old v[x] ≥ old v[y]` (else 0) and, for `x ≠ 0xF`, `v[x] = (old v[x] - old v[y]) mod
256`; after `0x8XY7`, `v[F] = 1` iff `old v[y] ≥ old v[x]` (else 0) and, for
`x ≠ 0xF`, `v[x] = (old v[y] - old v[x]) mod 256`.  Equal operands give result 0
with `v[F] = 1`. -/
theorem subtract_no_borrow (c : Chip8) (rnd x y : Nat) (hx : x < 16) (hy : y < 16) :
    (chip8_current_instruction c = some (0x8005 + 256 * x + 16 * y) →
      ∃ c', chip8_next_instruction c rnd = some c' ∧
        c'.v 0xF = (if c.v x ≥ c.v y then 1 else 0) ∧
        (c'.v 0xF = 1 ↔ c.v x ≥ c.v y) ∧
        (x ≠ 0xF → (c'.v x : Int) = ((c.v x : Int) - (c.v y : Int)) % 256) ∧
        (x ≠ 0xF → c.v x = c.v y → c'.v x = 0 ∧ c'.v 0xF = 1)) ∧
    (chip8_current_instruction c = some (0x8007 + 256 * x + 16 * y) →
      ∃ c', chip8_next_instruction c rnd = some c' ∧
        c'.v 0xF = (if c.v y ≥ c.v x then 1 else 0) ∧
        (c'.v 0xF = 1 ↔ c.v y ≥ c.v x) ∧
        (x ≠ 0xF → (c'.v x : Int) = ((c.v y : Int) - (c.v x : Int)) % 256) ∧
        (x ≠ 0xF → c.v x = c.v y → c'.v x = 0 ∧ c'.v 0xF = 1)) := by
  refine ⟨?_, ?_⟩
  · intro hop
    have hop' : chip8_current_instruction c = some (0x8000 + 256 * x + 16 * y + 5) := by
      rw [hop]; congr 1; omega
    obtain ⟨c', hstep, hv⟩ := step_8XYN c rnd x y 5 hx hy (by decide) hop'
    rw [op_0x8XYN_sub c x y hx hy] at hv
    obtain ⟨h1, h2, _⟩ := store_store_flag _ _ _ _ _ hv
    refine ⟨c', hstep, h1, ?_, ?_, ?_⟩
    · rw [h1]; split_ifs with h <;> simp [h]
    · intro hne
      rw [h2 hne, toNat_emod_256]
    · intro hne heq
      rw [h1, h2 hne, heq]
      simp
  · intro hop
    have hop' : chip8_current_instruction c = some (0x8000 + 256 * x + 16 * y + 7) := by
      rw [hop]; congr 1; omega
    obtain ⟨c', hstep, hv⟩ := step_8XYN c rnd x y 7 hx hy (by decide) hop'
    rw [op_0x8XYN_subn c x y hx hy] at hv
    obtain ⟨h1, h2, _⟩ := store_store_flag _ _ _ _ _ hv
    refine ⟨c', hstep, h1, ?_, ?_, ?_⟩
    · rw [h1]; split_ifs with h <;> simp [h]
    · intro hne
      rw [h2 hne, toNat_emod_256]
    · intro hne heq
      rw [h1, h2 hne, heq]
      simp

/-- Witness for `subtract_no_borrow`: `0x8015` on `3 - 5` borrows (`v[0] = 254`,
`v[F] = 0`) and `0x8017` on the same registers computes `5 - 3 = 2` with `v[F] = 1`. -/
theorem subtract_no_borrow_witness :
    (∃ c', chip8_next_instruction (alu_state 0x80 0x15 3 5 1) 0 = some c' ∧
      c'.v 0xF = 0 ∧ (c'.v 0 : Int) = 254) ∧
    (∃ c', chip8_next_instruction (alu_state 0x80 0x17 3 5 0) 0 = some c' ∧
      c'.v 0xF = 1 ∧ (c'.v 0 : Int) = 2) := by
  refine ⟨?_, ?_⟩
  · obtain ⟨c', h1, h2, _, h3, _⟩ :=
      (subtract_no_borrow (alu_state 0x80 0x15 3 5 1) 0 0 1 (by decide) (by decide)).1 rfl
    exact ⟨c', h1, h2, h3 (by decide)⟩
  · obtain ⟨c', h1, h2, _, h3, _⟩ :=
      (subtract_no_borrow (alu_state 0x80 0x17 3 5 0) 0 0 1 (by decide) (by decide)).2 rfl
    exact ⟨c', h1, h2, h3 (by decide)⟩

theorem op_0x8XYN_shr (c : Chip8) (x y : Nat) (hx : x < 16) (hy : y < 16) :
    (op_0x8XYN c (0x8000 + 256 * x + 16 * y + 6)).v =
      store (store c.v x ((c.v y >>> 1) % 256)) 0xF ((c.v y &&& 0x01) % 256) := by
  obtain ⟨_, h2, h3, h4⟩ := decode_8XYN x y 6 hx hy (by decide)
  simp only [op_0x8XYN, h2, h3, h4]

theorem op_0x8XYN_shl (c : Chip8) (x y : Nat) (hx : x < 16) (hy : y < 16) :
    (op_0x8XYN c (0x8000 + 256 * x + 16 * y + 0xE)).v =
      store (store c.v x ((c.v y <<< 1) % 256)) 0xF (((c.v y >>> 7) &&& 0x01) % 256) := by
  obtain ⟨_, h2, h3, h4⟩ := decode_8XYN x y 0xE hx hy (by decide)
  simp only [op_0x8XYN, h2, h3, h4]

/-- The step on `0x8XY6` from any state, in terms of `v[y]` alone. -/
theorem step_shr (c : Chip8) (rnd x y : Nat) (hx : x < 16) (hy : y < 16)
    (hop : chip8_current_instruction c = some (0x8006 + 256 * x + 16 * y)) :
    ∃ c', chip8_next_instruction c rnd = some c' ∧
      c'.v = store (store c.v x ((c.v y >>> 1) % 256)) 0xF (c.v y % 2) := by
  have hop' : chip8_current_instruction c = some (0x8000 + 256 * x + 16 * y + 6) := by
    rw [hop]; congr 1; omega
  obtain ⟨c', hstep, hv⟩ := step_8XYN c rnd x y 6 hx hy (by decide) hop'
  rw [op_0x8XYN_shr c x y hx hy] at hv
  have h1 : c.v y &&& 0x01 = c.v y % 2 := Nat.and_pow_two_sub_one_eq_mod _ 1
  have h2 : (c.v y % 2) % 256 = c.v y % 2 := by omega
  rw [h1, h2] at hv
  exact ⟨c', hstep, hv⟩

/-- The step on `0x8XYE` from any state, in terms of `v[y]` alone. -/
theorem step_shl (c : Chip8) (rnd x y : Nat) (hx : x < 16) (hy : y < 16)
    (hop : chip8_current_instruction c = some (0x800E + 256 * x + 16 * y)) :
    ∃ c', chip8_next_instruction c rnd = some c' ∧
      c'.v = store (store c.v x ((c.v y * 2) % 256)) 0xF ((c.v y / 128) % 2) := by
  have hop' : chip8_current_instruction c = some (0x8000 + 256 * x + 16 * y + 0xE) := by
    rw [hop]; congr 1; omega
  obtain ⟨c', hstep, hv⟩ := step_8XYN c rnd x y 0xE hx hy (by decide) hop'
  rw [op_0x8XYN_shl c x y hx hy] at hv
  have h1 : (c.v y >>> 7) &&& 0x01 = (c.v y / 128) % 2 := by
    rw [Nat.shiftRight_eq_div_pow]
    exact Nat.and_pow_two_sub_one_eq_mod _ 1
  have h2 : ((c.v y / 128) % 2) % 256 = (c.v y / 128) % 2 := by omega
  have h3 : c.v y <<< 1 = c.v y * 2 := by rw [Nat.shiftLeft_eq, Nat.pow_one]
  rw [h1, h2, h3] at hv
  exact ⟨c', hstep, hv⟩

/-- C9: the shifts read `v[y]`, not `v[x]`.  After `0x8XY6`, `v[F] = old v[y] & 1`
and, for `x ≠ 0xF`, `v[x] = old v[y] >> 1`; after `0x8XYE`, `v[F]` is bit 7 of old
`v[y]` and, for `x ≠ 0xF`, `v[x] = (old v[y] * 2) mod 256`.  The old `v[x]` has no
influence: any machine `d` with the same opcode and the same `v[y]`, whatever its
other registers, ends with the same `v[x]` and `v[F]`.  `v[y]` itself is unchanged
when `y` differs from `x` and from `0xF`. -/
theorem shifts_read_vy (c : Chip8) (rnd x y : Nat) (hx : x < 16) (hy : y < 16)
    (hvy : c.v y < 256) :
    (chip8_current_instruction c = some (0x8006 + 256 * x + 16 * y) →
      ∃ c', chip8_next_instruction c rnd = some c' ∧
        c'.v 0xF = c.v y &&& 1 ∧
        (x ≠ 0xF → c'.v x = c.v y >>> 1) ∧
        (y ≠ x → y ≠ 0xF → c'.v y = c.v y) ∧
        (∀ (d : Chip8) (rnd2 : Nat),
          chip8_current_instruction d = some (0x8006 + 256 * x + 16 * y) →
          d.v y = c.v y →
          ∃ d', chip8_next_instruction d rnd2 = some d' ∧ d'.v 0xF = c'.v 0xF ∧
            (x ≠ 0xF → d'.v x = c'.v x))) ∧
    (chip8_current_instruction c = some (0x800E + 256 * x + 16 * y) →
      ∃ c', chip8_next_instruction c rnd = some c' ∧
        c'.v 0xF = (c.v y / 128) % 2 ∧
        (x ≠ 0xF → c'.v x = (c.v y * 2) % 256) ∧
        (y ≠ x → y ≠ 0xF → c'.v y = c.v y) ∧
        (∀ (d : Chip8) (rnd2 : Nat),
          chip8_current_instruction d = some (0x800E + 256 * x + 16 * y) →
          d.v y = c.v y →
          ∃ d', chip8_next_instruction d rnd2 = some d' ∧ d'.v 0xF = c'.v 0xF ∧
            (x ≠ 0xF → d'.v x = c'.v x))) := by
  refine ⟨?_, ?_⟩
  · intro hop
    obtain ⟨c', hstep, hv⟩ := step_shr c rnd x y hx hy hop
    obtain ⟨h1, h2, h3⟩ := store_store_flag _ _ _ _ _ hv
    refine ⟨c', hstep, ?_, ?_, ?_, ?_⟩
    · rw [h1]; exact (Nat.and_pow_two_sub_one_eq_mod _ 1).symm
    · intro hne
      rw [h2 hne, Nat.shiftRight_eq_div_pow]
      have : c.v y / 2 ^ 1 < 256 := by
        have : c.v y / 2 ^ 1 ≤ c.v y := Nat.div_le_self _ _
        omega
      exact Nat.mod_eq_of_lt this
    · intro hyx hyF
      exact h3 y hyx hyF
    · intro d rnd2 hopd hdy
      obtain ⟨d', hstepd, hvd⟩ := step_shr d rnd2 x y hx hy hopd
      obtain ⟨g1, g2, _⟩ := store_store_flag _ _ _ _ _ hvd
      refine ⟨d', hstepd, ?_, ?_⟩
      · rw [g1, h1, hdy]
      · intro hne
        rw [g2 hne, h2 hne, hdy]
  · intro hop
    obtain ⟨c', hstep, hv⟩ := step_shl c rnd x y hx hy hop
    obtain ⟨h1, h2, h3⟩ := store_store_flag _ _ _ _ _ hv
    refine ⟨c', hstep, h1, h2, ?_, ?_⟩
    · intro hyx hyF
      exact h3 y hyx hyF
    · intro d rnd2 hopd hdy
      obtain ⟨d', hstepd, hvd⟩ := step_shl d rnd2 x y hx hy hopd
      obtain ⟨g1, g2, _⟩ := store_store_flag _ _ _ _ _ hvd
      refine ⟨d', hstepd, ?_, ?_⟩
      · rw [g1, h1, hdy]
      · intro hne
        rw [g2 hne, h2 hne, hdy]

/-- Witness for `shifts_read_vy`: `0x8016` and `0x801E` with `v[0] = 0x55` and
`v[1] = 0x83`: the results `0x41`, `0x06` and the flags come from `v[1]`. -/
theorem shifts_read_vy_witness :
    (∃ c', chip8_next_instruction (alu_state 0x80 0x16 0x55 0x83 0) 0 = some c' ∧
      c'.v 0xF = 1 ∧ c'.v 0 = 0x41 ∧ c'.v 1 = 0x83) ∧
    (∃ c', chip8_next_instruction (alu_state 0x80 0x1E 0x55 0x83 0) 0 = some c' ∧
      c'.v 0xF = 1 ∧ c'.v 0 = 0x06 ∧ c'.v 1 = 0x83) := by
  refine ⟨?_, ?_⟩
  · obtain ⟨c', h1, h2, h3, h4, _⟩ :=
      (shifts_read_vy (alu_state 0x80 0x16 0x55 0x83 0) 0 0 1 (by decide) (by decide)
        (by decide)).1 rfl
    exact ⟨c', h1, h2, h3 (by decide), h4 (by decide) (by decide)⟩
  · obtain ⟨c', h1, h2, h3, h4, _⟩ :=
      (shifts_read_vy (alu_state 0x80 0x1E 0x55 0x83 0) 0 0 1 (by decide) (by decide)
        (by decide)).2 rfl
    exact ⟨c', h1, h2, h3 (by decide), h4 (by decide) (by decide)⟩

/-! ## The draw instruction `0xDXYN` and the vblank gate -/

theorem decode_DXYN (x y n : Nat) (hx : x < 16) (hy : y < 16) (hn : n < 16) :
    (0xD000 + 256 * x + 16 * y + n) &&& 0xF000 = 0xD000 ∧
    (((0xD000 + 256 * x + 16 * y + n) &&& 0x0F00) >>> 8) % 256 = x ∧
    (((0xD000 + 256 * x + 16 * y + n) &&& 0x00F0) >>> 4) % 256 = y ∧
    ((0xD000 + 256 * x + 16 * y + n) &&& 0x000F) % 256 = n := by
  rw [and_F000, and_0F00_shr, and_00F0_shr, and_000F]
  omega

/-- A draw instruction met with `vblank = 0` gives back the machine it was given. -/
theorem draw_retry (c : Chip8) (rnd op : Nat) (hop : chip8_current_instruction c = some op)
    (ht : op &&& 0xF000 = 0xD000) (hvb : c.vblank = 0) :
    chip8_next_instruction c rnd = some c := by
  obtain ⟨hpc, _⟩ := fetch_some c op hop
  have hpc2 : (c.pc + 2) % 65536 = c.pc + 2 := by omega
  have hback : Int.toNat ((((c.pc + 2 : Nat) : Int) - 2) % 65536) = c.pc := by omega
  rw [step_0xDXYN c rnd op hop ht]
  unfold op_0xDXYN
  dsimp only
  rw [if_pos hvb, hpc2, hback]

theorem run_steps_fixed (rnd : Nat → Nat) (c : Chip8)
    (h : ∀ r, chip8_next_instruction c r = some c) : ∀ k, run_steps rnd k c = some c := by
  intro k
  induction k with
  | zero => rfl
  | succ k ih => simp only [run_steps, h, ih]

/-- A draw instruction met with `vblank ≠ 0`: whenever the step produces a state,
that state has `vblank = 0`, `pc = pc_before + 2`, the display and collision flag
computed by the draw loops, and everything else as before. -/
theorem draw_proceeds (c c' : Chip8) (rnd x y n : Nat) (hx : x < 16) (hy : y < 16)
    (hn : n < 16) (hop : chip8_current_instruction c = some (0xD000 + 256 * x + 16 * y + n))
    (hvb : c.vblank ≠ 0) (hstep : chip8_next_instruction c rnd = some c') :
    ∃ st, draw_rows c.memory c.i (c.v x % 64) (c.v y % 32) n 0 (c.display, 0) = some st ∧
      c' = { c with pc := c.pc + 2, vblank := 0, display := st.1, v := store c.v 0xF st.2 } := by
  obtain ⟨hpc, _⟩ := fetch_some c _ hop
  have hpc2 : (c.pc + 2) % 65536 = c.pc + 2 := by omega
  obtain ⟨h1, h2, h3, h4⟩ := decode_DXYN x y n hx hy hn
  have hvx : c.v x % 64 % 256 = c.v x % 64 := by omega
  have hvy : c.v y % 32 % 256 = c.v y % 32 := by omega
  rw [step_0xDXYN c rnd _ hop h1] at hstep
  simp only [op_0xDXYN, hvb, if_false, h2, h3, h4, hpc2, DISPLAY_WIDTH, DISPLAY_HEIGHT,
    hvx, hvy] at hstep
  split at hstep
  · cases hstep
  · rename_i st hst
    exact ⟨st, hst, (Option.some.inj hstep).symm⟩

/-- C10: draw is gated by vblank.  With the opcode at `pc` being `0xDXYN`: if
`vblank = 0`, one step returns the input state, equal in every field (`pc`
included), and so does any number of steps; if `vblank = 1` (as it is right after
`chip8_vblank`, which leaves the instruction in place), every state the step
produces has `vblank = 0`, `pc = pc_before + 2` and the display and `v[F]` computed
by the draw loops, so a further draw instruction stepped from it is a no-op again;
and the step does produce a state when the sprite rows `i .. i + N` lie in memory. -/
theorem draw_gated_by_vblank (c : Chip8) (rnd x y n : Nat) (hx : x < 16) (hy : y < 16)
    (hn : n < 16) (hop : chip8_current_instruction c = some (0xD000 + 256 * x + 16 * y + n)) :
    (c.vblank = 0 →
      chip8_next_instruction c rnd = some c ∧
      ∀ (rnds : Nat → Nat) (k : Nat), run_steps rnds k c = some c) ∧
    ((chip8_vblank c).vblank = 1 ∧
      chip8_current_instruction (chip8_vblank c) = chip8_current_instruction c) ∧
    (c.vblank = 1 →
      (∀ c', chip8_next_instruction c rnd = some c' →
        c'.vblank = 0 ∧ c'.pc = c.pc + 2 ∧
        (∃ st, draw_rows c.memory c.i (c.v x % 64) (c.v y % 32) n 0 (c.display, 0) = some st ∧
          c'.display = st.1 ∧ c'.v = store c.v 0xF st.2) ∧
        (∀ (rnd2 op2 : Nat), chip8_current_instruction c' = some op2 →
          op2 &&& 0xF000 = 0xD000 → chip8_next_instruction c' rnd2 = some c')) ∧
      (c.i + n ≤ 4096 → ∃ c', chip8_next_instruction c rnd = some c')) := by
  obtain ⟨hpc, _⟩ := fetch_some c _ hop
  have hpc2 : (c.pc + 2) % 65536 = c.pc + 2 := by omega
  obtain ⟨h1, h2, h3, h4⟩ := decode_DXYN x y n hx hy hn
  refine ⟨?_, ⟨?_, ?_⟩, ?_⟩
  · intro hvb
    exact ⟨draw_retry c rnd _ hop h1 hvb,
      fun rnds k => run_steps_fixed rnds c (fun r => draw_retry c r _ hop h1 hvb) k⟩
  · unfold chip8_vblank
    dsimp only
    split_ifs <;> rfl
  · unfold chip8_vblank chip8_current_instruction
    dsimp only
    split_ifs <;> rfl
  · intro hvb
    have hne : c.vblank ≠ 0 := by omega
    refine ⟨?_, ?_⟩
    · intro c' hstep
      obtain ⟨st, hst, hc'⟩ := draw_proceeds c c' rnd x y n hx hy hn hop hne hstep
      have hvb' : c'.vblank = 0 := by rw [hc']
      refine ⟨hvb', by rw [hc'], ⟨st, hst, by rw [hc'], by rw [hc']⟩, ?_⟩
      intro rnd2 op2 hop2 ht2
      exact draw_retry c' rnd2 op2 hop2 ht2 hvb'
    · intro hin
      obtain ⟨st, hst⟩ := draw_rows_some c.memory c.i (c.v x % 64) (c.v y % 32) n 0
        (c.display, 0) (by omega)
      have hvx : c.v x % 64 % 256 = c.v x % 64 := by omega
      have hvy : c.v y % 32 % 256 = c.v y % 32 := by omega
      rw [step_0xDXYN c rnd _ hop h1]
      simp only [op_0xDXYN, hne, if_false, h2, h3, h4, DISPLAY_WIDTH, DISPLAY_HEIGHT,
        hvx, hvy, hst]
      exact ⟨_, rfl⟩

/-- Witness for `draw_gated_by_vblank`: the draw `0xD011` is a no-op on a machine
with `vblank = 0` and proceeds on the same machine with `vblank = 1`. -/
theorem draw_gated_by_vblank_witness :
    chip8_next_instruction (draw_state 0) 0 = some (draw_state 0) ∧
    (∃ c', chip8_next_instruction (draw_state 1) 0 = some c' ∧
      c'.vblank = 0 ∧ c'.pc = 0x202) := by
  have h0 := draw_gated_by_vblank (draw_state 0) 0 0 1 1 (by decide) (by decide) (by decide) rfl
  have h1 := draw_gated_by_vblank (draw_state 1) 0 0 1 1 (by decide) (by decide) (by decide) rfl
  refine ⟨(h0.1 rfl).1, ?_⟩
  obtain ⟨c', hc'⟩ := (h1.2.2 rfl).2 (by decide)
  obtain ⟨g1, g2, _⟩ := (h1.2.2 rfl).1 c' hc'
  exact ⟨c', hc', g1, g2⟩

/-! ## Pixels of the draw instruction -/

theorem shr_and_one (x t : Nat) : (x >>> t) &&& 1 = (x.testBit t).toNat := by
  rw [Nat.and_one_is_mod, Nat.shiftRight_eq_div_pow, Nat.toNat_testBit]

theorem shr_and_one_le (x t : Nat) : (x >>> t) &&& 1 ≤ 1 := by
  rw [Nat.and_one_is_mod]; omega

theorem xor_bit (B p s t : Nat) (hp : p ≤ 1) (ht : t < 8) :
    (((B ^^^ (p <<< s)) % 256) >>> t) &&& 1 =
      ((B >>> t) &&& 1) ^^^ (if t = s then p else 0) := by
  have h256 : (256 : Nat) = 2 ^ 8 := by norm_num
  rw [shr_and_one, shr_and_one, h256, Nat.testBit_mod_two_pow, Nat.testBit_xor,
    Nat.testBit_shiftLeft]
  have hp' : p = 0 ∨ p = 1 := by omega
  rcases hp' with hp0 | hp1
  · subst hp0
    simp [ht]
  · subst hp1
    by_cases hts : t = s
    · subst hts
      simp [ht]
      cases B.testBit t <;> rfl
    · have : ¬ (t ≥ s ∧ t - s = 0) := by omega
      by_cases hge : t ≥ s
      · have h2 : t - s ≠ 0 := by omega
        obtain ⟨m, hm⟩ : ∃ m, t - s = m + 1 := ⟨t - s - 1, by omega⟩
        simp [ht, hts, hge, hm, Nat.testBit_succ]
      · simp [ht, hts, hge]

theorem sprite_bit_le (sprite j : Nat) : sprite_bit sprite j ≤ 1 := shr_and_one_le _ _

theorem display_bit_le (d : Nat → Nat) (q : Nat) : display_bit d q ≤ 1 := shr_and_one_le _ _

/-- One pixel XORed into the bitmap, as the body of the inner draw loop does it:
pixel `q0` is XORed with `p`, every other pixel is kept. -/
theorem store_xor_bit (d : Nat → Nat) (q0 p q : Nat) (hp : p ≤ 1) :
    display_bit (store d (q0 / 8) ((d (q0 / 8) ^^^ (p <<< (7 - q0 % 8))) % 256)) q =
      if q = q0 then display_bit d q ^^^ p else display_bit d q := by
  unfold display_bit
  by_cases hb : q / 8 = q0 / 8
  · rw [hb, store_same, xor_bit _ _ _ _ hp (by omega)]
    by_cases hq : q = q0
    · subst hq
      simp
    · have : ¬ (7 - q % 8 = 7 - q0 % 8) := by omega
      rw [if_neg this, if_neg hq, Nat.xor_zero]
  · have hq : q ≠ q0 := by
      intro h; apply hb; rw [h]
    rw [store_other _ _ _ _ hb, if_neg hq]

/-- Pixels after the inner draw loop for row `i`: the pixels of that row in columns
`vx + j .. vx + j + k - 1` that lie on the screen are XORed with the sprite bits. -/
theorem draw_cols_bit (sprite vx vy i : Nat) (hrow : vy + i < 32) :
    ∀ (k j : Nat) (st : (Nat → Nat) × Nat) (q : Nat),
      display_bit (draw_cols sprite vx vy i k j st).1 q =
        if (vy + i) * 64 + vx + j ≤ q ∧ q < (vy + i) * 64 + vx + j + k ∧
            q < (vy + i) * 64 + 64
        then display_bit st.1 q ^^^ sprite_bit sprite (q - ((vy + i) * 64 + vx))
        else display_bit st.1 q := by
  intro k
  induction k with
  | zero =>
    intro j st q
    have : ¬ ((vy + i) * 64 + vx + j ≤ q ∧ q < (vy + i) * 64 + vx + j + 0 ∧
        q < (vy + i) * 64 + 64) := by omega
    rw [if_neg this]
    rfl
  | succ k ih =>
    intro j st q
    unfold draw_cols
    by_cases hw : vx + j ≥ DISPLAY_WIDTH
    · rw [if_pos hw]
      unfold DISPLAY_WIDTH at hw
      have : ¬ ((vy + i) * 64 + vx + j ≤ q ∧ q < (vy + i) * 64 + vx + j + (k + 1) ∧
          q < (vy + i) * 64 + 64) := by omega
      rw [if_neg this]
    · rw [if_neg hw]
      unfold DISPLAY_WIDTH at hw
      dsimp only
      rw [ih]
      dsimp only
      have hidx : (vx + j + (vy + i) * DISPLAY_WIDTH) % 65536 = (vy + i) * 64 + vx + j := by
        unfold DISPLAY_WIDTH; omega
      have hpix : ((sprite >>> (7 - j)) &&& 1) % 256 = sprite_bit sprite j := by
        have := sprite_bit_le sprite j
        unfold sprite_bit at this ⊢
        omega
      rw [hidx, hpix, store_xor_bit _ _ _ _ (sprite_bit_le sprite j)]
      by_cases hq : q = (vy + i) * 64 + vx + j
      · subst hq
        have h1 : ¬ ((vy + i) * 64 + vx + (j + 1) ≤ (vy + i) * 64 + vx + j ∧
            (vy + i) * 64 + vx + j < (vy + i) * 64 + vx + (j + 1) + k ∧
            (vy + i) * 64 + vx + j < (vy + i) * 64 + 64) := by omega
        have h2 : ((vy + i) * 64 + vx + j ≤ (vy + i) * 64 + vx + j ∧
            (vy + i) * 64 + vx + j < (vy + i) * 64 + vx + j + (k + 1) ∧
            (vy + i) * 64 + vx + j < (vy + i) * 64 + 64) := by omega
        have h3 : (vy + i) * 64 + vx + j - ((vy + i) * 64 + vx) = j := by omega
        rw [if_neg h1, if_pos h2, if_pos rfl, h3]
      · rw [if_neg hq]
        by_cases hin : (vy + i) * 64 + vx + (j + 1) ≤ q ∧
            q < (vy + i) * 64 + vx + (j + 1) + k ∧ q < (vy + i) * 64 + 64
        · have h2 : ((vy + i) * 64 + vx + j ≤ q ∧ q < (vy + i) * 64 + vx + j + (k + 1) ∧
              q < (vy + i) * 64 + 64) := by omega
          rw [if_pos hin, if_pos h2]
        · have h2 : ¬ ((vy + i) * 64 + vx + j ≤ q ∧ q < (vy + i) * 64 + vx + j + (k + 1) ∧
              q < (vy + i) * 64 + 64) := by omega
          rw [if_neg hin, if_neg h2]

/-- The collision flag after the inner draw loop: 1 when a set sprite bit met a set
pixel, the flag before otherwise. -/
theorem draw_cols_unset (sprite vx vy i : Nat) (hrow : vy + i < 32) :
    ∀ (k j : Nat) (st : (Nat → Nat) × Nat),
      (row_hit st.1 sprite vx vy i j k → (draw_cols sprite vx vy i k j st).2 = 1) ∧
      (¬ row_hit st.1 sprite vx vy i j k → (draw_cols sprite vx vy i k j st).2 = st.2) := by
  intro k
  induction k with
  | zero =>
    intro j st
    refine ⟨?_, fun _ => rfl⟩
    rintro ⟨j', h1, h2, _⟩
    omega
  | succ k ih =>
    intro j st
    unfold draw_cols
    by_cases hw : vx + j ≥ DISPLAY_WIDTH
    · rw [if_pos hw]
      unfold DISPLAY_WIDTH at hw
      refine ⟨?_, fun _ => rfl⟩
      rintro ⟨j', h1, h2, h3, _⟩
      omega
    · rw [if_neg hw]
      unfold DISPLAY_WIDTH at hw
      dsimp only
      have hidx : (vx + j + (vy + i) * DISPLAY_WIDTH) % 65536 = vx + j + (vy + i) * 64 := by
        unfold DISPLAY_WIDTH; omega
      have hpix : ((sprite >>> (7 - j)) &&& 1) % 256 = sprite_bit sprite j := by
        have := sprite_bit_le sprite j
        unfold sprite_bit at this ⊢
        omega
      have hold : ((st.1 ((vx + j + (vy + i) * 64) / 8) >>> (7 - (vx + j + (vy + i) * 64) % 8))
          &&& 1) % 256 = display_bit st.1 (vx + j + (vy + i) * 64) := by
        have := display_bit_le st.1 (vx + j + (vy + i) * 64)
        unfold display_bit at this ⊢
        omega
      rw [hidx, hpix, hold]
      have hnew : (store st.1 ((vx + j + (vy + i) * 64) / 8)
          ((st.1 ((vx + j + (vy + i) * 64) / 8) ^^^
            (sprite_bit sprite j <<< (7 - (vx + j + (vy + i) * 64) % 8))) % 256)
          ((vx + j + (vy + i) * 64) / 8) >>> (7 - (vx + j + (vy + i) * 64) % 8)) &&& 1 =
          display_bit st.1 (vx + j + (vy + i) * 64) ^^^ sprite_bit sprite j := by
        have := store_xor_bit st.1 (vx + j + (vy + i) * 64) (sprite_bit sprite j)
          (vx + j + (vy + i) * 64) (sprite_bit_le sprite j)
        rw [if_pos rfl] at this
        exact this
      rw [hnew]
      -- pixels of the later columns are those of `st`
      have hrest : ∀ u, row_hit (store st.1 ((vx + j + (vy + i) * 64) / 8)
            ((st.1 ((vx + j + (vy + i) * 64) / 8) ^^^
              (sprite_bit sprite j <<< (7 - (vx + j + (vy + i) * 64) % 8))) % 256))
            sprite vx vy i (j + 1) u ↔ row_hit st.1 sprite vx vy i (j + 1) u := by
        intro u
        unfold row_hit
        constructor
        · rintro ⟨j', h1, h2, h3, h4, h5⟩
          rw [store_xor_bit _ _ _ _ (sprite_bit_le sprite j), if_neg (by omega)] at h5
          exact ⟨j', h1, h2, h3, h4, h5⟩
        · rintro ⟨j', h1, h2, h3, h4, h5⟩
          refine ⟨j', h1, h2, h3, h4, ?_⟩
          rw [store_xor_bit _ _ _ _ (sprite_bit_le sprite j), if_neg (by omega)]
          exact h5
      obtain ⟨ih1, ih2⟩ := ih (j + 1)
        (store st.1 ((vx + j + (vy + i) * 64) / 8)
          ((st.1 ((vx + j + (vy + i) * 64) / 8) ^^^
            (sprite_bit sprite j <<< (7 - (vx + j + (vy + i) * 64) % 8))) % 256),
         if display_bit st.1 (vx + j + (vy + i) * 64) = 1 ∧ sprite_bit sprite j = 1 ∧
            display_bit st.1 (vx + j + (vy + i) * 64) ^^^ sprite_bit sprite j = 0 then 1
         else st.2)
      dsimp only at ih1 ih2
      rw [hrest] at ih1 ih2
      by_cases hlater : row_hit st.1 sprite vx vy i (j + 1) k
      · refine ⟨fun _ => ih1 hlater, ?_⟩
        intro hno
        exfalso
        apply hno
        obtain ⟨j', h1, h2, h3, h4, h5⟩ := hlater
        exact ⟨j', by omega, by omega, h3, h4, h5⟩
      · rw [ih2 hlater]
        by_cases hnow : display_bit st.1 (vx + j + (vy + i) * 64) = 1 ∧ sprite_bit sprite j = 1
        · have hcond : display_bit st.1 (vx + j + (vy + i) * 64) = 1 ∧ sprite_bit sprite j = 1 ∧
              display_bit st.1 (vx + j + (vy + i) * 64) ^^^ sprite_bit sprite j = 0 := by
            refine ⟨hnow.1, hnow.2, ?_⟩
            rw [hnow.1, hnow.2]
            rfl
          rw [if_pos hcond]
          refine ⟨fun _ => rfl, ?_⟩
          intro hno
          exfalso
          apply hno
          exact ⟨j, Nat.le_refl _, by omega, by omega, hnow.2, hnow.1⟩
        · have hcond : ¬ (display_bit st.1 (vx + j + (vy + i) * 64) = 1 ∧
              sprite_bit sprite j = 1 ∧
              display_bit st.1 (vx + j + (vy + i) * 64) ^^^ sprite_bit sprite j = 0) := by
            intro h; exact hnow ⟨h.1, h.2.1⟩
          rw [if_neg hcond]
          refine ⟨?_, fun _ => rfl⟩
          rintro ⟨j', h1, h2, h3, h4, h5⟩
          exfalso
          by_cases hj : j' = j
          · subst hj; exact hnow ⟨h5, h4⟩
          · exact hlater ⟨j', by omega, by omega, h3, h4, h5⟩

/-- Pixels after the outer draw loop: the screen pixel `(px, py)` is XORed with the
sprite bit that covers it when `(px, py)` lies in the window of the rows
`i .. i + k - 1`, and is kept otherwise. -/
theorem draw_rows_bit (memory : Nat → Nat) (address vx vy : Nat) :
    ∀ (k i : Nat) (st st' : (Nat → Nat) × Nat),
      draw_rows memory address vx vy k i st = some st' →
      ∀ px py, px < 64 → py < 32 →
        display_bit st'.1 (px + py * 64) =
          if vy + i ≤ py ∧ py < vy + i + k ∧ vx ≤ px ∧ px < vx + 8
          then display_bit st.1 (px + py * 64) ^^^
            sprite_bit (memory (address + (py - vy))) (px - vx)
          else display_bit st.1 (px + py * 64) := by
  intro k
  induction k with
  | zero =>
    intro i st st' hs px py hpx hpy
    cases hs
    have : ¬ (vy + i ≤ py ∧ py < vy + i + 0 ∧ vx ≤ px ∧ px < vx + 8) := by omega
    rw [if_neg this]
  | succ k ih =>
    intro i st st' hs px py hpx hpy
    unfold draw_rows at hs
    split_ifs at hs with ha hb
    · cases hs
      unfold DISPLAY_HEIGHT at hb
      have : ¬ (vy + i ≤ py ∧ py < vy + i + (k + 1) ∧ vx ≤ px ∧ px < vx + 8) := by omega
      rw [if_neg this]
    · unfold DISPLAY_HEIGHT at hb
      have hrow : vy + i < 32 := by omega
      rw [ih (i + 1) _ st' hs px py hpx hpy, draw_cols_bit _ _ _ _ hrow]
      by_cases hhere : py = vy + i ∧ vx ≤ px ∧ px < vx + 8
      · obtain ⟨h1, h2, h3⟩ := hhere
        have c1 : ¬ (vy + (i + 1) ≤ py ∧ py < vy + (i + 1) + k ∧ vx ≤ px ∧ px < vx + 8) := by
          omega
        have c2 : (vy + i) * 64 + vx + 0 ≤ px + py * 64 ∧
            px + py * 64 < (vy + i) * 64 + vx + 0 + 8 ∧ px + py * 64 < (vy + i) * 64 + 64 := by
          omega
        have c3 : vy + i ≤ py ∧ py < vy + i + (k + 1) ∧ vx ≤ px ∧ px < vx + 8 := by omega
        have e1 : px + py * 64 - ((vy + i) * 64 + vx) = px - vx := by omega
        have e2 : py - vy = i := by omega
        rw [if_neg c1, if_pos c2, if_pos c3, e1, e2]
      · have c2 : ¬ ((vy + i) * 64 + vx + 0 ≤ px + py * 64 ∧
            px + py * 64 < (vy + i) * 64 + vx + 0 + 8 ∧ px + py * 64 < (vy + i) * 64 + 64) := by
          omega
        rw [if_neg c2]
        by_cases hlater : vy + (i + 1) ≤ py ∧ py < vy + (i + 1) + k ∧ vx ≤ px ∧ px < vx + 8
        · have c3 : vy + i ≤ py ∧ py < vy + i + (k + 1) ∧ vx ≤ px ∧ px < vx + 8 := by omega
          rw [if_pos hlater, if_pos c3]
        · have c3 : ¬ (vy + i ≤ py ∧ py < vy + i + (k + 1) ∧ vx ≤ px ∧ px < vx + 8) := by
            omega
          rw [if_neg hlater, if_neg c3]

/-- The collision flag after the outer draw loop: 1 when a set sprite bit met a
set pixel of the bitmap the loop started from, the flag before otherwise. -/
theorem draw_rows_unset (memory : Nat → Nat) (address vx vy : Nat) :
    ∀ (k i : Nat) (st st' : (Nat → Nat) × Nat),
      draw_rows memory address vx vy k i st = some st' →
      (sprite_hit st.1 memory address vx vy i k → st'.2 = 1) ∧
      (¬ sprite_hit st.1 memory address vx vy i k → st'.2 = st.2) := by
  intro k
  induction k with
  | zero =>
    intro i st st' hs
    cases hs
    refine ⟨?_, fun _ => rfl⟩
    rintro ⟨r, h1, h2, _⟩
    omega
  | succ k ih =>
    intro i st st' hs
    unfold draw_rows at hs
    split_ifs at hs with ha hb
    · cases hs
      unfold DISPLAY_HEIGHT at hb
      refine ⟨?_, fun _ => rfl⟩
      rintro ⟨r, h1, h2, h3, _⟩
      omega
    · unfold DISPLAY_HEIGHT at hb
      have hrow : vy + i < 32 := by omega
      obtain ⟨ih1, ih2⟩ := ih (i + 1) _ st' hs
      obtain ⟨hc1, hc2⟩ := draw_cols_unset (memory (address + i)) vx vy i hrow 8 0 st
      -- the rows below row `i` are untouched by the inner loop of row `i`
      have hrest : sprite_hit (draw_cols (memory (address + i)) vx vy i 8 0 st).1 memory
            address vx vy (i + 1) k ↔ sprite_hit st.1 memory address vx vy (i + 1) k := by
        unfold sprite_hit row_hit
        constructor
        · rintro ⟨r, h1, h2, h3, j', g1, g2, g3, g4, g5⟩
          rw [draw_cols_bit _ _ _ _ hrow, if_neg (by omega)] at g5
          exact ⟨r, h1, h2, h3, j', g1, g2, g3, g4, g5⟩
        · rintro ⟨r, h1, h2, h3, j', g1, g2, g3, g4, g5⟩
          refine ⟨r, h1, h2, h3, j', g1, g2, g3, g4, ?_⟩
          rw [draw_cols_bit _ _ _ _ hrow, if_neg (by omega)]
          exact g5
      rw [hrest] at ih1 ih2
      by_cases hlater : sprite_hit st.1 memory address vx vy (i + 1) k
      · refine ⟨fun _ => ih1 hlater, ?_⟩
        intro hno
        exfalso
        apply hno
        obtain ⟨r, h1, h2, h3, h4⟩ := hlater
        exact ⟨r, by omega, by omega, h3, h4⟩
      · rw [ih2 hlater]
        by_cases hnow : row_hit st.1 (memory (address + i)) vx vy i 0 8
        · refine ⟨fun _ => hc1 hnow, ?_⟩
          intro hno
          exfalso
          apply hno
          exact ⟨i, Nat.le_refl _, by omega, hrow, hnow⟩
        · rw [hc2 hnow]
          refine ⟨?_, fun _ => rfl⟩
          rintro ⟨r, h1, h2, h3, h4⟩
          exfalso
          by_cases hr : r = i
          · subst hr; exact hnow h4
          · exact hlater ⟨r, by omega, by omega, h3, h4⟩

/-- On screen coordinates `chip8_get_pixel` reads the pixel with linear index
`px + py * 64`. -/
theorem chip8_get_pixel_screen (c : Chip8) (px py : Nat) (hpx : px < 64) (hpy : py < 32) :
    chip8_get_pixel c (px : Int) (py : Int) = some (display_bit c.display (px + py * 64)) := by
  have h1 : Int.tmod (px : Int) 64 = ((px % 64 : Nat) : Int) := rfl
  have h2 : Int.tmod (py : Int) 32 = ((py % 32 : Nat) : Int) := rfl
  have h3 : Int.tmod (px : Int) 8 = ((px % 8 : Nat) : Int) := rfl
  have h4 : Int.tdiv ((px % 64 : Nat) : Int) 8 = ((px % 64 / 8 : Nat) : Int) := rfl
  have ha : Int.toNat ((((px % 64 / 8 : Nat) : Int) + ((py % 32 : Nat) : Int) * 8) % 65536) =
      (px + py * 64) / 8 := by omega
  have hs : Int.toNat (7 - ((px % 8 : Nat) : Int)) = 7 - (px + py * 64) % 8 := by omega
  have hlt : (px + py * 64) / 8 < SIZE_DISPLAY := by unfold SIZE_DISPLAY; omega
  unfold chip8_get_pixel
  dsimp only
  rw [h1, h2, h3, h4, ha, hs, if_pos hlt]
  rfl

theorem chip8_vblank_frame (c : Chip8) :
    (chip8_vblank c).memory = c.memory ∧ (chip8_vblank c).display = c.display ∧
    (chip8_vblank c).stack = c.stack ∧ (chip8_vblank c).v = c.v ∧
    (chip8_vblank c).i = c.i ∧ (chip8_vblank c).pc = c.pc ∧ (chip8_vblank c).sp = c.sp ∧
    (chip8_vblank c).keys = c.keys ∧ (chip8_vblank c).halt_code = c.halt_code ∧
    (chip8_vblank c).vblank = 1 := by
  unfold chip8_vblank
  dsimp only
  split_ifs <;> exact ⟨rfl, rfl, rfl, rfl, rfl, rfl, rfl, rfl, rfl, rfl⟩

theorem chip8_vblank_instruction (c : Chip8) :
    chip8_current_instruction (chip8_vblank c) = chip8_current_instruction c := by
  obtain ⟨h1, _, _, _, _, h6, _⟩ := chip8_vblank_frame c
  unfold chip8_current_instruction
  rw [h1, h6]

/-- A draw instruction met with `vblank ≠ 0` produces a state when the sprite rows
lie in memory. -/
theorem draw_defined (c : Chip8) (rnd x y n : Nat) (hx : x < 16) (hy : y < 16) (hn : n < 16)
    (hop : chip8_current_instruction c = some (0xD000 + 256 * x + 16 * y + n))
    (hvb : c.vblank ≠ 0) (hin : c.i + n ≤ 4096) :
    ∃ c', chip8_next_instruction c rnd = some c' := by
  obtain ⟨h1, h2, h3, h4⟩ := decode_DXYN x y n hx hy hn
  obtain ⟨st, hst⟩ := draw_rows_some c.memory c.i (c.v x % 64) (c.v y % 32) n 0
    (c.display, 0) (by omega)
  have hvx : c.v x % 64 % 256 = c.v x % 64 := by omega
  have hvy : c.v y % 32 % 256 = c.v y % 32 := by omega
  rw [step_0xDXYN c rnd _ hop h1]
  simp only [op_0xDXYN, hvb, if_false, h2, h3, h4, DISPLAY_WIDTH, DISPLAY_HEIGHT,
    hvx, hvy, hst]
  exact ⟨_, rfl⟩

/-- What a proceeding draw does, pixel by pixel: `v[F]` is 0 or 1, and 1 exactly
when a set sprite bit met a set pixel; every screen pixel in the sprite window is
XORed with its sprite bit, every other one is kept; memory, `i` and the registers
other than `v[F]` are kept. -/
theorem draw_effect (c c' : Chip8) (rnd x y n : Nat) (hx : x < 16) (hy : y < 16)
    (hn : n < 16) (hop : chip8_current_instruction c = some (0xD000 + 256 * x + 16 * y + n))
    (hvb : c.vblank ≠ 0) (hstep : chip8_next_instruction c rnd = some c') :
    (c'.v 0xF = 0 ∨ c'.v 0xF = 1) ∧
    (c'.v 0xF = 1 ↔ sprite_hit c.display c.memory c.i (c.v x % 64) (c.v y % 32) 0 n) ∧
    (∀ px py, px < 64 → py < 32 →
      display_bit c'.display (px + py * 64) =
        if c.v y % 32 ≤ py ∧ py < c.v y % 32 + n ∧ c.v x % 64 ≤ px ∧ px < c.v x % 64 + 8
        then display_bit c.display (px + py * 64) ^^^
          sprite_bit (c.memory (c.i + (py - c.v y % 32))) (px - c.v x % 64)
        else display_bit c.display (px + py * 64)) ∧
    c'.memory = c.memory ∧ c'.i = c.i ∧ (∀ k, k ≠ 0xF → c'.v k = c.v k) ∧
    ((∀ a, a < 256 → c.display a < 256) → ∀ a, a < 256 → c'.display a < 256) := by
  obtain ⟨st, hst, hc'⟩ := draw_proceeds c c' rnd x y n hx hy hn hop hvb hstep
  obtain ⟨u1, u2⟩ := draw_rows_unset c.memory c.i (c.v x % 64) (c.v y % 32) n 0
    (c.display, 0) st hst
  have hbit := draw_rows_bit c.memory c.i (c.v x % 64) (c.v y % 32) n 0 (c.display, 0) st hst
  have hvF : c'.v 0xF = st.2 := by rw [hc']; exact store_same c.v 0xF st.2
  have hdisp : c'.display = st.1 := by rw [hc']
  refine ⟨?_, ?_, ?_, by rw [hc'], by rw [hc'], ?_, ?_⟩
  · rw [hvF]
    by_cases hh : sprite_hit c.display c.memory c.i (c.v x % 64) (c.v y % 32) 0 n
    · exact Or.inr (u1 hh)
    · exact Or.inl (u2 hh)
  · rw [hvF]
    constructor
    · intro h1
      by_contra hh
      have h2 : st.2 = 0 := u2 hh
      omega
    · exact u1
  · intro px py hpx hpy
    rw [hdisp, hbit px py hpx hpy]
    dsimp only
    by_cases hw : c.v y % 32 ≤ py ∧ py < c.v y % 32 + n ∧ c.v x % 64 ≤ px ∧
        px < c.v x % 64 + 8
    · have hw' : c.v y % 32 + 0 ≤ py ∧ py < c.v y % 32 + 0 + n ∧ c.v x % 64 ≤ px ∧
          px < c.v x % 64 + 8 := by omega
      rw [if_pos hw, if_pos hw']
    · have hw' : ¬ (c.v y % 32 + 0 ≤ py ∧ py < c.v y % 32 + 0 + n ∧ c.v x % 64 ≤ px ∧
          px < c.v x % 64 + 8) := by omega
      rw [if_neg hw, if_neg hw']
  · intro k hk
    rw [hc']
    exact store_other _ _ _ _ hk
  · intro hd
    rw [hdisp]
    have h0 : (0 : Nat) < 256 := by decide
    exact (draw_rows_WF c.memory c.i (c.v x % 64) (c.v y % 32) n 0 (c.display, 0) st hd h0
      hst).1

/-- C12: draw XORs a clipped sprite and `chip8_get_pixel` reads it back.  With
`vx = v[X] mod 64`, `vy = v[Y] mod 32`, after a proceeding `0xDXYN` (`vblank = 1`,
`i + N ≤ 4096`) every screen pixel `(px, py)`, `px < 64`, `py < 32`, with
`vx ≤ px < vx + 8` and `vy ≤ py < vy + N` reads as its value before the draw XOR bit
`7 - (px - vx)` of `memory[i + (py - vy)]`, and every other screen pixel reads as
before; in particular nothing left of `vx` or above `vy` changes, so the parts of
the sprite beyond the right or bottom edge do not wrap to column 0 or row 0. -/
theorem draw_xors_clipped_sprite (c : Chip8) (rnd x y n : Nat) (hx : x < 16) (hy : y < 16)
    (hn : n < 16) (hop : chip8_current_instruction c = some (0xD000 + 256 * x + 16 * y + n))
    (hvb : c.vblank = 1) (hin : c.i + n ≤ 4096) :
    ∃ c', chip8_next_instruction c rnd = some c' ∧
      ∀ (px py : Nat), px < 64 → py < 32 →
        ∃ old, chip8_get_pixel c (px : Int) (py : Int) = some old ∧
          chip8_get_pixel c' (px : Int) (py : Int) =
            some (if c.v x % 64 ≤ px ∧ px < c.v x % 64 + 8 ∧
                    c.v y % 32 ≤ py ∧ py < c.v y % 32 + n
                  then old ^^^ ((c.memory (c.i + (py - c.v y % 32)) >>>
                    (7 - (px - c.v x % 64))) &&& 1)
                  else old) ∧
          ((px < c.v x % 64 ∨ py < c.v y % 32) →
            chip8_get_pixel c' (px : Int) (py : Int) = some old) := by
  have hne : c.vblank ≠ 0 := by omega
  obtain ⟨c', hstep⟩ := draw_defined c rnd x y n hx hy hn hop hne hin
  obtain ⟨_, _, hbit, _⟩ := draw_effect c c' rnd x y n hx hy hn hop hne hstep
  refine ⟨c', hstep, ?_⟩
  intro px py hpx hpy
  refine ⟨display_bit c.display (px + py * 64), chip8_get_pixel_screen c px py hpx hpy, ?_, ?_⟩
  · rw [chip8_get_pixel_screen c' px py hpx hpy, hbit px py hpx hpy]
    by_cases hw : c.v x % 64 ≤ px ∧ px < c.v x % 64 + 8 ∧ c.v y % 32 ≤ py ∧
        py < c.v y % 32 + n
    · have hw' : c.v y % 32 ≤ py ∧ py < c.v y % 32 + n ∧ c.v x % 64 ≤ px ∧
          px < c.v x % 64 + 8 := by omega
      rw [if_pos hw, if_pos hw']
      rfl
    · have hw' : ¬ (c.v y % 32 ≤ py ∧ py < c.v y % 32 + n ∧ c.v x % 64 ≤ px ∧
          px < c.v x % 64 + 8) := by omega
      rw [if_neg hw, if_neg hw']
  · intro hout
    have hw' : ¬ (c.v y % 32 ≤ py ∧ py < c.v y % 32 + n ∧ c.v x % 64 ≤ px ∧
        px < c.v x % 64 + 8) := by omega
    rw [chip8_get_pixel_screen c' px py hpx hpy, hbit px py hpx hpy, if_neg hw']

/-- Witness for `draw_xors_clipped_sprite`: `0xD011` draws the font byte `0xF0` at
`(0, 0)` on a cleared display; pixel `(0, 0)` reads 1 and pixel `(4, 0)` reads 0. -/
theorem draw_xors_clipped_sprite_witness :
    ∃ c', chip8_next_instruction (draw_state 1) 0 = some c' ∧
      chip8_get_pixel c' 0 0 = some 1 ∧ chip8_get_pixel c' 4 0 = some 0 ∧
      chip8_get_pixel c' 0 1 = some 0 := by
  obtain ⟨c', h1, h2⟩ := draw_xors_clipped_sprite (draw_state 1) 0 0 1 1 (by decide)
    (by decide) (by decide) rfl rfl (by decide)
  have e00 : chip8_get_pixel (draw_state 1) ((0 : Nat) : Int) ((0 : Nat) : Int) = some 0 := rfl
  have e40 : chip8_get_pixel (draw_state 1) ((4 : Nat) : Int) ((0 : Nat) : Int) = some 0 := rfl
  have e01 : chip8_get_pixel (draw_state 1) ((0 : Nat) : Int) ((1 : Nat) : Int) = some 0 := rfl
  refine ⟨c', h1, ?_, ?_, ?_⟩
  · obtain ⟨old, g1, g2, _⟩ := h2 0 0 (by decide) (by decide)
    rw [e00] at g1
    cases g1
    exact g2
  · obtain ⟨old, g1, g2, _⟩ := h2 4 0 (by decide) (by decide)
    rw [e40] at g1
    cases g1
    exact g2
  · obtain ⟨old, g1, g2, _⟩ := h2 0 1 (by decide) (by decide)
    rw [e01] at g1
    cases g1
    exact g2

/-- C13: collision flag of a proceeding draw.  After `0xDXYN` with `vblank = 1`,
`v[F] = 1` exactly when for some drawn sprite bit (row `r < N`, column `col < 8`,
on the screen) the target pixel was 1 before the draw, the sprite bit is 1 and the
pixel is 0 after it; otherwise `v[F] = 0`.  The flag is 0 or 1, does not depend on
the prior `v[F]` (for `X`, `Y` other than `0xF`), and is 0 for `N = 0` and on a
cleared display.  The step produces a state when the sprite rows lie in memory. -/
theorem draw_collision_flag (c : Chip8) (rnd x y n : Nat) (hx : x < 16) (hy : y < 16)
    (hn : n < 16) (hop : chip8_current_instruction c = some (0xD000 + 256 * x + 16 * y + n))
    (hvb : c.vblank = 1) :
    (∀ c', chip8_next_instruction c rnd = some c' →
      (c'.v 0xF = 0 ∨ c'.v 0xF = 1) ∧
      (c'.v 0xF = 1 ↔
        ∃ r col, r < n ∧ col < 8 ∧ c.v y % 32 + r < 32 ∧ c.v x % 64 + col < 64 ∧
          display_bit c.display (c.v x % 64 + col + (c.v y % 32 + r) * 64) = 1 ∧
          (c.memory (c.i + r) >>> (7 - col)) &&& 1 = 1 ∧
          display_bit c'.display (c.v x % 64 + col + (c.v y % 32 + r) * 64) = 0) ∧
      (n = 0 → c'.v 0xF = 0) ∧
      ((∀ a, a < 256 → c.display a = 0) → c'.v 0xF = 0) ∧
      (x ≠ 0xF → y ≠ 0xF → ∀ (f : Nat) (d' : Chip8),
        chip8_next_instruction { c with v := store c.v 0xF f } rnd = some d' →
        d'.v 0xF = c'.v 0xF)) ∧
    (c.i + n ≤ 4096 → ∃ c', chip8_next_instruction c rnd = some c') := by
  have hne : c.vblank ≠ 0 := by omega
  refine ⟨?_, fun hin => draw_defined c rnd x y n hx hy hn hop hne hin⟩
  intro c' hstep
  obtain ⟨h01, hiff, hbit, _, _, _, _⟩ := draw_effect c c' rnd x y n hx hy hn hop hne hstep
  have hchar : c'.v 0xF = 1 ↔
      ∃ r col, r < n ∧ col < 8 ∧ c.v y % 32 + r < 32 ∧ c.v x % 64 + col < 64 ∧
        display_bit c.display (c.v x % 64 + col + (c.v y % 32 + r) * 64) = 1 ∧
        (c.memory (c.i + r) >>> (7 - col)) &&& 1 = 1 ∧
        display_bit c'.display (c.v x % 64 + col + (c.v y % 32 + r) * 64) = 0 := by
    rw [hiff]
    unfold sprite_hit row_hit
    constructor
    · rintro ⟨r, _, h2, h3, j', _, g2, g3, g4, g5⟩
      refine ⟨r, j', by omega, by omega, h3, g3, g5, g4, ?_⟩
      have hw : c.v y % 32 ≤ c.v y % 32 + r ∧ c.v y % 32 + r < c.v y % 32 + n ∧
          c.v x % 64 ≤ c.v x % 64 + j' ∧ c.v x % 64 + j' < c.v x % 64 + 8 := by omega
      have e1 : c.v y % 32 + r - c.v y % 32 = r := by omega
      have e2 : c.v x % 64 + j' - c.v x % 64 = j' := by omega
      rw [hbit _ _ g3 h3, if_pos hw, g5, e1, e2, g4]
      rfl
    · rintro ⟨r, col, h1, h2, h3, h4, h5, h6, _⟩
      exact ⟨r, Nat.zero_le _, by omega, h3, col, Nat.zero_le _, by omega, h4, h6, h5⟩
  refine ⟨h01, hchar, ?_, ?_, ?_⟩
  · intro hn0
    rcases h01 with h | h
    · exact h
    · exfalso
      obtain ⟨r, col, h1, _⟩ := hchar.1 h
      omega
  · intro hclear
    rcases h01 with h | h
    · exact h
    · exfalso
      obtain ⟨r, col, h1, h2, h3, h4, h5, _⟩ := hchar.1 h
      have hz : c.display ((c.v x % 64 + col + (c.v y % 32 + r) * 64) / 8) = 0 :=
        hclear _ (by omega)
      unfold display_bit at h5
      rw [hz] at h5
      simp at h5
  · intro hxF hyF f d' hd
    have hopd : chip8_current_instruction { c with v := store c.v 0xF f } =
        some (0xD000 + 256 * x + 16 * y + n) := hop
    obtain ⟨g01, giff, _⟩ :=
      draw_effect { c with v := store c.v 0xF f } d' rnd x y n hx hy hn hopd hne hd
    dsimp only at giff
    rw [store_other _ _ _ _ hxF, store_other _ _ _ _ hyF, ← hiff] at giff
    rcases g01 with g | g
    · rcases h01 with h | h
      · rw [g, h]
      · exact absurd (giff.2 h) (by omega)
    · rw [g, giff.1 g]

/-- Witness for `draw_collision_flag`: drawing the font byte `0xF0` at `(0, 0)`
over a display whose pixel `(0, 0)` is set erases that pixel and gives `v[F] = 1`;
on the cleared display the same draw gives `v[F] = 0`. -/
theorem draw_collision_flag_witness :
    (∃ c', chip8_next_instruction draw_hit_state 0 = some c' ∧ c'.v 0xF = 1) ∧
    (∃ c', chip8_next_instruction (draw_state 1) 0 = some c' ∧ c'.v 0xF = 0) := by
  have h1 := draw_collision_flag draw_hit_state 0 0 1 1 (by decide) (by decide) (by decide)
    rfl rfl
  have h2 := draw_collision_flag (draw_state 1) 0 0 1 1 (by decide) (by decide) (by decide)
    rfl rfl
  refine ⟨?_, ?_⟩
  · obtain ⟨c', hc'⟩ := h1.2 (by decide)
    obtain ⟨_, hiff, _⟩ := h1.1 c' hc'
    refine ⟨c', hc', hiff.2 ⟨0, 0, by decide, by decide, by decide, by decide, by decide,
      by decide, ?_⟩⟩
    have hk : chip8_next_instruction draw_hit_state 0 =
        some ((chip8_next_instruction draw_hit_state 0).getD blank) := rfl
    rw [hk] at hc'
    cases hc'
    decide
  · obtain ⟨c', hc'⟩ := h2.2 (by decide)
    obtain ⟨_, _, _, hclear, _⟩ := h2.1 c' hc'
    exact ⟨c', hc', hclear (fun a ha => by
      show (draw_state 1).display a = 0
      simp [draw_state, loaded, chip8_load, clear_chip8, memset_zero, SIZE_DISPLAY,
        SIZE_MEMORY, ADDRESS_CODE_BEG, ha])⟩

/-- Two bytes with the same eight bits are equal. -/
theorem byte_ext (a b : Nat) (ha : a < 256) (hb : b < 256)
    (h : ∀ t, t < 8 → (a >>> t) &&& 1 = (b >>> t) &&& 1) : a = b := by
  apply Nat.eq_of_testBit_eq
  intro t
  by_cases ht : t < 8
  · have := h t ht
    rw [shr_and_one, shr_and_one] at this
    cases h1 : a.testBit t <;> cases h2 : b.testBit t <;> simp [h1, h2] at this <;> rfl
  · have hp : (256 : Nat) ≤ 2 ^ t := by
      have : (2 : Nat) ^ 8 ≤ 2 ^ t := Nat.pow_le_pow_right (by decide) (by omega)
      simpa using this
    rw [Nat.testBit_lt_two_pow (by omega), Nat.testBit_lt_two_pow (by omega)]

/-- Two byte bitmaps with the same 64 x 32 pixels have the same 256 bytes. -/
theorem display_ext (d e : Nat → Nat) (hd : ∀ a, a < 256 → d a < 256)
    (he : ∀ a, a < 256 → e a < 256)
    (h : ∀ px py, px < 64 → py < 32 → display_bit d (px + py * 64) = display_bit e (px + py * 64)) :
    ∀ a, a < 256 → d a = e a := by
  intro a ha
  apply byte_ext _ _ (hd a ha) (he a ha)
  intro t ht
  have hq := h ((a * 8 + (7 - t)) % 64) ((a * 8 + (7 - t)) / 64) (by omega) (by omega)
  have e1 : (a * 8 + (7 - t)) % 64 + (a * 8 + (7 - t)) / 64 * 64 = a * 8 + (7 - t) := by omega
  have e2 : (a * 8 + (7 - t)) / 8 = a := by omega
  have e3 : 7 - (a * 8 + (7 - t)) % 8 = t := by omega
  rw [e1] at hq
  unfold display_bit at hq
  rw [e2, e3] at hq
  exact hq

/-- C11: draw is its own inverse.  For every display of bytes, every sprite at
`memory[i .. i + N)` with `i + N ≤ 4096` and coordinate registers `X`, `Y` other
than `0xF`: a tick and the draw `0xDXYN`, then (the same opcode being at `pc` again)
a tick and the same draw, leave all 256 display bytes as they were before the first
draw; and for the one-row sprite `0xFF` on a cleared display `v[F] = 0` after the
first draw and `v[F] = 1` after the second. -/
theorem draw_twice_restores (c : Chip8) (rnd1 rnd2 x y n : Nat) (hx : x < 16) (hxF : x ≠ 0xF)
    (hy : y < 16) (hyF : y ≠ 0xF) (hn : n < 16)
    (hop : chip8_current_instruction c = some (0xD000 + 256 * x + 16 * y + n))
    (hin : c.i + n ≤ 4096) (hd : ∀ a, a < 256 → c.display a < 256) :
    ∃ c1, chip8_next_instruction (chip8_vblank c) rnd1 = some c1 ∧
      (chip8_current_instruction c1 = some (0xD000 + 256 * x + 16 * y + n) →
        ∃ c2, chip8_next_instruction (chip8_vblank c1) rnd2 = some c2 ∧
          (∀ a, a < 256 → c2.display a = c.display a) ∧
          (n = 1 → c.memory c.i = 0xFF → (∀ a, a < 256 → c.display a = 0) →
            c1.v 0xF = 0 ∧ c2.v 0xF = 1)) := by
  obtain ⟨m1, d1, _, v1, i1, _, _, _, _, b1⟩ := chip8_vblank_frame c
  have hb1 : (chip8_vblank c).vblank ≠ 0 := by omega
  have hop1 : chip8_current_instruction (chip8_vblank c) =
      some (0xD000 + 256 * x + 16 * y + n) := by rw [chip8_vblank_instruction]; exact hop
  obtain ⟨c1, hs1⟩ := draw_defined (chip8_vblank c) rnd1 x y n hx hy hn hop1 hb1
    (by rw [i1]; exact hin)
  obtain ⟨f01, fiff, fbit, fmem, fi, fv, fwf⟩ :=
    draw_effect (chip8_vblank c) c1 rnd1 x y n hx hy hn hop1 hb1 hs1
  rw [m1, d1, v1, i1] at fiff fbit
  rw [m1] at fmem
  rw [i1] at fi
  rw [v1] at fv
  rw [d1] at fwf
  refine ⟨c1, hs1, ?_⟩
  intro hop2
  obtain ⟨m2, d2, _, v2, i2, _, _, _, _, b2⟩ := chip8_vblank_frame c1
  have hb2 : (chip8_vblank c1).vblank ≠ 0 := by omega
  have hop2' : chip8_current_instruction (chip8_vblank c1) =
      some (0xD000 + 256 * x + 16 * y + n) := by rw [chip8_vblank_instruction]; exact hop2
  obtain ⟨c2, hs2⟩ := draw_defined (chip8_vblank c1) rnd2 x y n hx hy hn hop2' hb2
    (by rw [i2, fi]; exact hin)
  obtain ⟨g01, giff, gbit, _, _, _, gwf⟩ :=
    draw_effect (chip8_vblank c1) c2 rnd2 x y n hx hy hn hop2' hb2 hs2
  rw [m2, d2, v2, i2, fmem, fi, fv x hxF, fv y hyF] at giff gbit
  rw [d2] at gwf
  refine ⟨c2, hs2, ?_, ?_⟩
  · apply display_ext _ _ (gwf (fwf hd)) hd
    intro px py hpx hpy
    rw [gbit px py hpx hpy, fbit px py hpx hpy]
    split_ifs
    · rw [Nat.xor_assoc, Nat.xor_self, Nat.xor_zero]
    · rfl
  · intro hn1 hsprite hclear
    have hzero : ∀ q, q < 2048 → display_bit c.display q = 0 := by
      intro q hq
      unfold display_bit
      rw [hclear _ (by omega)]
      simp
    constructor
    · rcases f01 with h | h
      · exact h
      · exfalso
        obtain ⟨r, _, _, h3, j', _, _, g3, _, g5⟩ := fiff.1 h
        rw [hzero _ (by omega)] at g5
        exact absurd g5 (by decide)
    · apply giff.2
      refine ⟨0, Nat.le_refl _, by omega, by omega, 0, Nat.le_refl _, by decide, by omega, ?_, ?_⟩
      · rw [Nat.add_zero, hsprite]; decide
      · have hw : c.v y % 32 ≤ c.v y % 32 ∧ c.v y % 32 < c.v y % 32 + n ∧
            c.v x % 64 ≤ c.v x % 64 ∧ c.v x % 64 < c.v x % 64 + 8 := by omega
        have hb := fbit (c.v x % 64) (c.v y % 32) (by omega) (by omega)
        rw [if_pos hw, hzero _ (by omega), Nat.sub_self, Nat.sub_self, Nat.add_zero,
          hsprite] at hb
        rw [Nat.add_zero, Nat.add_zero, hb]
        decide

theorem loaded_display (bytes : List Nat) (i : Nat) (a : Nat) (ha : a < 256) :
    ({ loaded bytes with i := i } : Chip8).display a = 0 := by
  show (loaded bytes).display a = 0
  unfold loaded chip8_load
  dsimp only
  split_ifs
  · rfl
  · exact (clear_chip8_fields blank).1 a ha

/-- Witness for `draw_twice_restores`: two draws `0xD011` of the sprite `0xFF` at
`(0, 0)`, a tick before each, on a cleared display. -/
theorem draw_twice_restores_witness :
    ∃ c1 c2, chip8_next_instruction (chip8_vblank draw_twice_state) 0 = some c1 ∧
      chip8_next_instruction (chip8_vblank c1) 0 = some c2 ∧
      (∀ a, a < 256 → c2.display a = draw_twice_state.display a) ∧
      c1.v 0xF = 0 ∧ c2.v 0xF = 1 := by
  have hz : ∀ a, a < 256 → draw_twice_state.display a = 0 :=
    fun a ha => loaded_display _ _ a ha
  obtain ⟨c1, h1, h2⟩ := draw_twice_restores draw_twice_state 0 0 0 1 1 (by decide)
    (by decide) (by decide) (by decide) (by decide) rfl (by decide)
    (fun a ha => by rw [hz a ha]; decide)
  have hk : chip8_next_instruction (chip8_vblank draw_twice_state) 0 =
      some ((chip8_next_instruction (chip8_vblank draw_twice_state) 0).getD blank) := rfl
  have hc1 : c1 = (chip8_next_instruction (chip8_vblank draw_twice_state) 0).getD blank :=
    Option.some.inj (h1.symm.trans hk)
  have hop2 : chip8_current_instruction c1 = some (0xD000 + 256 * 0 + 16 * 1 + 1) := by
    rw [hc1]; rfl
  obtain ⟨c2, g1, g2, g3⟩ := h2 hop2
  obtain ⟨g4, g5⟩ := g3 rfl rfl hz
  exact ⟨c1, c2, h1, g1, g2, g4, g5⟩

/-! ## Key wait, BCD and block transfers (`0xFXNN`) -/

theorem decode_FXNN (x nn : Nat) (hx : x < 16) (hnn : nn < 256) :
    (0xF000 + 256 * x + nn) &&& 0xF000 = 0xF000 ∧
    (((0xF000 + 256 * x + nn) &&& 0x0F00) >>> 8) % 256 = x ∧
    (0xF000 + 256 * x + nn) &&& 0x00FF = nn := by
  rw [and_F000, and_0F00_shr, and_00FF]
  omega

/-- The test `keys & (1 << j)` of the key loop is the test of bit `j`. -/
theorem and_one_shiftLeft (keys j : Nat) :
    (keys &&& (1 <<< j) ≠ 0) ↔ keys.testBit j = true := by
  rw [Nat.one_shiftLeft]
  constructor
  · intro h
    by_contra hb
    apply h
    apply Nat.eq_of_testBit_eq
    intro t
    rw [Nat.testBit_and, Nat.testBit_two_pow, Nat.zero_testBit]
    by_cases ht : j = t
    · subst ht; simp [hb]
    · simp [ht]
  · intro hb h
    have := congrArg (fun z => z.testBit j) h
    simp [hb] at this

/-- The key loop stores the first index from `i` on whose bit is set. -/
theorem key_loop_first (keys x : Nat) :
    ∀ (k i : Nat) (v : Nat → Nat) (j : Nat), i ≤ j → j < i + k →
      keys.testBit j = true → (∀ t, i ≤ t → t < j → keys.testBit t = false) →
      key_loop keys x k i v = store v x (j % 256) := by
  intro k
  induction k with
  | zero => intro i v j h1 h2; omega
  | succ k ih =>
    intro i v j h1 h2 hj hlow
    unfold key_loop
    by_cases hi : keys.testBit i = true
    · have hji : j = i := by
        by_contra hne
        have := hlow i (Nat.le_refl _) (by omega)
        rw [hi] at this
        exact absurd this (by decide)
      rw [if_pos ((and_one_shiftLeft keys i).2 hi), hji]
    · have hne : j ≠ i := by
        intro h; rw [h] at hj; exact hi hj
      have hcond : ¬ (keys &&& (1 <<< i) ≠ 0) := fun h => hi ((and_one_shiftLeft keys i).1 h)
      rw [if_neg hcond]
      exact ih (i + 1) v j (by omega) (by omega) hj (fun t ht1 ht2 => hlow t (by omega) ht2)

/-- A non-zero 16-bit mask has a lowest set bit, below 16. -/
theorem lowest_bit (keys : Nat) (h0 : keys ≠ 0) (h16 : keys < 65536) :
    ∃ j, j < 16 ∧ keys.testBit j = true ∧ ∀ t, t < j → keys.testBit t = false := by
  have hex : ∃ j, keys.testBit j = true := Nat.ne_zero_implies_bit_true h0
  refine ⟨Nat.find hex, ?_, Nat.find_spec hex, ?_⟩
  · by_contra hge
    have h1 : 2 ^ Nat.find hex ≤ keys := Nat.testBit_implies_ge (Nat.find_spec hex)
    have h2 : (2 : Nat) ^ 16 ≤ 2 ^ Nat.find hex := Nat.pow_le_pow_right (by decide) (by omega)
    have h3 : (2 : Nat) ^ 16 = 65536 := by norm_num
    omega
  · intro t ht
    have := Nat.find_min hex ht
    simpa using this

/-- The key-wait handler, both cases, on the machine with `pc` already advanced. -/
theorem op_0xFXNN_key_wait (c : Chip8) (x : Nat) (hx : x < 16) :
    op_0xFXNN c (0xF000 + 256 * x + 0x0A) =
      if c.keys = 0 then some { c with pc := Int.toNat (((c.pc : Int) - 2) % 65536) }
      else some { c with v := key_loop c.keys x 16 0 c.v } := by
  obtain ⟨_, h2, h3⟩ := decode_FXNN x 0x0A hx (by decide)
  simp only [op_0xFXNN, h2, h3]

/-- C14: key wait `0xFX0A`.  With `keys = 0` a step returns the input state, equal
in every field, and so does any number of steps.  With `keys ≠ 0` (a 16-bit mask)
the step stores into `v[x]` the index of the lowest set bit of `keys`, a value in
0..15, leaves `pc = pc_before + 2` and changes nothing else.  In particular after
`chip8_key_down` of key `k` on a machine with no key held the step stores `k`. -/
theorem key_wait (c : Chip8) (rnd x : Nat) (hx : x < 16)
    (hop : chip8_current_instruction c = some (0xF00A + 256 * x)) (hk : c.keys < 65536) :
    (c.keys = 0 →
      chip8_next_instruction c rnd = some c ∧
      ∀ (rnds : Nat → Nat) (k : Nat), run_steps rnds k c = some c) ∧
    (c.keys ≠ 0 →
      ∃ j, j < 16 ∧ c.keys.testBit j = true ∧ (∀ t, t < j → c.keys.testBit t = false) ∧
        chip8_next_instruction c rnd = some { c with pc := c.pc + 2, v := store c.v x j }) ∧
    (∀ (d : Chip8) (key : Nat), d.keys = 0 → key < 16 → c = chip8_key_down d key →
      ∃ c', chip8_next_instruction c rnd = some c' ∧ c'.v x = key) := by
  have hop' : chip8_current_instruction c = some (0xF000 + 256 * x + 0x0A) := by
    rw [hop]; congr 1; omega
  obtain ⟨hpc, _⟩ := fetch_some c _ hop'
  have hpc2 : (c.pc + 2) % 65536 = c.pc + 2 := by omega
  have hback : Int.toNat ((((c.pc + 2 : Nat) : Int) - 2) % 65536) = c.pc := by omega
  obtain ⟨ht, _, _⟩ := decode_FXNN x 0x0A hx (by decide)
  have hstep : ∀ r, chip8_next_instruction c r =
      op_0xFXNN { c with pc := (c.pc + 2) % 65536 } (0xF000 + 256 * x + 0x0A) :=
    fun r => step_0xFXNN c r _ hop' ht
  have hpressed : c.keys ≠ 0 →
      ∃ j, j < 16 ∧ c.keys.testBit j = true ∧ (∀ t, t < j → c.keys.testBit t = false) ∧
        chip8_next_instruction c rnd = some { c with pc := c.pc + 2, v := store c.v x j } := by
    intro hne
    obtain ⟨j, hj16, hj, hlow⟩ := lowest_bit c.keys hne hk
    refine ⟨j, hj16, hj, hlow, ?_⟩
    have hloop := key_loop_first c.keys x 16 0 c.v j (Nat.zero_le _) (by omega) hj
      (fun t _ ht => hlow t ht)
    have hj256 : j % 256 = j := by omega
    rw [hstep rnd, op_0xFXNN_key_wait _ x hx]
    dsimp only
    rw [if_neg hne, hloop, hj256, hpc2]
  refine ⟨?_, hpressed, ?_⟩
  · intro h0
    have h1 : ∀ r, chip8_next_instruction c r = some c := by
      intro r
      rw [hstep r, op_0xFXNN_key_wait _ x hx]
      dsimp only
      rw [if_pos h0, hpc2, hback]
    exact ⟨h1 rnd, fun rnds k => run_steps_fixed rnds c h1 k⟩
  · intro d key hd0 hkey hc
    have hkeys : c.keys = 2 ^ key := by
      rw [hc]
      unfold chip8_key_down
      dsimp only
      have h1 : key &&& 0xF = key := by rw [and_000F]; omega
      have h2 : (2 : Nat) ^ key < 65536 := by
        have : (2 : Nat) ^ key < 2 ^ 16 := Nat.pow_lt_pow_right (by decide) hkey
        simpa using this
      rw [hd0, h1, Nat.zero_or, Nat.one_shiftLeft, Nat.mod_eq_of_lt h2]
    have hne : c.keys ≠ 0 := by
      rw [hkeys]; exact Nat.pos_iff_ne_zero.1 (Nat.pow_pos (by decide))
    obtain ⟨j, _, hj, _, hs⟩ := hpressed hne
    rw [hkeys, Nat.testBit_two_pow] at hj
    have hjk : key = j := by simpa using hj
    refine ⟨_, hs, ?_⟩
    rw [hjk]
    exact store_same _ _ _

/-- Witness for `key_wait`: the key wait `0xF00A` repeats on a loaded machine with
no key held and stores 3 into `v[0]` once key 3 is down. -/
theorem key_wait_witness :
    chip8_next_instruction (loaded [0xF0, 0x0A]) 0 = some (loaded [0xF0, 0x0A]) ∧
    (∃ c', chip8_next_instruction (chip8_key_down (loaded [0xF0, 0x0A]) 3) 0 = some c' ∧
      c'.v 0 = 3) :=
  ⟨((key_wait (loaded [0xF0, 0x0A]) 0 0 (by decide) rfl (by decide)).1 rfl).1,
   (key_wait (chip8_key_down (loaded [0xF0, 0x0A]) 3) 0 0 (by decide) rfl (by decide)).2.2
     (loaded [0xF0, 0x0A]) 3 rfl (by decide) rfl⟩

theorem op_0xFXNN_bcd (c : Chip8) (x : Nat) (hx : x < 16) (hi : c.i + 2 < 4096) :
    op_0xFXNN c (0xF000 + 256 * x + 0x33) =
      some { c with memory :=
                      store (store (store c.memory c.i ((c.v x / 100) % 256)) (c.i + 1)
                        (((c.v x / 10) % 10) % 256)) (c.i + 2) ((c.v x % 10) % 256) } := by
  obtain ⟨_, h2, h3⟩ := decode_FXNN x 0x33 hx (by decide)
  have hi' : c.i + 2 < SIZE_MEMORY := hi
  simp only [op_0xFXNN, h2, h3, hi', if_true]

/-- C15: BCD `0xFX33`.  For every byte value of `v[x]` and every `i` with
`i + 2 < 4096`, after the step `memory[i]`, `memory[i+1]`, `memory[i+2]` are the
hundreds, tens and ones digits of `v[x]`: each is at most 9 and
`100 * memory[i] + 10 * memory[i+1] + memory[i+2] = v[x]` (156 gives 1, 5, 6);
every other memory byte, `i` and all registers are unchanged. -/
theorem bcd_digits (c : Chip8) (rnd x : Nat) (hx : x < 16)
    (hop : chip8_current_instruction c = some (0xF033 + 256 * x)) (hv : c.v x < 256)
    (hi : c.i + 2 < 4096) :
    ∃ c', chip8_next_instruction c rnd = some c' ∧
      c'.memory c.i = c.v x / 100 ∧ c'.memory (c.i + 1) = c.v x / 10 % 10 ∧
      c'.memory (c.i + 2) = c.v x % 10 ∧
      c'.memory c.i ≤ 9 ∧ c'.memory (c.i + 1) ≤ 9 ∧ c'.memory (c.i + 2) ≤ 9 ∧
      100 * c'.memory c.i + 10 * c'.memory (c.i + 1) + c'.memory (c.i + 2) = c.v x ∧
      (c.v x = 156 →
        c'.memory c.i = 1 ∧ c'.memory (c.i + 1) = 5 ∧ c'.memory (c.i + 2) = 6) ∧
      (∀ a, a ≠ c.i → a ≠ c.i + 1 → a ≠ c.i + 2 → c'.memory a = c.memory a) ∧
      c'.i = c.i ∧ c'.v = c.v := by
  have hop' : chip8_current_instruction c = some (0xF000 + 256 * x + 0x33) := by
    rw [hop]; congr 1; omega
  obtain ⟨ht, _, _⟩ := decode_FXNN x 0x33 hx (by decide)
  have hstep := step_0xFXNN c rnd _ hop' ht
  rw [op_0xFXNN_bcd { c with pc := (c.pc + 2) % 65536 } x hx hi] at hstep
  have e1 : (c.v x / 100) % 256 = c.v x / 100 := by omega
  have e2 : ((c.v x / 10) % 10) % 256 = c.v x / 10 % 10 := by omega
  have e3 : (c.v x % 10) % 256 = c.v x % 10 := by omega
  dsimp only at hstep
  rw [e1, e2, e3] at hstep
  have m0 : (store (store (store c.memory c.i (c.v x / 100)) (c.i + 1) (c.v x / 10 % 10))
      (c.i + 2) (c.v x % 10)) c.i = c.v x / 100 := by
    rw [store_other _ _ _ _ (by omega), store_other _ _ _ _ (by omega), store_same]
  have m1 : (store (store (store c.memory c.i (c.v x / 100)) (c.i + 1) (c.v x / 10 % 10))
      (c.i + 2) (c.v x % 10)) (c.i + 1) = c.v x / 10 % 10 := by
    rw [store_other _ _ _ _ (by omega), store_same]
  have m2 : (store (store (store c.memory c.i (c.v x / 100)) (c.i + 1) (c.v x / 10 % 10))
      (c.i + 2) (c.v x % 10)) (c.i + 2) = c.v x % 10 := store_same _ _ _
  refine ⟨_, hstep, m0, m1, m2, ?_, ?_, ?_, ?_, ?_, ?_, rfl, rfl⟩
  · show store _ _ _ c.i ≤ 9
    rw [m0]; omega
  · show store _ _ _ (c.i + 1) ≤ 9
    rw [m1]; omega
  · show store _ _ _ (c.i + 2) ≤ 9
    rw [m2]; omega
  · show 100 * store _ _ _ c.i + 10 * store _ _ _ (c.i + 1) + store _ _ _ (c.i + 2) = c.v x
    rw [m0, m1, m2]; omega
  · intro h156
    show store _ _ _ c.i = 1 ∧ store _ _ _ (c.i + 1) = 5 ∧ store _ _ _ (c.i + 2) = 6
    rw [m0, m1, m2, h156]
    exact ⟨rfl, rfl, rfl⟩
  · intro a h0 h1 h2
    show store _ _ _ a = c.memory a
    rw [store_other _ _ _ _ h2, store_other _ _ _ _ h1, store_other _ _ _ _ h0]

/-- Witness for `bcd_digits`: `v[0] = 156` gives the bytes 1, 5, 6 at `0x300`. -/
theorem bcd_digits_witness :
    ∃ c', chip8_next_instruction bcd_state 0 = some c' ∧
      c'.memory 0x300 = 1 ∧ c'.memory 0x301 = 5 ∧ c'.memory 0x302 = 6 := by
  obtain ⟨c', h, _, _, _, _, _, _, _, h156, _⟩ :=
    bcd_digits bcd_state 0 0 (by decide) rfl (by decide) (by decide)
  exact ⟨c', h, h156 rfl⟩

/-- Memory after the `0xFX55` loop: the bytes `I + i .. I + i + k - 1` hold the
registers `v[i] .. v[i + k - 1]`, every other byte is kept. -/
theorem store_loop_spec (v : Nat → Nat) (I : Nat) :
    ∀ (k i : Nat) (m m' : Nat → Nat), store_loop v I k i m = some m' →
      ∀ a, m' a = if I + i ≤ a ∧ a < I + i + k then v (a - I) else m a := by
  intro k
  induction k with
  | zero =>
    intro i m m' hs a
    cases hs
    have : ¬ (I + i ≤ a ∧ a < I + i + 0) := by omega
    rw [if_neg this]
  | succ k ih =>
    intro i m m' hs a
    unfold store_loop at hs
    split_ifs at hs with hb
    rw [ih (i + 1) _ m' hs a]
    by_cases ha : a = I + i
    · have c1 : ¬ (I + (i + 1) ≤ a ∧ a < I + (i + 1) + k) := by omega
      have c2 : I + i ≤ a ∧ a < I + i + (k + 1) := by omega
      have e : a - I = i := by omega
      rw [if_neg c1, if_pos c2, ha, store_same, ← ha, e]
    · rw [store_other _ _ _ _ ha]
      by_cases hin : I + (i + 1) ≤ a ∧ a < I + (i + 1) + k
      · have c2 : I + i ≤ a ∧ a < I + i + (k + 1) := by omega
        rw [if_pos hin, if_pos c2]
      · have c2 : ¬ (I + i ≤ a ∧ a < I + i + (k + 1)) := by omega
        rw [if_neg hin, if_neg c2]

/-- Registers after the `0xFX65` loop: `v[i] .. v[i + k - 1]` hold the bytes
`memory[I + i] ..`, every other register is kept. -/
theorem fill_loop_spec (memory : Nat → Nat) (I : Nat) :
    ∀ (k i : Nat) (w w' : Nat → Nat), fill_loop memory I k i w = some w' →
      ∀ a, w' a = if i ≤ a ∧ a < i + k then memory (I + a) else w a := by
  intro k
  induction k with
  | zero =>
    intro i w w' hs a
    cases hs
    have : ¬ (i ≤ a ∧ a < i + 0) := by omega
    rw [if_neg this]
  | succ k ih =>
    intro i w w' hs a
    unfold fill_loop at hs
    split_ifs at hs with hb
    rw [ih (i + 1) _ w' hs a]
    by_cases ha : a = i
    · have c1 : ¬ (i + 1 ≤ a ∧ a < i + 1 + k) := by omega
      have c2 : i ≤ a ∧ a < i + (k + 1) := by omega
      rw [if_neg c1, if_pos c2, ha, store_same]
    · rw [store_other _ _ _ _ ha]
      by_cases hin : i + 1 ≤ a ∧ a < i + 1 + k
      · have c2 : i ≤ a ∧ a < i + (k + 1) := by omega
        rw [if_pos hin, if_pos c2]
      · have c2 : ¬ (i ≤ a ∧ a < i + (k + 1)) := by omega
        rw [if_neg hin, if_neg c2]

/-- The store handler `0xFX55` on a machine whose loop completes. -/
theorem op_0xFXNN_store (c : Chip8) (x : Nat) (hx : x < 16) (m : Nat → Nat)
    (hm : store_loop c.v c.i (x + 1) 0 c.memory = some m) :
    op_0xFXNN c (0xF000 + 256 * x + 0x55) =
      some { c with memory := m, i := (c.i + (x + 1)) % 65536 } := by
  obtain ⟨_, h2, h3⟩ := decode_FXNN x 0x55 hx (by decide)
  simp only [op_0xFXNN, h2, h3, hm]

/-- The fill handler `0xFX65` on a machine whose loop completes. -/
theorem op_0xFXNN_fill (c : Chip8) (x : Nat) (hx : x < 16) (w : Nat → Nat)
    (hw : fill_loop c.memory c.i (x + 1) 0 c.v = some w) :
    op_0xFXNN c (0xF000 + 256 * x + 0x65) =
      some { c with v := w, i := (c.i + (x + 1)) % 65536 } := by
  obtain ⟨_, h2, h3⟩ := decode_FXNN x 0x65 hx (by decide)
  simp only [op_0xFXNN, h2, h3, hw]

/-- C20: block transfers move `v[0..=x]` and advance `i`.  For every `x` and every
`i` with `i + x < 4096`: after `0xFX55`, `memory[i_old + k] = v[k]` for all `k ≤ x`,
all other memory bytes and all registers are unchanged and `i = i_old + x + 1`;
after `0xFX65`, `v[k] = memory[i_old + k]` for all `k ≤ x`, the registers `v[k]`
with `k > x` and all memory are unchanged and `i = i_old + x + 1`. -/
theorem block_transfers (c : Chip8) (rnd x : Nat) (hx : x < 16) (hi : c.i + x < 4096) :
    (chip8_current_instruction c = some (0xF055 + 256 * x) →
      ∃ c', chip8_next_instruction c rnd = some c' ∧
        (∀ k, k ≤ x → c'.memory (c.i + k) = c.v k) ∧
        (∀ a, (a < c.i ∨ c.i + x < a) → c'.memory a = c.memory a) ∧
        c'.v = c.v ∧ c'.i = c.i + x + 1) ∧
    (chip8_current_instruction c = some (0xF065 + 256 * x) →
      ∃ c', chip8_next_instruction c rnd = some c' ∧
        (∀ k, k ≤ x → c'.v k = c.memory (c.i + k)) ∧
        (∀ k, x < k → c'.v k = c.v k) ∧
        c'.memory = c.memory ∧ c'.i = c.i + x + 1) := by
  have hi2 : (c.i + (x + 1)) % 65536 = c.i + x + 1 := by omega
  refine ⟨?_, ?_⟩
  · intro hop
    have hop' : chip8_current_instruction c = some (0xF000 + 256 * x + 0x55) := by
      rw [hop]; congr 1; omega
    obtain ⟨ht, _, _⟩ := decode_FXNN x 0x55 hx (by decide)
    obtain ⟨m, hm⟩ := store_loop_some c.v c.i (x + 1) 0 c.memory (by omega)
    have hspec := store_loop_spec c.v c.i (x + 1) 0 c.memory m hm
    have hstep := step_0xFXNN c rnd _ hop' ht
    rw [op_0xFXNN_store { c with pc := (c.pc + 2) % 65536 } x hx m hm] at hstep
    refine ⟨_, hstep, ?_, ?_, rfl, hi2⟩
    · intro k hk
      show m (c.i + k) = c.v k
      have c1 : c.i + 0 ≤ c.i + k ∧ c.i + k < c.i + 0 + (x + 1) := by omega
      have e : c.i + k - c.i = k := by omega
      rw [hspec, if_pos c1, e]
    · intro a ha
      show m a = c.memory a
      have c1 : ¬ (c.i + 0 ≤ a ∧ a < c.i + 0 + (x + 1)) := by omega
      rw [hspec, if_neg c1]
  · intro hop
    have hop' : chip8_current_instruction c = some (0xF000 + 256 * x + 0x65) := by
      rw [hop]; congr 1; omega
    obtain ⟨ht, _, _⟩ := decode_FXNN x 0x65 hx (by decide)
    obtain ⟨w, hw⟩ := fill_loop_some c.memory c.i (x + 1) 0 c.v (by omega)
    have hspec := fill_loop_spec c.memory c.i (x + 1) 0 c.v w hw
    have hstep := step_0xFXNN c rnd _ hop' ht
    rw [op_0xFXNN_fill { c with pc := (c.pc + 2) % 65536 } x hx w hw] at hstep
    refine ⟨_, hstep, ?_, ?_, rfl, hi2⟩
    · intro k hk
      show w k = c.memory (c.i + k)
      have c1 : 0 ≤ k ∧ k < 0 + (x + 1) := by omega
      rw [hspec, if_pos c1]
    · intro k hk
      show w k = c.v k
      have c1 : ¬ (0 ≤ k ∧ k < 0 + (x + 1)) := by omega
      rw [hspec, if_neg c1]

/-- Witness for `block_transfers`: `0xF155` stores 7, 9 at `0x300`, `0x301` and
`0xF165` with `i = 0` reads the first two font bytes; both leave `i` advanced by 2. -/
theorem block_transfers_witness :
    (∃ c', chip8_next_instruction block_store_state 0 = some c' ∧
      c'.memory 0x300 = 7 ∧ c'.memory 0x301 = 9 ∧ c'.i = 0x302) ∧
    (∃ c', chip8_next_instruction block_fill_state 0 = some c' ∧
      c'.v 0 = 0xF0 ∧ c'.v 1 = 0x90 ∧ c'.i = 2) := by
  refine ⟨?_, ?_⟩
  · obtain ⟨c', h, h1, _, _, h4⟩ :=
      (block_transfers block_store_state 0 1 (by decide) (by decide)).1 rfl
    exact ⟨c', h, h1 0 (by decide), h1 1 (by decide), h4⟩
  · obtain ⟨c', h, h1, _, _, h4⟩ :=
      (block_transfers block_fill_state 0 1 (by decide) (by decide)).2 rfl
    exact ⟨c', h, h1 0 (by decide), h1 1 (by decide), h4⟩

/-! ## Which memory bytes a step can change -/

theorem op_0x0NNN_memory (c c' : Chip8) (op : Nat) (h : op_0x0NNN c op = some c') :
    c'.memory = c.memory := by
  unfold op_0x0NNN at h
  split at h
  · cases h; rfl
  · split_ifs at h <;> cases h <;> rfl
  · cases h; rfl

theorem op_0x2000_memory (c c' : Chip8) (op : Nat) (h : op_0x2000 c op = some c') :
    c'.memory = c.memory := by
  unfold op_0x2000 at h
  dsimp only at h
  split_ifs at h <;> cases h <;> rfl

theorem op_0x8XYN_memory (c : Chip8) (op : Nat) : (op_0x8XYN c op).memory = c.memory := by
  unfold op_0x8XYN
  dsimp only
  split <;> rfl

theorem op_0xDXYN_memory (c c' : Chip8) (op : Nat) (h : op_0xDXYN c op = some c') :
    c'.memory = c.memory := by
  unfold op_0xDXYN at h
  dsimp only at h
  split_ifs at h
  · cases h; rfl
  · split at h
    · cases h
    · cases h; rfl

theorem op_0xEXNN_memory (c c' : Chip8) (op : Nat) (h : op_0xEXNN c op = some c') :
    c'.memory = c.memory := by
  unfold op_0xEXNN at h
  dsimp only at h
  split at h
  · split_ifs at h <;> cases h <;> rfl
  · split_ifs at h <;> cases h <;> rfl
  · cases h; rfl

/-- A byte changed by `op_0xFXNN` is one of the three BCD bytes of `0xFX33` or one
of the `x + 1` bytes stored by `0xFX55`. -/
theorem op_0xFXNN_memory (c c' : Chip8) (op a : Nat) (h : op_0xFXNN c op = some c')
    (hne : c'.memory a ≠ c.memory a) :
    (op &&& 0x00FF = 0x33 ∧ c.i ≤ a ∧ a ≤ c.i + 2) ∨
    (op &&& 0x00FF = 0x55 ∧ c.i ≤ a ∧ a ≤ c.i + ((op &&& 0x0F00) >>> 8) % 256) := by
  unfold op_0xFXNN at h
  dsimp only at h
  split at h
  · cases h; exact absurd rfl hne
  · split_ifs at h <;> cases h <;> exact absurd rfl hne
  · cases h; exact absurd rfl hne
  · cases h; exact absurd rfl hne
  · cases h; exact absurd rfl hne
  · split_ifs at h
    cases h; exact absurd rfl hne
  · rename_i h33
    split_ifs at h
    cases h
    left
    refine ⟨h33, ?_⟩
    by_contra hout
    apply hne
    show store _ _ _ a = c.memory a
    rw [store_other _ _ _ _ (by omega), store_other _ _ _ _ (by omega),
      store_other _ _ _ _ (by omega)]
  · rename_i h55
    split at h
    · cases h
    · rename_i m hm
      cases h
      right
      refine ⟨h55, ?_⟩
      by_contra hout
      apply hne
      show m a = c.memory a
      have hspec := store_loop_spec c.v c.i _ 0 c.memory m hm a
      rw [hspec, if_neg (by omega)]
  · split at h
    · cases h
    · cases h; exact absurd rfl hne
  · cases h; exact absurd rfl hne

/-- A byte of memory changed by one instruction is a byte written by `0xFX33`
(`memory[i .. i + 2]`) or by `0xFX55` (`memory[i .. i + x]`). -/
theorem step_memory (c c' : Chip8) (rnd op a : Nat)
    (hop : chip8_current_instruction c = some op)
    (hstep : chip8_next_instruction c rnd = some c') (hne : c'.memory a ≠ c.memory a) :
    op &&& 0xF000 = 0xF000 ∧
    ((op &&& 0x00FF = 0x33 ∧ c.i ≤ a ∧ a ≤ c.i + 2) ∨
     (op &&& 0x00FF = 0x55 ∧ c.i ≤ a ∧ a ≤ c.i + ((op &&& 0x0F00) >>> 8) % 256)) := by
  obtain ⟨hpc, hexpr⟩ := fetch_some c op hop
  subst hexpr
  unfold chip8_next_instruction at hstep
  dsimp only at hstep
  split at hstep
  case isFalse => cases hstep
  split at hstep
  · exact absurd (op_0x0NNN_memory _ _ _ hstep ▸ rfl) hne
  · cases hstep; exact absurd rfl hne
  · exact absurd (op_0x2000_memory _ _ _ hstep ▸ rfl) hne
  · split_ifs at hstep <;> cases hstep <;> exact absurd rfl hne
  · split_ifs at hstep <;> cases hstep <;> exact absurd rfl hne
  · split_ifs at hstep <;> cases hstep <;> exact absurd rfl hne
  · cases hstep; exact absurd rfl hne
  · cases hstep; exact absurd rfl hne
  · cases hstep; exact absurd (congrFun (op_0x8XYN_memory _ _) a) hne
  · split_ifs at hstep <;> cases hstep <;> exact absurd rfl hne
  · cases hstep; exact absurd rfl hne
  · cases hstep; exact absurd rfl hne
  · cases hstep; exact absurd rfl hne
  · exact absurd (op_0xDXYN_memory _ _ _ hstep ▸ rfl) hne
  · exact absurd (op_0xEXNN_memory _ _ _ hstep ▸ rfl) hne
  · rename_i hF
    exact ⟨hF, op_0xFXNN_memory { c with pc := (c.pc + 2) % 65536 } c' _ a hstep hne⟩
  · cases hstep; exact absurd rfl hne

/-! ## Program counter, stack pointer and stack through each handler -/

theorem op_0x0NNN_control (c c' : Chip8) (op : Nat) (h : op_0x0NNN c op = some c') :
    c'.stack = c.stack ∧
    ((op &&& 0x00FF = 0xEE ∧ c.sp ≠ 0 ∧ c.sp - 1 < 16 ∧
        c'.pc = c.stack (c.sp - 1) ∧ c'.sp = c.sp - 1) ∨
     (¬ (op &&& 0x00FF = 0xEE ∧ c.sp ≠ 0) ∧ c'.pc = c.pc ∧ c'.sp = c.sp)) := by
  unfold op_0x0NNN SIZE_STACK at h
  split at h
  · rename_i hE0
    have hnot : ¬ (op &&& 0x00FF = 0xEE ∧ c.sp ≠ 0) := by
      rw [hE0]; intro hh; exact absurd hh.1 (by decide)
    cases h
    exact ⟨rfl, Or.inr ⟨hnot, rfl, rfl⟩⟩
  · rename_i hEE
    split_ifs at h with h0 h1
    · cases h
      exact ⟨rfl, Or.inr ⟨fun hh => hh.2 h0, rfl, rfl⟩⟩
    · cases h
      exact ⟨rfl, Or.inl ⟨hEE, h0, h1, rfl, rfl⟩⟩
  · rename_i hnE0 hnEE
    cases h
    exact ⟨rfl, Or.inr ⟨fun hh => hnEE hh.1, rfl, rfl⟩⟩

theorem op_0x2000_control (c c' : Chip8) (op : Nat) (h : op_0x2000 c op = some c') :
    (c.sp = 16 ∧ c'.pc = c.pc ∧ c'.sp = c.sp ∧ c'.stack = c.stack) ∨
    (c.sp < 16 ∧ c'.pc = op &&& 0x0FFF ∧ c'.sp = c.sp + 1 ∧
      c'.stack = store c.stack c.sp c.pc) := by
  unfold op_0x2000 SIZE_STACK at h
  dsimp only at h
  split_ifs at h with h0 h1
  · cases h
    exact Or.inl ⟨h0, rfl, rfl, rfl⟩
  · cases h
    refine Or.inr ⟨h1, rfl, ?_, rfl⟩
    show (c.sp + 1) % 256 = c.sp + 1
    omega

theorem op_0x8XYN_control (c : Chip8) (op : Nat) :
    (op_0x8XYN c op).pc = c.pc ∧ (op_0x8XYN c op).stack = c.stack := by
  unfold op_0x8XYN
  dsimp only
  split <;> exact ⟨rfl, rfl⟩

theorem op_0xDXYN_control (c c' : Chip8) (op : Nat) (h : op_0xDXYN c op = some c') :
    c'.sp = c.sp ∧ c'.stack = c.stack ∧
    c'.pc = (if c.vblank = 0 then Int.toNat (((c.pc : Int) - 2) % 65536) else c.pc) := by
  unfold op_0xDXYN at h
  dsimp only at h
  split_ifs at h with h0
  · cases h
    refine ⟨rfl, rfl, ?_⟩
    rw [if_pos h0]
  · split at h
    · cases h
    · cases h
      refine ⟨rfl, rfl, ?_⟩
      rw [if_neg h0]

theorem op_0xEXNN_control (c c' : Chip8) (op : Nat) (h : op_0xEXNN c op = some c') :
    c'.sp = c.sp ∧ c'.stack = c.stack ∧
    c'.pc =
      (if op &&& 0x00FF = 0x9E then
        (if c.keys &&& (1 <<< c.v (((op &&& 0x0F00) >>> 8) % 256)) ≠ 0
          then (c.pc + 2) % 65536 else c.pc)
      else if op &&& 0x00FF = 0xA1 then
        (if c.keys &&& (1 <<< c.v (((op &&& 0x0F00) >>> 8) % 256)) ≠ 0
          then c.pc else (c.pc + 2) % 65536)
      else c.pc) := by
  unfold op_0xEXNN at h
  dsimp only at h
  split at h
  · rename_i h9E
    rw [if_pos h9E]
    by_cases hv : c.v (((op &&& 0x0F00) >>> 8) % 256) < 31
    · rw [if_pos hv] at h
      by_cases hk : c.keys &&& (1 <<< c.v (((op &&& 0x0F00) >>> 8) % 256)) ≠ 0
      · rw [if_pos hk] at h
        cases h
        refine ⟨rfl, rfl, ?_⟩
        rw [if_pos hk]
      · rw [if_neg hk] at h
        cases h
        refine ⟨rfl, rfl, ?_⟩
        rw [if_neg hk]
    · rw [if_neg hv] at h
      cases h
  · rename_i hA1
    have hn9E : ¬ op &&& 0x00FF = 0x9E := by rw [hA1]; decide
    rw [if_neg hn9E, if_pos hA1]
    by_cases hv : c.v (((op &&& 0x0F00) >>> 8) % 256) < 31
    · rw [if_pos hv] at h
      by_cases hk : c.keys &&& (1 <<< c.v (((op &&& 0x0F00) >>> 8) % 256)) ≠ 0
      · rw [if_neg (not_not.2 hk)] at h
        cases h
        refine ⟨rfl, rfl, ?_⟩
        rw [if_pos hk]
      · rw [if_pos hk] at h
        cases h
        refine ⟨rfl, rfl, ?_⟩
        rw [if_neg hk]
    · rw [if_neg hv] at h
      cases h
  · rename_i hn9E hnA1
    cases h
    refine ⟨rfl, rfl, ?_⟩
    rw [if_neg hn9E, if_neg hnA1]

theorem op_0xFXNN_control (c c' : Chip8) (op : Nat) (h : op_0xFXNN c op = some c') :
    c'.sp = c.sp ∧ c'.stack = c.stack ∧
    c'.pc = (if op &&& 0x00FF = 0x0A ∧ c.keys = 0
      then Int.toNat (((c.pc : Int) - 2) % 65536) else c.pc) := by
  unfold op_0xFXNN at h
  dsimp only at h
  by_cases h0A : op &&& 0x00FF = 0x0A
  · rw [h0A] at h
    dsimp only at h
    by_cases h0 : c.keys = 0
    · rw [if_pos h0] at h
      cases h
      refine ⟨rfl, rfl, ?_⟩
      rw [if_pos ⟨h0A, h0⟩]
    · rw [if_neg h0] at h
      cases h
      refine ⟨rfl, rfl, ?_⟩
      rw [if_neg (fun hh => h0 hh.2)]
  · rw [if_neg (fun hh => h0A hh.1)]
    split at h
    all_goals first
      | (cases h; exact ⟨rfl, rfl, rfl⟩)
      | (rename_i hlow; exact absurd hlow h0A)
      | (split_ifs at h; cases h; exact ⟨rfl, rfl, rfl⟩)
      | (split at h
         · cases h
         · cases h; exact ⟨rfl, rfl, rfl⟩)

/-- The masked top nibble of an opcode is one of the sixteen case labels. -/
theorem top_nibble (op : Nat) :
    op &&& 0xF000 = 0x0000 ∨ op &&& 0xF000 = 0x1000 ∨ op &&& 0xF000 = 0x2000 ∨
    op &&& 0xF000 = 0x3000 ∨ op &&& 0xF000 = 0x4000 ∨ op &&& 0xF000 = 0x5000 ∨
    op &&& 0xF000 = 0x6000 ∨ op &&& 0xF000 = 0x7000 ∨ op &&& 0xF000 = 0x8000 ∨
    op &&& 0xF000 = 0x9000 ∨ op &&& 0xF000 = 0xA000 ∨ op &&& 0xF000 = 0xB000 ∨
    op &&& 0xF000 = 0xC000 ∨ op &&& 0xF000 = 0xD000 ∨ op &&& 0xF000 = 0xE000 ∨
    op &&& 0xF000 = 0xF000 := by
  rw [and_F000]
  omega

/-- Where one instruction leaves `pc`, `sp` and the stack, by opcode family. -/
theorem step_control (c c' : Chip8) (rnd op : Nat)
    (hop : chip8_current_instruction c = some op)
    (hstep : chip8_next_instruction c rnd = some c') :
    (op &&& 0xF000 = 0x0000 ∧ c'.stack = c.stack ∧
      ((op &&& 0x00FF = 0xEE ∧ c.sp ≠ 0 ∧ c.sp - 1 < 16 ∧
          c'.pc = c.stack (c.sp - 1) ∧ c'.sp = c.sp - 1) ∨
       (¬ (op &&& 0x00FF = 0xEE ∧ c.sp ≠ 0) ∧ c'.pc = c.pc + 2 ∧ c'.sp = c.sp))) ∨
    (op &&& 0xF000 = 0x1000 ∧ c'.pc = op &&& 0x0FFF ∧ c'.sp = c.sp ∧ c'.stack = c.stack) ∨
    (op &&& 0xF000 = 0x2000 ∧
      ((c.sp = 16 ∧ c'.pc = c.pc + 2 ∧ c'.sp = c.sp ∧ c'.stack = c.stack) ∨
       (c.sp < 16 ∧ c'.pc = op &&& 0x0FFF ∧ c'.sp = c.sp + 1 ∧
          c'.stack = store c.stack c.sp (c.pc + 2)))) ∨
    (op &&& 0xF000 = 0x3000 ∧ c'.sp = c.sp ∧ c'.stack = c.stack ∧
      c'.pc = (if c.v (((op &&& 0x0F00) >>> 8) % 256) = (op &&& 0x00FF) % 256
        then c.pc + 4 else c.pc + 2)) ∨
    (op &&& 0xF000 = 0x4000 ∧ c'.sp = c.sp ∧ c'.stack = c.stack ∧
      c'.pc = (if c.v (((op &&& 0x0F00) >>> 8) % 256) ≠ (op &&& 0x00FF) % 256
        then c.pc + 4 else c.pc + 2)) ∨
    (op &&& 0xF000 = 0x5000 ∧ c'.sp = c.sp ∧ c'.stack = c.stack ∧
      c'.pc = (if c.v (((op &&& 0x0F00) >>> 8) % 256) = c.v (((op &&& 0x00F0) >>> 4) % 256)
        then c.pc + 4 else c.pc + 2)) ∨
    (op &&& 0xF000 = 0x9000 ∧ c'.sp = c.sp ∧ c'.stack = c.stack ∧
      c'.pc = (if c.v (((op &&& 0x0F00) >>> 8) % 256) ≠ c.v (((op &&& 0x00F0) >>> 4) % 256)
        then c.pc + 4 else c.pc + 2)) ∨
    ((op &&& 0xF000 = 0x6000 ∨ op &&& 0xF000 = 0x7000 ∨ op &&& 0xF000 = 0x8000 ∨
        op &&& 0xF000 = 0xA000 ∨ op &&& 0xF000 = 0xC000) ∧
      c'.sp = c.sp ∧ c'.stack = c.stack ∧ c'.pc = c.pc + 2) ∨
    (op &&& 0xF000 = 0xB000 ∧ c'.sp = c.sp ∧ c'.stack = c.stack ∧
      c'.pc = ((op &&& 0x0FFF) + c.v 0) % 65536) ∨
    (op &&& 0xF000 = 0xD000 ∧ c'.sp = c.sp ∧ c'.stack = c.stack ∧
      c'.pc = (if c.vblank = 0 then c.pc else c.pc + 2)) ∨
    (op &&& 0xF000 = 0xE000 ∧ c'.sp = c.sp ∧ c'.stack = c.stack ∧
      c'.pc =
        (if op &&& 0x00FF = 0x9E then
          (if c.keys &&& (1 <<< c.v (((op &&& 0x0F00) >>> 8) % 256)) ≠ 0
            then c.pc + 4 else c.pc + 2)
        else if op &&& 0x00FF = 0xA1 then
          (if c.keys &&& (1 <<< c.v (((op &&& 0x0F00) >>> 8) % 256)) ≠ 0
            then c.pc + 2 else c.pc + 4)
        else c.pc + 2)) ∨
    (op &&& 0xF000 = 0xF000 ∧ c'.sp = c.sp ∧ c'.stack = c.stack ∧
      c'.pc = (if op &&& 0x00FF = 0x0A ∧ c.keys = 0 then c.pc else c.pc + 2)) := by
  obtain ⟨hpc, hexpr⟩ := fetch_some c op hop
  have hpc' : c.pc + 1 < SIZE_MEMORY := hpc
  have hpc2 : (c.pc + 2) % 65536 = c.pc + 2 := by omega
  have hpc4 : (c.pc + 2 + 2) % 65536 = c.pc + 4 := by omega
  have hback : Int.toNat ((((c.pc + 2 : Nat) : Int) - 2) % 65536) = c.pc := by omega
  have hnnn : (op &&& 0x0FFF) % 65536 = op &&& 0x0FFF := by rw [and_0FFF]; omega
  unfold chip8_next_instruction at hstep
  rw [if_pos hpc'] at hstep
  dsimp only at hstep
  rw [hexpr, hpc2] at hstep
  split at hstep
  · rename_i ht
    obtain ⟨h1, h2⟩ := op_0x0NNN_control _ _ _ hstep
    exact Or.inl ⟨ht, h1, h2⟩
  · rename_i ht
    cases hstep
    exact Or.inr (Or.inl ⟨ht, hnnn, rfl, rfl⟩)
  · rename_i ht
    exact Or.inr (Or.inr (Or.inl ⟨ht, op_0x2000_control _ _ _ hstep⟩))
  · rename_i ht
    refine Or.inr (Or.inr (Or.inr (Or.inl ⟨ht, ?_⟩)))
    split_ifs at hstep with hc
    · cases hstep; exact ⟨rfl, rfl, by rw [if_pos hc]; exact hpc4⟩
    · cases hstep; exact ⟨rfl, rfl, by rw [if_neg hc]⟩
  · rename_i ht
    refine Or.inr (Or.inr (Or.inr (Or.inr (Or.inl ⟨ht, ?_⟩))))
    split_ifs at hstep with hc
    · cases hstep; exact ⟨rfl, rfl, by rw [if_pos hc]; exact hpc4⟩
    · cases hstep; exact ⟨rfl, rfl, by rw [if_neg hc]⟩
  · rename_i ht
    refine Or.inr (Or.inr (Or.inr (Or.inr (Or.inr (Or.inl ⟨ht, ?_⟩)))))
    split_ifs at hstep with hc
    · cases hstep; exact ⟨rfl, rfl, by rw [if_pos hc]; exact hpc4⟩
    · cases hstep; exact ⟨rfl, rfl, by rw [if_neg hc]⟩
  · rename_i ht
    cases hstep
    exact Or.inr (Or.inr (Or.inr (Or.inr (Or.inr (Or.inr (Or.inr (Or.inl
      ⟨Or.inl ht, rfl, rfl, rfl⟩)))))))
  · rename_i ht
    cases hstep
    exact Or.inr (Or.inr (Or.inr (Or.inr (Or.inr (Or.inr (Or.inr (Or.inl
      ⟨Or.inr (Or.inl ht), rfl, rfl, rfl⟩)))))))
  · rename_i ht
    cases hstep
    obtain ⟨h1, h2⟩ := op_0x8XYN_control { c with pc := c.pc + 2 } op
    exact Or.inr (Or.inr (Or.inr (Or.inr (Or.inr (Or.inr (Or.inr (Or.inl
      ⟨Or.inr (Or.inr (Or.inl ht)), op_0x8XYN_sp _ _, h2, h1⟩)))))))
  · rename_i ht
    refine Or.inr (Or.inr (Or.inr (Or.inr (Or.inr (Or.inr (Or.inl ⟨ht, ?_⟩))))))
    split_ifs at hstep with hc
    · cases hstep; exact ⟨rfl, rfl, by rw [if_pos hc]; exact hpc4⟩
    · cases hstep; exact ⟨rfl, rfl, by rw [if_neg hc]⟩
  · rename_i ht
    cases hstep
    exact Or.inr (Or.inr (Or.inr (Or.inr (Or.inr (Or.inr (Or.inr (Or.inl
      ⟨Or.inr (Or.inr (Or.inr (Or.inl ht))), rfl, rfl, rfl⟩)))))))
  · rename_i ht
    cases hstep
    refine Or.inr (Or.inr (Or.inr (Or.inr (Or.inr (Or.inr (Or.inr (Or.inr (Or.inl
      ⟨ht, rfl, rfl, ?_⟩))))))))
    show ((op &&& 0x0FFF) % 65536 + c.v 0) % 65536 = ((op &&& 0x0FFF) + c.v 0) % 65536
    rw [hnnn]
  · rename_i ht
    cases hstep
    exact Or.inr (Or.inr (Or.inr (Or.inr (Or.inr (Or.inr (Or.inr (Or.inl
      ⟨Or.inr (Or.inr (Or.inr (Or.inr ht))), rfl, rfl, rfl⟩)))))))
  · rename_i ht
    obtain ⟨h1, h2, h3⟩ := op_0xDXYN_control _ _ _ hstep
    refine Or.inr (Or.inr (Or.inr (Or.inr (Or.inr (Or.inr (Or.inr (Or.inr (Or.inr (Or.inl
      ⟨ht, h1, h2, ?_⟩)))))))))
    rw [h3]
    dsimp only
    split_ifs
    · exact hback
    · rfl
  · rename_i ht
    obtain ⟨h1, h2, h3⟩ := op_0xEXNN_control _ _ _ hstep
    refine Or.inr (Or.inr (Or.inr (Or.inr (Or.inr (Or.inr (Or.inr (Or.inr (Or.inr (Or.inr
      (Or.inl ⟨ht, h1, h2, ?_⟩))))))))))
    rw [h3]
    dsimp only
    rw [hpc4]
  · rename_i ht
    obtain ⟨h1, h2, h3⟩ := op_0xFXNN_control _ _ _ hstep
    refine Or.inr (Or.inr (Or.inr (Or.inr (Or.inr (Or.inr (Or.inr (Or.inr (Or.inr (Or.inr
      (Or.inr ⟨ht, h1, h2, ?_⟩))))))))))
    rw [h3]
    dsimp only
    split_ifs
    · exact hback
    · rfl
  · rename_i n0 n1 n2 n3 n4 n5 n6 n7 n8 n9 nA nB nC nD nE nF
    exfalso
    rcases top_nibble op with h | h | h | h | h | h | h | h | h | h | h | h | h | h | h | h
    · exact n0 h
    · exact n1 h
    · exact n2 h
    · exact n3 h
    · exact n4 h
    · exact n5 h
    · exact n6 h
    · exact n7 h
    · exact n8 h
    · exact n9 h
    · exact nA h
    · exact nB h
    · exact nC h
    · exact nD h
    · exact nE h
    · exact nF h

/-! ## Claims on memory below `0x200` -/

/-- C18 as stated fails: `0xF055` executed with `i = 0` replaces the font byte
`memory[0] = 0xF0` by `v[0] = 0x42`, an address below `0x200`. -/
theorem low_memory_written :
    (∃ c', chip8_next_instruction low_write_state 0 = some c' ∧
      low_write_state.memory 0 = 0xF0 ∧ c'.memory 0 = 0x42) ∧
    ¬ (∀ (c c' : Chip8) (rnd : Nat), chip8_next_instruction c rnd = some c' →
        ∀ a, a < 0x200 → c'.memory a = c.memory a) := by
  have hk : chip8_next_instruction low_write_state 0 =
      some ((chip8_next_instruction low_write_state 0).getD blank) := rfl
  have h1 : low_write_state.memory 0 = 0xF0 := by decide
  have h2 : ((chip8_next_instruction low_write_state 0).getD blank).memory 0 = 0x42 := by
    decide
  refine ⟨⟨_, hk, h1, h2⟩, ?_⟩
  intro hall
  have := hall _ _ 0 hk 0 (by decide)
  rw [h1, h2] at this
  exact absurd this (by decide)

/-! ## Claims on the range of the program counter -/

theorem step_pc_inv (c c' : Chip8) (rnd : Nat) (hv0 : c.v 0 < 256) (h : c.pc_inv)
    (hstep : chip8_next_instruction c rnd = some c') : c'.pc_inv := by
  obtain ⟨hsp, hpc, hst⟩ := h
  have hfetch : c.pc + 1 < SIZE_MEMORY := by
    by_contra hno
    unfold chip8_next_instruction at hstep
    rw [if_neg hno] at hstep
    cases hstep
  have hop : chip8_current_instruction c =
      some (((c.memory c.pc <<< 8) ||| c.memory (c.pc + 1)) % 65536) := by
    unfold chip8_current_instruction
    rw [if_pos hfetch]
  unfold SIZE_MEMORY at hfetch
  have hnnn : ∀ op : Nat, op &&& 0x0FFF ≤ 0xFFF := by
    intro op; rw [and_0FFF]; omega
  have hn := hnnn (((c.memory c.pc <<< 8) ||| c.memory (c.pc + 1)) % 65536)
  unfold Chip8.pc_inv
  rcases step_control c c' rnd _ hop hstep with
    ⟨_, h1, h2⟩ | ⟨_, h1, h2, h3⟩ | ⟨_, h2⟩ | ⟨_, h1, h2, h3⟩ | ⟨_, h1, h2, h3⟩ |
    ⟨_, h1, h2, h3⟩ | ⟨_, h1, h2, h3⟩ | ⟨_, h1, h2, h3⟩ | ⟨_, h1, h2, h3⟩ |
    ⟨_, h1, h2, h3⟩ | ⟨_, h1, h2, h3⟩ | ⟨_, h1, h2, h3⟩
  · rcases h2 with ⟨_, g1, g2, g3, g4⟩ | ⟨_, g3, g4⟩
    · rw [g3, g4, h1]
      have hr : c.stack (c.sp - 1) ≤ 0x1000 := hst _ (by omega)
      exact ⟨by omega, by omega, fun k hk => hst k (by omega)⟩
    · rw [g3, g4, h1]
      exact ⟨hsp, by omega, hst⟩
  · rw [h1, h2, h3]
    exact ⟨hsp, by omega, hst⟩
  · rcases h2 with ⟨_, g1, g2, g3⟩ | ⟨g0, g1, g2, g3⟩
    · rw [g1, g2, g3]
      exact ⟨hsp, by omega, hst⟩
    · rw [g1, g2, g3]
      refine ⟨by omega, by omega, ?_⟩
      intro k hk
      by_cases hks : k = c.sp
      · rw [hks, store_same]; omega
      · rw [store_other _ _ _ _ hks]; exact hst k (by omega)
  · rw [h1, h2, h3]
    exact ⟨hsp, by split_ifs <;> omega, hst⟩
  · rw [h1, h2, h3]
    exact ⟨hsp, by split_ifs <;> omega, hst⟩
  · rw [h1, h2, h3]
    exact ⟨hsp, by split_ifs <;> omega, hst⟩
  · rw [h1, h2, h3]
    exact ⟨hsp, by split_ifs <;> omega, hst⟩
  · rw [h1, h2, h3]
    exact ⟨hsp, by omega, hst⟩
  · rw [h1, h2, h3]
    exact ⟨hsp, by omega, hst⟩
  · rw [h1, h2, h3]
    exact ⟨hsp, by split_ifs <;> omega, hst⟩
  · rw [h1, h2, h3]
    exact ⟨hsp, by split_ifs <;> omega, hst⟩
  · rw [h1, h2, h3]
    exact ⟨hsp, by split_ifs <;> omega, hst⟩

theorem chip8_load_pc_inv (c : Chip8) (file : Option (List Nat)) (h : c.pc_inv) :
    (chip8_load c file).2.pc_inv := by
  unfold chip8_load
  split
  · exact h
  · dsimp only
    split_ifs
    · exact h
    · refine ⟨Nat.zero_le _, ?_, ?_⟩
      · show ADDRESS_CODE_BEG ≤ 0x10FE
        decide
      · intro k hk
        exact absurd hk (Nat.not_lt_zero k)

theorem run_entry_pc_inv (c c' : Chip8) (e : Entry) (hwf : c.WF) (h : c.pc_inv)
    (hs : run_entry c e = some c') : c'.pc_inv := by
  cases e with
  | step rnd => exact step_pc_inv c c' rnd (hwf.2.2.2.1 0 (by decide)) h hs
  | vblank =>
    simp only [run_entry, Option.some.injEq] at hs
    obtain ⟨_, _, f3, _, _, f6, f7, _⟩ := chip8_vblank_frame c
    rw [← hs]
    unfold Chip8.pc_inv
    rw [f3, f6, f7]
    exact h
  | key_down key =>
    simp only [run_entry, Option.some.injEq] at hs
    rw [← hs]; exact h
  | key_up key =>
    simp only [run_entry, Option.some.injEq] at hs
    rw [← hs]; exact h
  | load file =>
    simp only [run_entry, Option.some.injEq] at hs
    rw [← hs]; exact chip8_load_pc_inv c file h

theorem run_entries_inv (es : List Entry) :
    ∀ (c s : Chip8), c.WF → c.pc_inv → (∀ e, e ∈ es → e.bytes_ok) →
      run_entries c es = some s → s.WF ∧ s.pc_inv := by
  induction es with
  | nil =>
    intro c s hwf hinv _ hrun
    cases hrun
    exact ⟨hwf, hinv⟩
  | cons e es ih =>
    intro c s hwf hinv hok hrun
    unfold run_entries at hrun
    split at hrun
    · cases hrun
    · rename_i c1 h1
      exact ih c1 s (run_entry_WF c c1 e hwf (hok e (List.mem_cons_self _ _)) h1)
        (run_entry_pc_inv c c1 e hwf hinv h1)
        (fun e' he' => hok e' (List.mem_cons_of_mem _ he')) hrun

/-! ## The halt code through each handler -/

theorem op_0x0NNN_halt (c c' : Chip8) (op : Nat) (h : op_0x0NNN c op = some c') :
    c'.halt_code = c.halt_code ∨ c'.halt_code = HaltCode.HLT_STACK_UNDERFLOW := by
  unfold op_0x0NNN at h
  split at h
  · cases h; exact Or.inl rfl
  · split_ifs at h
    · cases h; exact Or.inr rfl
    · cases h; exact Or.inl rfl
  · cases h; exact Or.inl rfl

theorem op_0x0NNN_ignored (c : Chip8) (op : Nat) (hE0 : op &&& 0x00FF ≠ 0xE0)
    (hEE : op &&& 0x00FF ≠ 0xEE) : op_0x0NNN c op = some c := by
  unfold op_0x0NNN
  split
  · rename_i h; exact absurd h hE0
  · rename_i h; exact absurd h hEE
  · rfl

theorem op_0x2000_halt (c c' : Chip8) (op : Nat) (h : op_0x2000 c op = some c') :
    c'.halt_code = c.halt_code ∨ c'.halt_code = HaltCode.HLT_STACK_OVERFLOW := by
  unfold op_0x2000 at h
  dsimp only at h
  split_ifs at h
  · cases h; exact Or.inr rfl
  · cases h; exact Or.inl rfl

theorem op_0x8XYN_halt (c : Chip8) (op : Nat) :
    ((op &&& 0x000F ≤ 7 ∨ op &&& 0x000F = 0xE) →
      (op_0x8XYN c op).halt_code = c.halt_code) ∧
    (¬ (op &&& 0x000F ≤ 7 ∨ op &&& 0x000F = 0xE) →
      op_0x8XYN c op = { c with halt_code := HaltCode.HLT_UNKNOWN_INSTRUCTION }) := by
  unfold op_0x8XYN
  dsimp only
  split
  all_goals first
    | (rename_i hN
       refine ⟨fun _ => rfl, fun hno => ?_⟩
       rw [hN] at hno
       exact absurd hno (by decide))
    | (rename_i n0 n1 n2 n3 n4 n5 n6 n7 nE
       refine ⟨fun hyes => ?_, fun _ => rfl⟩
       exfalso
       rcases hyes with hle | hE
       · have h8 : op &&& 0x000F = 0 ∨ op &&& 0x000F = 1 ∨ op &&& 0x000F = 2 ∨
             op &&& 0x000F = 3 ∨ op &&& 0x000F = 4 ∨ op &&& 0x000F = 5 ∨
             op &&& 0x000F = 6 ∨ op &&& 0x000F = 7 := by omega
         rcases h8 with h | h | h | h | h | h | h | h
         · exact n0 h
         · exact n1 h
         · exact n2 h
         · exact n3 h
         · exact n4 h
         · exact n5 h
         · exact n6 h
         · exact n7 h
       · exact nE hE)

theorem op_0xDXYN_halt (c c' : Chip8) (op : Nat) (h : op_0xDXYN c op = some c') :
    c'.halt_code = c.halt_code := by
  unfold op_0xDXYN at h
  dsimp only at h
  split_ifs at h
  · cases h; rfl
  · split at h
    · cases h
    · cases h; rfl

theorem op_0xEXNN_halt (c c' : Chip8) (op : Nat) (h : op_0xEXNN c op = some c') :
    ((op &&& 0x00FF = 0x9E ∨ op &&& 0x00FF = 0xA1) → c'.halt_code = c.halt_code) ∧
    (¬ (op &&& 0x00FF = 0x9E ∨ op &&& 0x00FF = 0xA1) →
      c' = { c with halt_code := HaltCode.HLT_UNKNOWN_INSTRUCTION }) := by
  unfold op_0xEXNN at h
  dsimp only at h
  split at h
  · rename_i h9E
    refine ⟨fun _ => ?_, fun hno => absurd (Or.inl h9E) hno⟩
    split_ifs at h <;> cases h <;> rfl
  · rename_i hA1
    refine ⟨fun _ => ?_, fun hno => absurd (Or.inr hA1) hno⟩
    split_ifs at h <;> cases h <;> rfl
  · rename_i n9E nA1
    cases h
    refine ⟨fun hyes => ?_, fun _ => rfl⟩
    rcases hyes with h | h
    · exact absurd h n9E
    · exact absurd h nA1

theorem op_0xFXNN_halt (c c' : Chip8) (op : Nat) (h : op_0xFXNN c op = some c') :
    ((op &&& 0x00FF = 0x07 ∨ op &&& 0x00FF = 0x0A ∨ op &&& 0x00FF = 0x15 ∨
        op &&& 0x00FF = 0x18 ∨ op &&& 0x00FF = 0x1E ∨ op &&& 0x00FF = 0x29 ∨
        op &&& 0x00FF = 0x33 ∨ op &&& 0x00FF = 0x55 ∨ op &&& 0x00FF = 0x65) →
      c'.halt_code = c.halt_code) ∧
    (¬ (op &&& 0x00FF = 0x07 ∨ op &&& 0x00FF = 0x0A ∨ op &&& 0x00FF = 0x15 ∨
        op &&& 0x00FF = 0x18 ∨ op &&& 0x00FF = 0x1E ∨ op &&& 0x00FF = 0x29 ∨
        op &&& 0x00FF = 0x33 ∨ op &&& 0x00FF = 0x55 ∨ op &&& 0x00FF = 0x65) →
      c' = { c with halt_code := HaltCode.HLT_UNKNOWN_INSTRUCTION }) := by
  unfold op_0xFXNN at h
  dsimp only at h
  split at h
  case h_10 n07 n0A n15 n18 n1E n29 n33 n55 n65 =>
    cases h
    refine ⟨fun hyes => ?_, fun _ => rfl⟩
    exfalso
    rcases hyes with h | h | h | h | h | h | h | h | h
    · exact n07 h
    · exact n0A h
    · exact n15 h
    · exact n18 h
    · exact n1E h
    · exact n29 h
    · exact n33 h
    · exact n55 h
    · exact n65 h
  all_goals
    rename_i hlow
    refine ⟨fun _ => ?_, fun hno => ?_⟩
    · first
        | (cases h; rfl)
        | (split_ifs at h <;> cases h <;> rfl)
        | (split at h
           · cases h
           · cases h; rfl)
    · exfalso
      apply hno
      simp only [hlow, true_or, or_true]

/-! ## The halt code through one instruction -/

theorem step_halt (c c' : Chip8) (rnd op : Nat)
    (hop : chip8_current_instruction c = some op)
    (hstep : chip8_next_instruction c rnd = some c') :
    (unknown_instruction op →
      c' = { c with pc := c.pc + 2, halt_code := HaltCode.HLT_UNKNOWN_INSTRUCTION }) ∧
    (¬ unknown_instruction op →
      c'.halt_code = c.halt_code ∨ c'.halt_code = HaltCode.HLT_STACK_UNDERFLOW ∨
        c'.halt_code = HaltCode.HLT_STACK_OVERFLOW) := by
  obtain ⟨hpc, hexpr⟩ := fetch_some c op hop
  have hpc' : c.pc + 1 < SIZE_MEMORY := hpc
  have hpc2 : (c.pc + 2) % 65536 = c.pc + 2 := by omega
  unfold chip8_next_instruction at hstep
  rw [if_pos hpc'] at hstep
  dsimp only at hstep
  rw [hexpr, hpc2] at hstep
  unfold unknown_instruction
  have hplain : ∀ k : Nat, op &&& 0xF000 = k → k ≠ 0x8000 → k ≠ 0xE000 → k ≠ 0xF000 →
      c'.halt_code = c.halt_code ∨ c'.halt_code = HaltCode.HLT_STACK_UNDERFLOW ∨
        c'.halt_code = HaltCode.HLT_STACK_OVERFLOW →
      ((op &&& 0xF000 = 0x8000 ∧ ¬ (op &&& 0x000F ≤ 7 ∨ op &&& 0x000F = 0xE)) ∨
        (op &&& 0xF000 = 0xE000 ∧ ¬ (op &&& 0x00FF = 0x9E ∨ op &&& 0x00FF = 0xA1)) ∨
        (op &&& 0xF000 = 0xF000 ∧
          ¬ (op &&& 0x00FF = 0x07 ∨ op &&& 0x00FF = 0x0A ∨ op &&& 0x00FF = 0x15 ∨
            op &&& 0x00FF = 0x18 ∨ op &&& 0x00FF = 0x1E ∨ op &&& 0x00FF = 0x29 ∨
            op &&& 0x00FF = 0x33 ∨ op &&& 0x00FF = 0x55 ∨ op &&& 0x00FF = 0x65)) →
        c' = { c with pc := c.pc + 2, halt_code := HaltCode.HLT_UNKNOWN_INSTRUCTION }) ∧
      (¬ ((op &&& 0xF000 = 0x8000 ∧ ¬ (op &&& 0x000F ≤ 7 ∨ op &&& 0x000F = 0xE)) ∨
        (op &&& 0xF000 = 0xE000 ∧ ¬ (op &&& 0x00FF = 0x9E ∨ op &&& 0x00FF = 0xA1)) ∨
        (op &&& 0xF000 = 0xF000 ∧
          ¬ (op &&& 0x00FF = 0x07 ∨ op &&& 0x00FF = 0x0A ∨ op &&& 0x00FF = 0x15 ∨
            op &&& 0x00FF = 0x18 ∨ op &&& 0x00FF = 0x1E ∨ op &&& 0x00FF = 0x29 ∨
            op &&& 0x00FF = 0x33 ∨ op &&& 0x00FF = 0x55 ∨ op &&& 0x00FF = 0x65))) →
        c'.halt_code = c.halt_code ∨ c'.halt_code = HaltCode.HLT_STACK_UNDERFLOW ∨
          c'.halt_code = HaltCode.HLT_STACK_OVERFLOW) := by
    intro k hk h8 hE hF hres
    refine ⟨fun hu => ?_, fun _ => hres⟩
    exfalso
    rcases hu with ⟨h, _⟩ | ⟨h, _⟩ | ⟨h, _⟩
    · exact h8 (hk.symm.trans h)
    · exact hE (hk.symm.trans h)
    · exact hF (hk.symm.trans h)
  split at hstep
  · rename_i hk
    refine hplain _ hk (by decide) (by decide) (by decide) ?_
    rcases op_0x0NNN_halt _ c' op hstep with h | h
    · exact Or.inl h
    · exact Or.inr (Or.inl h)
  · rename_i hk
    cases hstep
    exact hplain _ hk (by decide) (by decide) (by decide) (Or.inl rfl)
  · rename_i hk
    refine hplain _ hk (by decide) (by decide) (by decide) ?_
    rcases op_0x2000_halt _ c' op hstep with h | h
    · exact Or.inl h
    · exact Or.inr (Or.inr h)
  · rename_i hk
    refine hplain _ hk (by decide) (by decide) (by decide) ?_
    split_ifs at hstep <;> cases hstep <;> exact Or.inl rfl
  · rename_i hk
    refine hplain _ hk (by decide) (by decide) (by decide) ?_
    split_ifs at hstep <;> cases hstep <;> exact Or.inl rfl
  · rename_i hk
    refine hplain _ hk (by decide) (by decide) (by decide) ?_
    split_ifs at hstep <;> cases hstep <;> exact Or.inl rfl
  · rename_i hk
    cases hstep
    exact hplain _ hk (by decide) (by decide) (by decide) (Or.inl rfl)
  · rename_i hk
    cases hstep
    exact hplain _ hk (by decide) (by decide) (by decide) (Or.inl rfl)
  · rename_i hk
    cases hstep
    obtain ⟨hyes, hno⟩ := op_0x8XYN_halt { c with pc := c.pc + 2 } op
    have hE : op &&& 0xF000 ≠ 0xE000 := by rw [hk]; decide
    have hF : op &&& 0xF000 ≠ 0xF000 := by rw [hk]; decide
    constructor
    · intro hu
      rcases hu with ⟨_, h⟩ | ⟨h, _⟩ | ⟨h, _⟩
      · rw [hno h]
      · exact absurd h hE
      · exact absurd h hF
    · intro hnu
      by_cases hv : op &&& 0x000F ≤ 7 ∨ op &&& 0x000F = 0xE
      · exact Or.inl (hyes hv)
      · exact absurd (Or.inl ⟨hk, hv⟩) hnu
  · rename_i hk
    refine hplain _ hk (by decide) (by decide) (by decide) ?_
    split_ifs at hstep <;> cases hstep <;> exact Or.inl rfl
  · rename_i hk
    cases hstep
    exact hplain _ hk (by decide) (by decide) (by decide) (Or.inl rfl)
  · rename_i hk
    cases hstep
    exact hplain _ hk (by decide) (by decide) (by decide) (Or.inl rfl)
  · rename_i hk
    cases hstep
    exact hplain _ hk (by decide) (by decide) (by decide) (Or.inl rfl)
  · rename_i hk
    refine hplain _ hk (by decide) (by decide) (by decide) ?_
    exact Or.inl (op_0xDXYN_halt { c with pc := c.pc + 2 } c' op hstep)
  · rename_i hk
    obtain ⟨hyes, hno⟩ := op_0xEXNN_halt _ c' op hstep
    have h8 : op &&& 0xF000 ≠ 0x8000 := by rw [hk]; decide
    have hF : op &&& 0xF000 ≠ 0xF000 := by rw [hk]; decide
    constructor
    · intro hu
      rcases hu with ⟨h, _⟩ | ⟨_, h⟩ | ⟨h, _⟩
      · exact absurd h h8
      · rw [hno h]
      · exact absurd h hF
    · intro hnu
      by_cases hv : op &&& 0x00FF = 0x9E ∨ op &&& 0x00FF = 0xA1
      · exact Or.inl (hyes hv)
      · exact absurd (Or.inr (Or.inl ⟨hk, hv⟩)) hnu
  · rename_i hk
    obtain ⟨hyes, hno⟩ := op_0xFXNN_halt _ c' op hstep
    have h8 : op &&& 0xF000 ≠ 0x8000 := by rw [hk]; decide
    have hE : op &&& 0xF000 ≠ 0xE000 := by rw [hk]; decide
    constructor
    · intro hu
      rcases hu with ⟨h, _⟩ | ⟨h, _⟩ | ⟨_, h⟩
      · exact absurd h h8
      · exact absurd h hE
      · rw [hno h]
    · intro hnu
      by_cases hv : op &&& 0x00FF = 0x07 ∨ op &&& 0x00FF = 0x0A ∨ op &&& 0x00FF = 0x15 ∨
          op &&& 0x00FF = 0x18 ∨ op &&& 0x00FF = 0x1E ∨ op &&& 0x00FF = 0x29 ∨
          op &&& 0x00FF = 0x33 ∨ op &&& 0x00FF = 0x55 ∨ op &&& 0x00FF = 0x65
      · exact Or.inl (hyes hv)
      · exact absurd (Or.inr (Or.inr ⟨hk, hv⟩)) hnu
  · rename_i n0 n1 n2 n3 n4 n5 n6 n7 n8 n9 nA nB nC nD nE nF
    exfalso
    rcases top_nibble op with h | h | h | h | h | h | h | h | h | h | h | h | h | h | h | h
    · exact n0 h
    · exact n1 h
    · exact n2 h
    · exact n3 h
    · exact n4 h
    · exact n5 h
    · exact n6 h
    · exact n7 h
    · exact n8 h
    · exact n9 h
    · exact nA h
    · exact nB h
    · exact nC h
    · exact nD h
    · exact nE h
    · exact nF h

/-! ## Program counter and halt code of one step, by opcode -/

theorem or_bytes (a b : Nat) (ha : a < 256) (hb : b < 256) :
    ((a <<< 8) ||| b) % 65536 = a * 256 + b := by
  have h := Nat.mul_add_lt_is_or (i := 8) (b := b) (by omega) a
  rw [Nat.shiftLeft_eq, Nat.mul_comm a (2 ^ 8), ← h]
  omega

/-- The opcode of a step is the big-endian word at `pc`. -/
theorem fetch_big_endian (c : Chip8) (hpc : c.pc + 1 < 4096) (h0 : c.memory c.pc < 256)
    (h1 : c.memory (c.pc + 1) < 256) :
    chip8_current_instruction c = some (c.memory c.pc * 256 + c.memory (c.pc + 1)) := by
  unfold chip8_current_instruction SIZE_MEMORY
  rw [if_pos hpc, or_bytes _ _ h0 h1]

/-- Every instruction that is not a jump, call, `0x0XEE`, skip, retrying draw or
retrying key wait ends at `pc + 2`; a skip ends at `pc + 4` or `pc + 2`. -/
theorem step_advances_pc (c c' : Chip8) (rnd op : Nat)
    (hop : chip8_current_instruction c = some op)
    (hstep : chip8_next_instruction c rnd = some c') :
    (op &&& 0xF000 ≠ 0x1000 → op &&& 0xF000 ≠ 0x2000 → op &&& 0xF000 ≠ 0xB000 →
      ¬ (op &&& 0xF000 = 0x0000 ∧ op &&& 0x00FF = 0xEE) →
      op &&& 0xF000 ≠ 0x3000 → op &&& 0xF000 ≠ 0x4000 → op &&& 0xF000 ≠ 0x5000 →
      op &&& 0xF000 ≠ 0x9000 →
      ¬ (op &&& 0xF000 = 0xE000 ∧ (op &&& 0x00FF = 0x9E ∨ op &&& 0x00FF = 0xA1)) →
      ¬ (op &&& 0xF000 = 0xD000 ∧ c.vblank = 0) →
      ¬ (op &&& 0xF000 = 0xF000 ∧ op &&& 0x00FF = 0x0A ∧ c.keys = 0) →
      c'.pc = c.pc + 2) ∧
    ((op &&& 0xF000 = 0x3000 ∨ op &&& 0xF000 = 0x4000 ∨ op &&& 0xF000 = 0x5000 ∨
        op &&& 0xF000 = 0x9000 ∨
        (op &&& 0xF000 = 0xE000 ∧ (op &&& 0x00FF = 0x9E ∨ op &&& 0x00FF = 0xA1))) →
      c'.pc = c.pc + 4 ∨ c'.pc = c.pc + 2) := by
  have hc := step_control c c' rnd op hop hstep
  constructor
  · intro n1 n2 nB nEE n3 n4 n5 n9 nE nD nF
    rcases hc with ⟨h0, _, h⟩ | ⟨h, _⟩ | ⟨h, _⟩ | ⟨h, _⟩ | ⟨h, _⟩ | ⟨h, _⟩ | ⟨h, _⟩ |
      ⟨_, _, _, h⟩ | ⟨h, _⟩ | ⟨hD, _, _, h⟩ | ⟨hE, _, _, h⟩ | ⟨hF, _, _, h⟩
    · rcases h with ⟨g, _⟩ | ⟨_, g, _⟩
      · exact absurd ⟨h0, g⟩ nEE
      · exact g
    · exact absurd h n1
    · exact absurd h n2
    · exact absurd h n3
    · exact absurd h n4
    · exact absurd h n5
    · exact absurd h n9
    · exact h
    · exact absurd h nB
    · rw [h, if_neg (fun hv => nD ⟨hD, hv⟩)]
    · rw [h, if_neg (fun h9 => nE ⟨hE, Or.inl h9⟩), if_neg (fun hA => nE ⟨hE, Or.inr hA⟩)]
    · rw [h, if_neg (fun hk => nF ⟨hF, hk⟩)]
  · intro hs
    have key : ∀ k : Nat, op &&& 0xF000 = k → k ≠ 0x3000 → k ≠ 0x4000 → k ≠ 0x5000 →
        k ≠ 0x9000 → k ≠ 0xE000 → c'.pc = c.pc + 4 ∨ c'.pc = c.pc + 2 := by
      intro k hk k3 k4 k5 k9 kE
      exfalso
      rcases hs with h | h | h | h | ⟨h, _⟩
      · exact k3 (hk.symm.trans h)
      · exact k4 (hk.symm.trans h)
      · exact k5 (hk.symm.trans h)
      · exact k9 (hk.symm.trans h)
      · exact kE (hk.symm.trans h)
    rcases hc with ⟨h, _⟩ | ⟨h, _⟩ | ⟨h, _⟩ | ⟨_, _, _, h⟩ | ⟨_, _, _, h⟩ | ⟨_, _, _, h⟩ |
      ⟨_, _, _, h⟩ | ⟨h, _⟩ | ⟨h, _⟩ | ⟨h, _⟩ | ⟨_, _, _, h⟩ | ⟨h, _⟩
    · exact key _ h (by decide) (by decide) (by decide) (by decide) (by decide)
    · exact key _ h (by decide) (by decide) (by decide) (by decide) (by decide)
    · exact key _ h (by decide) (by decide) (by decide) (by decide) (by decide)
    · rw [h]; split_ifs
      · exact Or.inl rfl
      · exact Or.inr rfl
    · rw [h]; split_ifs
      · exact Or.inl rfl
      · exact Or.inr rfl
    · rw [h]; split_ifs
      · exact Or.inl rfl
      · exact Or.inr rfl
    · rw [h]; split_ifs
      · exact Or.inl rfl
      · exact Or.inr rfl
    · rcases h with h | h | h | h | h
      · exact key _ h (by decide) (by decide) (by decide) (by decide) (by decide)
      · exact key _ h (by decide) (by decide) (by decide) (by decide) (by decide)
      · exact key _ h (by decide) (by decide) (by decide) (by decide) (by decide)
      · exact key _ h (by decide) (by decide) (by decide) (by decide) (by decide)
      · exact key _ h (by decide) (by decide) (by decide) (by decide) (by decide)
    · exact key _ h (by decide) (by decide) (by decide) (by decide) (by decide)
    · exact key _ h (by decide) (by decide) (by decide) (by decide) (by decide)
    · rw [h]; split_ifs <;> first | exact Or.inl rfl | exact Or.inr rfl
    · exact key _ h (by decide) (by decide) (by decide) (by decide) (by decide)

/-- C16 at its failing input.  The ROM `22 04 00 00 01 EE` calls `0x204`; the
word there is `0x01EE`, which is none of `0x1NNN`, `0x2NNN`, `0xBNNN`, `0x00EE`,
a skip, a draw or a key wait, yet the step from `pc = 0x204` ends at `0x202`,
the return address, and not at `0x206`. -/
theorem stray_return_jumps :
    ∃ c1 c2, chip8_next_instruction stray_return_state 0 = some c1 ∧
      chip8_current_instruction c1 = some 0x01EE ∧ c1.pc = 0x204 ∧
      chip8_next_instruction c1 0 = some c2 ∧
      c2.halt_code = HaltCode.HLT_NONE ∧ c2.pc = 0x202 ∧ c2.pc ≠ c1.pc + 2 := by
  have k1 : chip8_next_instruction stray_return_state 0 =
      some ((chip8_next_instruction stray_return_state 0).getD blank) := rfl
  have k2 : chip8_next_instruction
      ((chip8_next_instruction stray_return_state 0).getD blank) 0 =
      some ((chip8_next_instruction
        ((chip8_next_instruction stray_return_state 0).getD blank) 0).getD blank) := rfl
  have p1 : ((chip8_next_instruction stray_return_state 0).getD blank).pc = 0x204 := rfl
  have p2 : ((chip8_next_instruction
      ((chip8_next_instruction stray_return_state 0).getD blank) 0).getD blank).pc =
      0x202 := rfl
  refine ⟨_, _, k1, rfl, p1, k2, rfl, p2, ?_⟩
  rw [p1, p2]
  decide

/-- The true part of C17: with `halt_code` none before the step, the step ends with
unknown-instruction exactly on the unknown opcodes, and then only `pc` and
`halt_code` change; a `0x0NNN` whose low byte is neither `E0` nor `EE` changes
`pc` only. -/
theorem unknown_opcodes_halt (c c' : Chip8) (rnd op : Nat)
    (hop : chip8_current_instruction c = some op)
    (hstep : chip8_next_instruction c rnd = some c')
    (hnone : c.halt_code = HaltCode.HLT_NONE) :
    (c'.halt_code = HaltCode.HLT_UNKNOWN_INSTRUCTION ↔ unknown_instruction op) ∧
    (unknown_instruction op →
      c' = { c with pc := c.pc + 2, halt_code := HaltCode.HLT_UNKNOWN_INSTRUCTION }) ∧
    (op &&& 0xF000 = 0x0000 → op &&& 0x00FF ≠ 0xE0 → op &&& 0x00FF ≠ 0xEE →
      c' = { c with pc := c.pc + 2 }) := by
  obtain ⟨hyes, hno⟩ := step_halt c c' rnd op hop hstep
  refine ⟨⟨fun hu => ?_, fun hu => ?_⟩, hyes, ?_⟩
  · by_contra hnu
    rcases hno hnu with h | h | h
    · rw [hu, hnone] at h; exact absurd h (by decide)
    · rw [hu] at h; exact absurd h (by decide)
    · rw [hu] at h; exact absurd h (by decide)
  · rw [hyes hu]
  · intro h0 hE0 hEE
    obtain ⟨hpc, _⟩ := fetch_some c op hop
    have hpc2 : (c.pc + 2) % 65536 = c.pc + 2 := by omega
    rw [step_0x0NNN c rnd op hop h0, op_0x0NNN_ignored _ op hE0 hEE, hpc2] at hstep
    exact (Option.some.inj hstep).symm

/-- C17 at its failing input.  After a tick and the draw `0xD001` of the ROM
`D0 01 01 E0` the display byte 0 is `0xF0`; the next word is `0x01E0`, a `0x0NNN`
other than `0x00E0` and `0x00EE`, and the step on it clears the display, where
the claim has it change `pc` only. -/
theorem stray_clear_wipes_display :
    ∃ c1 c2, chip8_next_instruction (chip8_vblank stray_clear_state) 0 = some c1 ∧
      chip8_current_instruction c1 = some 0x01E0 ∧
      c1.halt_code = HaltCode.HLT_NONE ∧ c1.display 0 = 0xF0 ∧
      chip8_next_instruction c1 0 = some c2 ∧
      c2.halt_code = HaltCode.HLT_NONE ∧ c2.display 0 = 0 ∧
      c2 ≠ { c1 with pc := c1.pc + 2 } := by
  have k1 : chip8_next_instruction (chip8_vblank stray_clear_state) 0 =
      some ((chip8_next_instruction (chip8_vblank stray_clear_state) 0).getD blank) := rfl
  have k2 : chip8_next_instruction
      ((chip8_next_instruction (chip8_vblank stray_clear_state) 0).getD blank) 0 =
      some ((chip8_next_instruction
        ((chip8_next_instruction (chip8_vblank stray_clear_state) 0).getD blank) 0).getD
          blank) := rfl
  have d1 : ((chip8_next_instruction (chip8_vblank stray_clear_state) 0).getD
      blank).display 0 = 0xF0 := rfl
  have d2 : ((chip8_next_instruction
      ((chip8_next_instruction (chip8_vblank stray_clear_state) 0).getD blank) 0).getD
        blank).display 0 = 0 := rfl
  refine ⟨_, _, k1, rfl, rfl, d1, k2, rfl, d2, ?_⟩
  intro heq
  have hd := congrArg (fun s => s.display 0) heq
  dsimp only at hd
  rw [d1, d2] at hd
  exact absurd hd (by decide)

/-! ## Tick and timers -/

theorem chip8_vblank_timers (c : Chip8) :
    (chip8_vblank c).timer_delay = c.timer_delay - 1 ∧
    (chip8_vblank c).timer_sound = c.timer_sound - 1 := by
  unfold chip8_vblank
  dsimp only
  by_cases h1 : c.timer_delay > 0
  · by_cases h2 : c.timer_sound > 0
    · rw [if_pos h1, if_pos h2]
      exact ⟨rfl, rfl⟩
    · rw [if_pos h1, if_neg h2]
      refine ⟨rfl, ?_⟩
      show c.timer_sound = c.timer_sound - 1
      omega
  · by_cases h2 : c.timer_sound > 0
    · rw [if_neg h1, if_pos h2]
      refine ⟨?_, rfl⟩
      show c.timer_delay = c.timer_delay - 1
      omega
    · rw [if_neg h1, if_neg h2]
      constructor
      · show c.timer_delay = c.timer_delay - 1
        omega
      · show c.timer_sound = c.timer_sound - 1
        omega

theorem ticks_timers (k : Nat) :
    ∀ c : Chip8, (ticks k c).timer_delay = c.timer_delay - k ∧
      (ticks k c).timer_sound = c.timer_sound - k := by
  induction k with
  | zero => intro c; exact ⟨rfl, rfl⟩
  | succ k ih =>
    intro c
    obtain ⟨h1, h2⟩ := ih (chip8_vblank c)
    obtain ⟨g1, g2⟩ := chip8_vblank_timers c
    show (ticks k (chip8_vblank c)).timer_delay = _ ∧ (ticks k (chip8_vblank c)).timer_sound = _
    rw [h1, h2, g1, g2]
    constructor <;> omega

theorem op_0xFXNN_timers (c : Chip8) (x : Nat) (hx : x < 16) :
    op_0xFXNN c (0xF000 + 256 * x + 0x15) = some { c with timer_delay := c.v x } ∧
    op_0xFXNN c (0xF000 + 256 * x + 0x18) = some { c with timer_sound := c.v x } := by
  obtain ⟨_, h2, h3⟩ := decode_FXNN x 0x15 hx (by decide)
  obtain ⟨_, g2, g3⟩ := decode_FXNN x 0x18 hx (by decide)
  constructor
  · simp only [op_0xFXNN, h2, h3]
  · simp only [op_0xFXNN, g2, g3]

/-- C21: tick.  `chip8_vblank` sets `vblank = 1`; each of `timer_delay` and
`timer_sound` becomes its value minus one if it was above 0 and stays 0 if it was
0, so it never grows; memory, display, stack, registers, `i`, `pc`, `sp`, `keys`
and `halt_code` are unchanged.  After `k` ticks a timer holds its value minus `k`,
cut at 0; hence a timer set to `t = v[x]` by `0xFX15` (delay) or `0xFX18` (sound)
is not 0 after fewer than `t` ticks, is 0 after `t` ticks and stays 0. -/
theorem tick_timers (c : Chip8) (rnd x : Nat) (hx : x < 16) :
    ((chip8_vblank c).vblank = 1 ∧
      (0 < c.timer_delay → (chip8_vblank c).timer_delay + 1 = c.timer_delay) ∧
      (c.timer_delay = 0 → (chip8_vblank c).timer_delay = 0) ∧
      (0 < c.timer_sound → (chip8_vblank c).timer_sound + 1 = c.timer_sound) ∧
      (c.timer_sound = 0 → (chip8_vblank c).timer_sound = 0) ∧
      (chip8_vblank c).timer_delay ≤ c.timer_delay ∧
      (chip8_vblank c).timer_sound ≤ c.timer_sound ∧
      (chip8_vblank c).memory = c.memory ∧ (chip8_vblank c).display = c.display ∧
      (chip8_vblank c).stack = c.stack ∧ (chip8_vblank c).v = c.v ∧
      (chip8_vblank c).i = c.i ∧ (chip8_vblank c).pc = c.pc ∧
      (chip8_vblank c).sp = c.sp ∧ (chip8_vblank c).keys = c.keys ∧
      (chip8_vblank c).halt_code = c.halt_code) ∧
    (∀ k, (ticks k c).timer_delay = c.timer_delay - k ∧
      (ticks k c).timer_sound = c.timer_sound - k) ∧
    (chip8_current_instruction c = some (0xF015 + 256 * x) →
      ∃ c', chip8_next_instruction c rnd = some c' ∧ c'.timer_delay = c.v x ∧
        (∀ k, k < c.v x → (ticks k c').timer_delay ≠ 0) ∧
        (ticks (c.v x) c').timer_delay = 0 ∧
        (∀ k, c.v x ≤ k → (ticks k c').timer_delay = 0)) ∧
    (chip8_current_instruction c = some (0xF018 + 256 * x) →
      ∃ c', chip8_next_instruction c rnd = some c' ∧ c'.timer_sound = c.v x ∧
        (∀ k, k < c.v x → (ticks k c').timer_sound ≠ 0) ∧
        (ticks (c.v x) c').timer_sound = 0 ∧
        (∀ k, c.v x ≤ k → (ticks k c').timer_sound = 0)) := by
  obtain ⟨f1, f2, f3, f4, f5, f6, f7, f8, f9, f10⟩ := chip8_vblank_frame c
  obtain ⟨t1, t2⟩ := chip8_vblank_timers c
  refine ⟨⟨f10, ?_, ?_, ?_, ?_, ?_, ?_, f1, f2, f3, f4, f5, f6, f7, f8, f9⟩,
    fun k => ticks_timers k c, ?_, ?_⟩
  · intro h; rw [t1]; omega
  · intro h; rw [t1]; omega
  · intro h; rw [t2]; omega
  · intro h; rw [t2]; omega
  · rw [t1]; omega
  · rw [t2]; omega
  · intro hop
    have hop' : chip8_current_instruction c = some (0xF000 + 256 * x + 0x15) := by
      rw [hop]; congr 1; omega
    obtain ⟨ht, _, _⟩ := decode_FXNN x 0x15 hx (by decide)
    have hs := step_0xFXNN c rnd _ hop' ht
    rw [(op_0xFXNN_timers { c with pc := (c.pc + 2) % 65536 } x hx).1] at hs
    refine ⟨_, hs, rfl, ?_, ?_, ?_⟩
    · intro k hk
      rw [(ticks_timers k _).1]
      show c.v x - k ≠ 0
      omega
    · rw [(ticks_timers _ _).1]
      show c.v x - c.v x = 0
      omega
    · intro k hk
      rw [(ticks_timers k _).1]
      show c.v x - k = 0
      omega
  · intro hop
    have hop' : chip8_current_instruction c = some (0xF000 + 256 * x + 0x18) := by
      rw [hop]; congr 1; omega
    obtain ⟨ht, _, _⟩ := decode_FXNN x 0x18 hx (by decide)
    have hs := step_0xFXNN c rnd _ hop' ht
    rw [(op_0xFXNN_timers { c with pc := (c.pc + 2) % 65536 } x hx).2] at hs
    refine ⟨_, hs, rfl, ?_, ?_, ?_⟩
    · intro k hk
      rw [(ticks_timers k _).2]
      show c.v x - k ≠ 0
      omega
    · rw [(ticks_timers _ _).2]
      show c.v x - c.v x = 0
      omega
    · intro k hk
      rw [(ticks_timers k _).2]
      show c.v x - k = 0
      omega

/-- Witness for `tick_timers`: `0xF015` with `v[0] = 3` sets the delay timer to 3;
it reads 1 after two ticks and 0 after three and after four. -/
theorem tick_timers_witness :
    ∃ c', chip8_next_instruction delay_state 0 = some c' ∧ c'.timer_delay = 3 ∧
      (ticks 2 c').timer_delay = 1 ∧ (ticks 3 c').timer_delay = 0 ∧
      (ticks 4 c').timer_delay = 0 := by
  have hv : delay_state.v 0 = 3 := by decide
  obtain ⟨_, hk, h15, _⟩ := tick_timers delay_state 0 0 (by decide)
  obtain ⟨c', hs, ht, _, h3, h4⟩ := h15 rfl
  rw [hv] at ht h3 h4
  have h2 := (ticks_timers 2 c').1
  rw [ht] at h2
  exact ⟨c', hs, ht, h2, h3, h4 4 (by decide)⟩

/-! ## Call and return as a round trip -/

theorem step_call (c : Chip8) (rnd nnn : Nat) (hn : nnn < 4096)
    (hop : chip8_current_instruction c = some (0x2000 + nnn)) (hsp : c.sp < 16) :
    chip8_next_instruction c rnd =
      some { c with stack := store c.stack c.sp (c.pc + 2), sp := c.sp + 1, pc := nnn } := by
  obtain ⟨hpc, _⟩ := fetch_some c _ hop
  have hpc2 : (c.pc + 2) % 65536 = c.pc + 2 := by omega
  have hsp2 : (c.sp + 1) % 256 = c.sp + 1 := by omega
  have ht : (0x2000 + nnn) &&& 0xF000 = 0x2000 := by rw [and_F000]; omega
  have hl : (0x2000 + nnn) &&& 0x0FFF = nnn := by rw [and_0FFF]; omega
  rw [step_0x2NNN c rnd _ hop ht, op_0x2000_push { c with pc := (c.pc + 2) % 65536 } _ hsp]
  simp only [hpc2, hsp2, hl]

theorem step_return (c : Chip8) (rnd : Nat) (hop : chip8_current_instruction c = some 0x00EE)
    (h0 : 0 < c.sp) (h16 : c.sp ≤ 16) :
    chip8_next_instruction c rnd = some { c with sp := c.sp - 1, pc := c.stack (c.sp - 1) } := by
  have ht : 0x00EE &&& 0xF000 = 0x0000 := by decide
  have hl : 0x00EE &&& 0x00FF = 0xEE := by decide
  rw [step_0x0NNN c rnd _ hop ht, op_0x0NNN_pop { c with pc := (c.pc + 2) % 65536 } _ hl h0 h16]

theorem state_after_shift (rnd : Nat → Nat) (c : Chip8) (k : Nat) :
    state_after rnd c (k + 1) =
      match chip8_next_instruction c (rnd 0) with
      | none => none
      | some c1 => state_after (fun j => rnd (j + 1)) c1 k := by
  induction k with
  | zero =>
    show (match state_after rnd c 0 with
      | none => none
      | some s => chip8_next_instruction s (rnd 0)) = _
    show chip8_next_instruction c (rnd 0) = _
    cases chip8_next_instruction c (rnd 0) <;> rfl
  | succ k ih =>
    show (match state_after rnd c (k + 1) with
      | none => none
      | some s => chip8_next_instruction s (rnd (k + 1))) = _
    rw [ih]
    cases chip8_next_instruction c (rnd 0) with
    | none => rfl
    | some c1 => rfl

theorem kept_refl (c : Chip8) : c.kept c :=
  ⟨rfl, fun _ _ => rfl, rfl, rfl, rfl, rfl, rfl, rfl, rfl, rfl, rfl⟩

/-- One call, a balanced run inside it, and the return: the return lands behind the
call and keeps the caller. -/
theorem call_then_return (c s : Chip8) (rnd nnn : Nat)
    (hsp : c.sp < 16)
    (hk : Chip8.kept { c with stack := store c.stack c.sp (c.pc + 2), sp := c.sp + 1,
                              pc := nnn } s)
    (hop : chip8_current_instruction s = some 0x00EE) :
    ∃ f, chip8_next_instruction s rnd = some f ∧ f.pc = c.pc + 2 ∧ c.kept f := by
  obtain ⟨k1, k2, k3, k4, k5, k6, k7, k8, k9, k10, k11⟩ := hk
  have hs1 : s.sp = c.sp + 1 := k1
  have hst : s.stack c.sp = c.pc + 2 := by
    have := k2 c.sp (show c.sp < c.sp + 1 by omega)
    rw [this]
    exact store_same _ _ _
  have hstep := step_return s rnd hop (by omega) (by omega)
  have hidx : s.sp - 1 = c.sp := by omega
  refine ⟨_, hstep, ?_, ?_⟩
  · show s.stack (s.sp - 1) = c.pc + 2
    rw [hidx, hst]
  · refine ⟨hidx, ?_, k3, k4, k5, k6, k7, k8, k9, k10, k11⟩
    intro i hi
    show s.stack i = c.stack i
    have := k2 i (show i < c.sp + 1 by omega)
    rw [this]
    exact store_other _ _ _ _ (by omega)

/-- Nested calls and returns: `n` calls followed by `n` returns run to the end,
and the return matching call number `j` lands behind that call with the caller's
state kept. -/
theorem nested_calls (n : Nat) :
    ∀ (c : Chip8) (rnd : Nat → Nat), c.sp + n ≤ 16 →
      (∀ k, k < n → ∀ s, state_after rnd c k = some s →
        ∃ nnn, nnn < 4096 ∧ chip8_current_instruction s = some (0x2000 + nnn)) →
      (∀ k, n ≤ k → k < 2 * n → ∀ s, state_after rnd c k = some s →
        chip8_current_instruction s = some 0x00EE) →
      ∃ tr : Nat → Chip8, tr 0 = c ∧ (∀ k, k ≤ 2 * n → state_after rnd c k = some (tr k)) ∧
        c.kept (tr (2 * n)) ∧
        (∀ j, j < n → (tr j).sp = c.sp + j ∧ (tr (2 * n - j)).pc = (tr j).pc + 2 ∧
          (tr j).kept (tr (2 * n - j))) := by
  induction n with
  | zero =>
    intro c rnd _ _ _
    refine ⟨fun _ => c, rfl, ?_, kept_refl c, ?_⟩
    · intro k hk
      have : k = 0 := by omega
      rw [this]; rfl
    · intro j hj
      exact absurd hj (Nat.not_lt_zero j)
  | succ n ih =>
    intro c rnd hsp hcall hret
    obtain ⟨nnn, hnnn, hop⟩ := hcall 0 (by omega) c rfl
    have hstep := step_call c (rnd 0) nnn hnnn hop (by omega)
    have hshift : ∀ k, state_after rnd c (k + 1) =
        state_after (fun j => rnd (j + 1))
          { c with stack := store c.stack c.sp (c.pc + 2), sp := c.sp + 1, pc := nnn } k := by
      intro k
      rw [state_after_shift, hstep]
    obtain ⟨tr1, h0, hrun, hkept, hlifo⟩ := ih
      { c with stack := store c.stack c.sp (c.pc + 2), sp := c.sp + 1, pc := nnn }
      (fun j => rnd (j + 1)) (by show c.sp + 1 + n ≤ 16; omega)
      (fun k hk s hs => hcall (k + 1) (by omega) s (by rw [hshift]; exact hs))
      (fun k hk1 hk2 s hs => hret (k + 1) (by omega) (by omega) s (by rw [hshift]; exact hs))
    have hlast : state_after rnd c (2 * n + 1) = some (tr1 (2 * n)) := by
      rw [hshift]; exact hrun (2 * n) (Nat.le_refl _)
    have hopr := hret (2 * n + 1) (by omega) (by omega) _ hlast
    obtain ⟨f, hf, hfpc, hfkept⟩ := call_then_return c (tr1 (2 * n)) (rnd (2 * n + 1)) nnn
      (by omega) hkept hopr
    refine ⟨fun k => if k = 0 then c else if k ≤ 2 * n + 1 then tr1 (k - 1) else f,
      if_pos rfl, ?_, ?_, ?_⟩
    · intro k hk
      by_cases hk0 : k = 0
      · rw [hk0]; rfl
      · by_cases hk1 : k ≤ 2 * n + 1
        · have e : k = (k - 1) + 1 := by omega
          show state_after rnd c k = some (if k = 0 then c else if k ≤ 2 * n + 1 then
            tr1 (k - 1) else f)
          rw [if_neg hk0, if_pos hk1, e, hshift]
          exact hrun (k - 1) (by omega)
        · have e : k = (2 * n + 1) + 1 := by omega
          show state_after rnd c k = some (if k = 0 then c else if k ≤ 2 * n + 1 then
            tr1 (k - 1) else f)
          rw [if_neg hk0, if_neg hk1, e]
          show (match state_after rnd c (2 * n + 1) with
            | none => none
            | some s => chip8_next_instruction s (rnd (2 * n + 1))) = some f
          rw [hlast]
          exact hf
    · show c.kept (if 2 * (n + 1) = 0 then c else if 2 * (n + 1) ≤ 2 * n + 1 then
        tr1 (2 * (n + 1) - 1) else f)
      rw [if_neg (by omega), if_neg (by omega)]
      exact hfkept
    · intro j hj
      by_cases hj0 : j = 0
      · subst hj0
        show (if (0 : Nat) = 0 then c else _).sp = c.sp + 0 ∧
          (if 2 * (n + 1) - 0 = 0 then c else if 2 * (n + 1) - 0 ≤ 2 * n + 1 then
            tr1 (2 * (n + 1) - 0 - 1) else f).pc = (if (0 : Nat) = 0 then c else _).pc + 2 ∧
          Chip8.kept (if (0 : Nat) = 0 then c else _)
            (if 2 * (n + 1) - 0 = 0 then c else if 2 * (n + 1) - 0 ≤ 2 * n + 1 then
              tr1 (2 * (n + 1) - 0 - 1) else f)
        rw [if_pos rfl, if_neg (by omega), if_neg (by omega)]
        exact ⟨rfl, hfpc, hfkept⟩
      · obtain ⟨g1, g2, g3⟩ := hlifo (j - 1) (by omega)
        have e1 : 2 * (n + 1) - j - 1 = 2 * n - (j - 1) := by omega
        show (if j = 0 then c else if j ≤ 2 * n + 1 then tr1 (j - 1) else f).sp = c.sp + j ∧
          (if 2 * (n + 1) - j = 0 then c else if 2 * (n + 1) - j ≤ 2 * n + 1 then
            tr1 (2 * (n + 1) - j - 1) else f).pc =
            (if j = 0 then c else if j ≤ 2 * n + 1 then tr1 (j - 1) else f).pc + 2 ∧
          Chip8.kept (if j = 0 then c else if j ≤ 2 * n + 1 then tr1 (j - 1) else f)
            (if 2 * (n + 1) - j = 0 then c else if 2 * (n + 1) - j ≤ 2 * n + 1 then
              tr1 (2 * (n + 1) - j - 1) else f)
        rw [if_neg hj0, if_pos (by omega), if_neg (by omega), if_pos (by omega), e1]
        refine ⟨?_, g2, g3⟩
        rw [g1]
        show c.sp + 1 + (j - 1) = c.sp + j
        omega

/-- C22: call/return round trip.  For every state with `sp < 16` whose opcode at
`pc = p` is `0x2NNN`, the call step leaves `pc = NNN`, `sp` one larger and
`stack[sp_old] = p + 2`; if the opcode then at `pc` is `0x00EE`, the next step
leaves `pc = p + 2`, `sp` as before the call, `halt_code` as before (so still
none), and the stack entries below the original `sp`, all registers, `i`, memory
and display unchanged.  And for every `n` with `sp + n ≤ 16`: if the first `n`
instructions executed are calls and the next `n` are `0x00EE`, all `2n` steps
produce a state, call number `j` runs at `sp + j`, and the return matching it
(step `2n - j`) leaves `pc` behind that call site with the caller's `sp`, stack
below `sp`, registers, `i`, memory, display and `halt_code`: last in, first out. -/
theorem call_return_round_trip (c : Chip8) (rnd : Nat → Nat) (nnn : Nat) (hn : nnn < 4096)
    (hop : chip8_current_instruction c = some (0x2000 + nnn)) (hsp : c.sp < 16) :
    (∃ c1, chip8_next_instruction c (rnd 0) = some c1 ∧ c1.pc = nnn ∧ c1.sp = c.sp + 1 ∧
      c1.stack c.sp = c.pc + 2 ∧
      (chip8_current_instruction c1 = some 0x00EE →
        ∃ c2, chip8_next_instruction c1 (rnd 1) = some c2 ∧ c2.pc = c.pc + 2 ∧
          c2.sp = c.sp ∧ c2.halt_code = c.halt_code ∧
          (c.halt_code = HaltCode.HLT_NONE → c2.halt_code = HaltCode.HLT_NONE) ∧
          (∀ i, i < c.sp → c2.stack i = c.stack i) ∧ c2.v = c.v ∧ c2.i = c.i ∧
          c2.memory = c.memory ∧ c2.display = c.display)) ∧
    (∀ n, c.sp + n ≤ 16 →
      (∀ k, k < n → ∀ s, state_after rnd c k = some s →
        ∃ m, m < 4096 ∧ chip8_current_instruction s = some (0x2000 + m)) →
      (∀ k, n ≤ k → k < 2 * n → ∀ s, state_after rnd c k = some s →
        chip8_current_instruction s = some 0x00EE) →
      ∃ tr : Nat → Chip8, tr 0 = c ∧
        (∀ k, k ≤ 2 * n → state_after rnd c k = some (tr k)) ∧
        (∀ j, j < n → (tr j).sp = c.sp + j ∧
          (tr (2 * n - j)).pc = (tr j).pc + 2 ∧ (tr (2 * n - j)).sp = (tr j).sp ∧
          (tr (2 * n - j)).halt_code = (tr j).halt_code ∧
          (∀ i, i < (tr j).sp → (tr (2 * n - j)).stack i = (tr j).stack i) ∧
          (tr (2 * n - j)).v = (tr j).v ∧ (tr (2 * n - j)).i = (tr j).i ∧
          (tr (2 * n - j)).memory = (tr j).memory ∧
          (tr (2 * n - j)).display = (tr j).display)) := by
  constructor
  · refine ⟨_, step_call c (rnd 0) nnn hn hop hsp, rfl, rfl, store_same _ _ _, ?_⟩
    intro hret
    obtain ⟨f, hf, hpc, k1, k2, k3, k4, k5, k6, k7, _⟩ :=
      call_then_return c _ (rnd 1) nnn hsp (kept_refl _) hret
    exact ⟨f, hf, hpc, k1, k7, fun h => k7.trans h, k2, k3, k4, k5, k6⟩
  · intro n hspn hcall hret
    obtain ⟨tr, h0, hrun, _, hlifo⟩ := nested_calls n c rnd hspn hcall hret
    refine ⟨tr, h0, hrun, ?_⟩
    intro j hj
    obtain ⟨g1, g2, k1, k2, k3, k4, k5, k6, k7, _⟩ := hlifo j hj
    exact ⟨g1, g2, k1, k7, k2, k3, k4, k5, k6⟩

/-- Witness for `call_return_round_trip`: in the ROM of two nested calls the four
steps run; the inner return lands at `0x208`, behind the inner call at `0x206`, and
the outer return at `0x202`, behind the outer call at `0x200`, with `sp = 0`. -/
theorem call_return_round_trip_witness :
    ∃ tr : Nat → Chip8, tr 0 = nested_calls_state ∧
      state_after (fun _ => 0) nested_calls_state 4 = some (tr 4) ∧
      (tr 1).pc = 0x206 ∧ (tr 3).pc = 0x208 ∧ (tr 4).pc = 0x202 ∧ (tr 4).sp = 0 := by
  have e1 : state_after (fun _ => 0) nested_calls_state 1 =
      some ((state_after (fun _ => 0) nested_calls_state 1).getD blank) := rfl
  have e2 : state_after (fun _ => 0) nested_calls_state 2 =
      some ((state_after (fun _ => 0) nested_calls_state 2).getD blank) := rfl
  have e3 : state_after (fun _ => 0) nested_calls_state 3 =
      some ((state_after (fun _ => 0) nested_calls_state 3).getD blank) := rfl
  have p0 : nested_calls_state.pc = 0x200 := rfl
  have s0 : nested_calls_state.sp = 0 := rfl
  have p1 : ((state_after (fun _ => 0) nested_calls_state 1).getD blank).pc = 0x206 := rfl
  obtain ⟨_, hnest⟩ := call_return_round_trip nested_calls_state (fun _ => 0) 0x206
    (by decide) rfl (by decide)
  obtain ⟨tr, h0, hrun, hlifo⟩ := hnest 2 (by decide)
    (by
      intro k hk s hs
      have hk' : k = 0 ∨ k = 1 := by omega
      rcases hk' with h | h
      · subst h
        cases hs
        exact ⟨0x206, by decide, rfl⟩
      · subst h
        rw [e1] at hs
        cases hs
        exact ⟨0x20A, by decide, rfl⟩)
    (by
      intro k hk1 hk2 s hs
      have hk' : k = 2 ∨ k = 3 := by omega
      rcases hk' with h | h
      · subst h
        rw [e2] at hs
        cases hs
        rfl
      · subst h
        rw [e3] at hs
        cases hs
        rfl)
  have t1 : tr 1 = (state_after (fun _ => 0) nested_calls_state 1).getD blank :=
    Option.some.inj ((hrun 1 (by decide)).symm.trans e1)
  obtain ⟨_, a2, a3, _⟩ := hlifo 0 (by decide)
  obtain ⟨_, b2, _⟩ := hlifo 1 (by decide)
  have a2' : (tr 4).pc = (tr 0).pc + 2 := a2
  have a3' : (tr 4).sp = (tr 0).sp := a3
  have b2' : (tr 3).pc = (tr 1).pc + 2 := b2
  rw [h0, p0] at a2'
  rw [h0, s0] at a3'
  rw [t1, p1] at b2'
  refine ⟨tr, h0, hrun 4 (by decide), ?_, b2', a2', a3'⟩
  rw [t1, p1]

/-! ## Steps with every access in bounds -/

theorem draw_rows_defined (memory : Nat → Nat) (address vx vy : Nat) :
    ∀ (k i : Nat) (st : (Nat → Nat) × Nat),
      (∃ st', draw_rows memory address vx vy k i st = some st') ↔
        ∀ r, i ≤ r → r < i + k → (r = i ∨ vy + r ≤ DISPLAY_HEIGHT) →
          address + r < SIZE_MEMORY := by
  intro k
  induction k with
  | zero =>
    intro i st
    constructor
    · intro _ r h1 h2; omega
    · intro _; exact ⟨st, rfl⟩
  | succ k ih =>
    intro i st
    unfold draw_rows
    by_cases h1 : address + i < SIZE_MEMORY
    · rw [if_pos h1]
      dsimp only
      by_cases h2 : vy + i ≥ DISPLAY_HEIGHT
      · rw [if_pos h2]
        constructor
        · intro _ r hr1 hr2 hr3
          rcases hr3 with h | h
          · rw [h]; exact h1
          · have : r = i := by omega
            rw [this]; exact h1
        · intro _; exact ⟨st, rfl⟩
      · rw [if_neg h2, ih]
        constructor
        · intro h r hr1 hr2 hr3
          by_cases hri : r = i
          · rw [hri]; exact h1
          · refine h r (by omega) (by omega) ?_
            rcases hr3 with h | h
            · exact absurd h hri
            · exact Or.inr h
        · intro h r hr1 hr2 hr3
          refine h r (by omega) (by omega) ?_
          rcases hr3 with h | h
          · right; rw [h]; omega
          · exact Or.inr h
    · rw [if_neg h1]
      constructor
      · intro ⟨_, h⟩; cases h
      · intro h
        exact absurd (h i (Nat.le_refl _) (by omega) (Or.inl rfl)) h1

theorem store_loop_defined (v : Nat → Nat) (I : Nat) :
    ∀ (k i : Nat) (m : Nat → Nat),
      (∃ m', store_loop v I k i m = some m') ↔ (k = 0 ∨ I + i + k ≤ SIZE_MEMORY) := by
  intro k
  induction k with
  | zero => intro i m; exact ⟨fun _ => Or.inl rfl, fun _ => ⟨m, rfl⟩⟩
  | succ k ih =>
    intro i m
    unfold store_loop
    by_cases h1 : I + i < SIZE_MEMORY
    · rw [if_pos h1, ih]
      constructor
      · intro h; right; rcases h with h | h <;> omega
      · intro h
        by_cases hk : k = 0
        · exact Or.inl hk
        · right; rcases h with h | h <;> omega
    · rw [if_neg h1]
      constructor
      · intro ⟨_, h⟩; cases h
      · intro h; exfalso; rcases h with h | h <;> omega

theorem fill_loop_defined (memory : Nat → Nat) (I : Nat) :
    ∀ (k i : Nat) (v : Nat → Nat),
      (∃ v', fill_loop memory I k i v = some v') ↔ (k = 0 ∨ I + i + k ≤ SIZE_MEMORY) := by
  intro k
  induction k with
  | zero => intro i v; exact ⟨fun _ => Or.inl rfl, fun _ => ⟨v, rfl⟩⟩
  | succ k ih =>
    intro i v
    unfold fill_loop
    by_cases h1 : I + i < SIZE_MEMORY
    · rw [if_pos h1, ih]
      constructor
      · intro h; right; rcases h with h | h <;> omega
      · intro h
        by_cases hk : k = 0
        · exact Or.inl hk
        · right; rcases h with h | h <;> omega
    · rw [if_neg h1]
      constructor
      · intro ⟨_, h⟩; cases h
      · intro h; exfalso; rcases h with h | h <;> omega

theorem op_0x0NNN_defined (c : Chip8) (op : Nat) :
    (∃ c', op_0x0NNN c op = some c') ↔
      (op &&& 0x00FF = 0xEE → c.sp ≠ 0 → c.sp - 1 < SIZE_STACK) := by
  unfold op_0x0NNN
  split
  · rename_i hE0
    refine ⟨fun _ hEE => ?_, fun _ => ⟨_, rfl⟩⟩
    rw [hE0] at hEE
    exact absurd hEE (by decide)
  · rename_i hEE
    by_cases h0 : c.sp = 0
    · rw [if_pos h0]
      exact ⟨fun _ _ hne => absurd h0 hne, fun _ => ⟨_, rfl⟩⟩
    · rw [if_neg h0]
      by_cases h1 : c.sp - 1 < SIZE_STACK
      · rw [if_pos h1]
        exact ⟨fun _ _ _ => h1, fun _ => ⟨_, rfl⟩⟩
      · rw [if_neg h1]
        constructor
        · intro ⟨_, h⟩; cases h
        · intro h; exact absurd (h hEE h0) h1
  · rename_i hnE0 hnEE
    exact ⟨fun _ hEE => absurd hEE hnEE, fun _ => ⟨_, rfl⟩⟩

theorem op_0x2000_defined (c : Chip8) (op : Nat) :
    (∃ c', op_0x2000 c op = some c') ↔ c.sp ≤ SIZE_STACK := by
  unfold op_0x2000
  dsimp only
  by_cases h0 : c.sp = SIZE_STACK
  · rw [if_pos h0]
    exact ⟨fun _ => Nat.le_of_eq h0, fun _ => ⟨_, rfl⟩⟩
  · rw [if_neg h0]
    by_cases h1 : c.sp < SIZE_STACK
    · rw [if_pos h1]
      exact ⟨fun _ => Nat.le_of_lt h1, fun _ => ⟨_, rfl⟩⟩
    · rw [if_neg h1]
      constructor
      · intro ⟨_, h⟩; cases h
      · intro h; exfalso; omega

theorem op_0xDXYN_defined (c : Chip8) (op : Nat) :
    (∃ c', op_0xDXYN c op = some c') ↔
      (c.vblank ≠ 0 → ∀ r, r < (op &&& 0x000F) % 256 →
        (c.v (((op &&& 0x00F0) >>> 4) % 256) % DISPLAY_HEIGHT) % 256 + r ≤ DISPLAY_HEIGHT →
        c.i + r < SIZE_MEMORY) := by
  have hvy : (c.v (((op &&& 0x00F0) >>> 4) % 256) % DISPLAY_HEIGHT) % 256 ≤ DISPLAY_HEIGHT := by
    unfold DISPLAY_HEIGHT; omega
  have hrows := draw_rows_defined c.memory c.i
    ((c.v (((op &&& 0x0F00) >>> 8) % 256) % DISPLAY_WIDTH) % 256)
    ((c.v (((op &&& 0x00F0) >>> 4) % 256) % DISPLAY_HEIGHT) % 256)
    ((op &&& 0x000F) % 256) 0 (c.display, 0)
  unfold op_0xDXYN
  dsimp only
  by_cases hvb : c.vblank = 0
  · rw [if_pos hvb]
    exact ⟨fun _ hne => absurd hvb hne, fun _ => ⟨_, rfl⟩⟩
  · rw [if_neg hvb]
    constructor
    · intro ⟨c', h⟩ _ r hr1 hr2
      have hdef : ∃ st', draw_rows c.memory c.i
          ((c.v (((op &&& 0x0F00) >>> 8) % 256) % DISPLAY_WIDTH) % 256)
          ((c.v (((op &&& 0x00F0) >>> 4) % 256) % DISPLAY_HEIGHT) % 256)
          ((op &&& 0x000F) % 256) 0 (c.display, 0) = some st' := by
        split at h
        · cases h
        · rename_i st hst; exact ⟨st, hst⟩
      exact hrows.1 hdef r (Nat.zero_le _) (by omega) (Or.inr hr2)
    · intro h
      have hdef := hrows.2 (fun r _ hr2 hr3 => h hvb r (by omega) (by
        rcases hr3 with h0 | h0
        · rw [h0]; exact hvy
        · exact h0))
      obtain ⟨st, hst⟩ := hdef
      rw [hst]
      exact ⟨_, rfl⟩

theorem op_0xEXNN_defined (c : Chip8) (op : Nat) :
    (∃ c', op_0xEXNN c op = some c') ↔
      ((op &&& 0x00FF = 0x9E ∨ op &&& 0x00FF = 0xA1) →
        c.v (((op &&& 0x0F00) >>> 8) % 256) < 31) := by
  unfold op_0xEXNN
  dsimp only
  split
  · rename_i h9E
    by_cases hv : c.v (((op &&& 0x0F00) >>> 8) % 256) < 31
    · rw [if_pos hv]
      refine ⟨fun _ _ => hv, fun _ => ?_⟩
      split_ifs <;> exact ⟨_, rfl⟩
    · rw [if_neg hv]
      constructor
      · intro ⟨_, h⟩; cases h
      · intro h; exact absurd (h (Or.inl h9E)) hv
  · rename_i hA1
    by_cases hv : c.v (((op &&& 0x0F00) >>> 8) % 256) < 31
    · rw [if_pos hv]
      refine ⟨fun _ _ => hv, fun _ => ?_⟩
      split_ifs <;> exact ⟨_, rfl⟩
    · rw [if_neg hv]
      constructor
      · intro ⟨_, h⟩; cases h
      · intro h; exact absurd (h (Or.inr hA1)) hv
  · rename_i n9E nA1
    refine ⟨fun _ h => ?_, fun _ => ⟨_, rfl⟩⟩
    rcases h with h | h
    · exact absurd h n9E
    · exact absurd h nA1

theorem op_0xFXNN_defined (c : Chip8) (op : Nat) :
    (∃ c', op_0xFXNN c op = some c') ↔
      ((op &&& 0x00FF = 0x29 → c.v (((op &&& 0x0F00) >>> 8) % 256) * 5 < SIZE_MEMORY) ∧
       (op &&& 0x00FF = 0x33 → c.i + 2 < SIZE_MEMORY) ∧
       ((op &&& 0x00FF = 0x55 ∨ op &&& 0x00FF = 0x65) →
          c.i + ((op &&& 0x0F00) >>> 8) % 256 < SIZE_MEMORY)) := by
  have hst := store_loop_defined c.v c.i ((((op &&& 0x0F00) >>> 8) % 256) + 1) 0 c.memory
  have hfl := fill_loop_defined c.memory c.i ((((op &&& 0x0F00) >>> 8) % 256) + 1) 0 c.v
  unfold op_0xFXNN
  dsimp only
  by_cases h29 : op &&& 0x00FF = 0x29
  · rw [h29]
    dsimp only
    by_cases hv : c.v (((op &&& 0x0F00) >>> 8) % 256) * 5 < SIZE_MEMORY
    · rw [if_pos hv]
      refine ⟨fun _ => ⟨fun _ => hv, fun h => absurd h (by decide), fun h => ?_⟩,
        fun _ => ⟨_, rfl⟩⟩
      rcases h with h | h <;> exact absurd h (by decide)
    · rw [if_neg hv]
      constructor
      · intro ⟨_, h⟩; cases h
      · intro h; exact absurd (h.1 rfl) hv
  · by_cases h33 : op &&& 0x00FF = 0x33
    · rw [h33]
      dsimp only
      by_cases hv : c.i + 2 < SIZE_MEMORY
      · rw [if_pos hv]
        refine ⟨fun _ => ⟨fun h => absurd h (by decide), fun _ => hv, fun h => ?_⟩,
          fun _ => ⟨_, rfl⟩⟩
        rcases h with h | h <;> exact absurd h (by decide)
      · rw [if_neg hv]
        constructor
        · intro ⟨_, h⟩; cases h
        · intro h; exact absurd (h.2.1 rfl) hv
    · by_cases h55 : op &&& 0x00FF = 0x55
      · rw [h55]
        dsimp only
        constructor
        · intro ⟨c', h⟩
          refine ⟨fun h => absurd h (by decide), fun h => absurd h (by decide), fun _ => ?_⟩
          have hdef : ∃ m', store_loop c.v c.i ((((op &&& 0x0F00) >>> 8) % 256) + 1) 0
              c.memory = some m' := by
            split at h
            · cases h
            · rename_i m hm; exact ⟨m, hm⟩
          rcases hst.1 hdef with h0 | h0 <;> omega
        · intro h
          obtain ⟨m, hm⟩ := hst.2 (Or.inr (by have := h.2.2 (Or.inl rfl); omega))
          rw [hm]
          exact ⟨_, rfl⟩
      · by_cases h65 : op &&& 0x00FF = 0x65
        · rw [h65]
          dsimp only
          constructor
          · intro ⟨c', h⟩
            refine ⟨fun h => absurd h (by decide), fun h => absurd h (by decide), fun _ => ?_⟩
            have hdef : ∃ v', fill_loop c.memory c.i ((((op &&& 0x0F00) >>> 8) % 256) + 1) 0
                c.v = some v' := by
              split at h
              · cases h
              · rename_i w hw; exact ⟨w, hw⟩
            rcases hfl.1 hdef with h0 | h0 <;> omega
          · intro h
            obtain ⟨w, hw⟩ := hfl.2 (Or.inr (by have := h.2.2 (Or.inr rfl); omega))
            rw [hw]
            exact ⟨_, rfl⟩
        · have hok : (op &&& 0x00FF = 0x29 →
              c.v (((op &&& 0x0F00) >>> 8) % 256) * 5 < SIZE_MEMORY) ∧
              (op &&& 0x00FF = 0x33 → c.i + 2 < SIZE_MEMORY) ∧
              ((op &&& 0x00FF = 0x55 ∨ op &&& 0x00FF = 0x65) →
                c.i + ((op &&& 0x0F00) >>> 8) % 256 < SIZE_MEMORY) :=
            ⟨fun h => absurd h h29, fun h => absurd h h33, fun h => by
              rcases h with h | h
              · exact absurd h h55
              · exact absurd h h65⟩
          refine ⟨fun _ => hok, fun _ => ?_⟩
          split
          all_goals first
            | exact ⟨_, rfl⟩
            | (split_ifs <;> exact ⟨_, rfl⟩)
            | (rename_i hlow; first
                | exact absurd hlow h29
                | exact absurd hlow h33
                | exact absurd hlow h55
                | exact absurd hlow h65)

/-- A step produces a state exactly when all its array accesses are in bounds. -/
theorem step_defined_iff (c : Chip8) (rnd : Nat) :
    (∃ c', chip8_next_instruction c rnd = some c') ↔ step_in_bounds c := by
  unfold step_in_bounds chip8_next_instruction
  by_cases hpc : c.pc + 1 < SIZE_MEMORY
  swap
  · rw [if_neg hpc]
    constructor
    · intro ⟨_, h⟩; cases h
    · intro h; exact absurd h.1 hpc
  rw [if_pos hpc]
  dsimp only
  generalize ((c.memory c.pc <<< 8) ||| c.memory (c.pc + 1)) % 65536 = op
  have hplain : ∀ k : Nat, op &&& 0xF000 = k → k ≠ 0x0000 → k ≠ 0x2000 → k ≠ 0xD000 →
      k ≠ 0xE000 → k ≠ 0xF000 → handler_in_bounds c op := by
    intro k hk k0 k2 kD kE kF
    refine ⟨fun h => ?_, fun h => ?_, fun h => ?_, fun h => ?_, fun h => ?_, fun h => ?_,
      fun h => ?_⟩
    · exact absurd (hk.symm.trans h) kD
    · exact absurd (hk.symm.trans h) kE
    · exact absurd (hk.symm.trans h) kF
    · exact absurd (hk.symm.trans h) kF
    · exact absurd (hk.symm.trans h) kF
    · exact absurd (hk.symm.trans h) k0
    · exact absurd (hk.symm.trans h) k2
  split
  · rename_i hk
    rw [op_0x0NNN_defined]
    constructor
    · intro h
      refine ⟨hpc, fun g => ?_, fun g => ?_, fun g => ?_, fun g => ?_, fun g => ?_,
        fun _ => h, fun g => ?_⟩ <;> rw [hk] at g <;> exact absurd g (by decide)
    · intro h; exact h.2.2.2.2.2.2.1 hk
  · rename_i hk
    exact ⟨fun _ => ⟨hpc, hplain _ hk (by decide) (by decide) (by decide) (by decide)
      (by decide)⟩, fun _ => ⟨_, rfl⟩⟩
  · rename_i hk
    rw [op_0x2000_defined]
    constructor
    · intro h
      refine ⟨hpc, fun g => ?_, fun g => ?_, fun g => ?_, fun g => ?_, fun g => ?_,
        fun g => ?_, fun _ => h⟩ <;> rw [hk] at g <;> exact absurd g (by decide)
    · intro h; exact h.2.2.2.2.2.2.2 hk
  · rename_i hk
    refine ⟨fun _ => ⟨hpc, hplain _ hk (by decide) (by decide) (by decide) (by decide)
      (by decide)⟩, fun _ => ?_⟩
    split_ifs <;> exact ⟨_, rfl⟩
  · rename_i hk
    refine ⟨fun _ => ⟨hpc, hplain _ hk (by decide) (by decide) (by decide) (by decide)
      (by decide)⟩, fun _ => ?_⟩
    split_ifs <;> exact ⟨_, rfl⟩
  · rename_i hk
    refine ⟨fun _ => ⟨hpc, hplain _ hk (by decide) (by decide) (by decide) (by decide)
      (by decide)⟩, fun _ => ?_⟩
    split_ifs <;> exact ⟨_, rfl⟩
  · rename_i hk
    exact ⟨fun _ => ⟨hpc, hplain _ hk (by decide) (by decide) (by decide) (by decide)
      (by decide)⟩, fun _ => ⟨_, rfl⟩⟩
  · rename_i hk
    exact ⟨fun _ => ⟨hpc, hplain _ hk (by decide) (by decide) (by decide) (by decide)
      (by decide)⟩, fun _ => ⟨_, rfl⟩⟩
  · rename_i hk
    exact ⟨fun _ => ⟨hpc, hplain _ hk (by decide) (by decide) (by decide) (by decide)
      (by decide)⟩, fun _ => ⟨_, rfl⟩⟩
  · rename_i hk
    refine ⟨fun _ => ⟨hpc, hplain _ hk (by decide) (by decide) (by decide) (by decide)
      (by decide)⟩, fun _ => ?_⟩
    split_ifs <;> exact ⟨_, rfl⟩
  · rename_i hk
    exact ⟨fun _ => ⟨hpc, hplain _ hk (by decide) (by decide) (by decide) (by decide)
      (by decide)⟩, fun _ => ⟨_, rfl⟩⟩
  · rename_i hk
    exact ⟨fun _ => ⟨hpc, hplain _ hk (by decide) (by decide) (by decide) (by decide)
      (by decide)⟩, fun _ => ⟨_, rfl⟩⟩
  · rename_i hk
    exact ⟨fun _ => ⟨hpc, hplain _ hk (by decide) (by decide) (by decide) (by decide)
      (by decide)⟩, fun _ => ⟨_, rfl⟩⟩
  · rename_i hk
    rw [op_0xDXYN_defined]
    constructor
    · intro h
      refine ⟨hpc, fun _ => h, fun g => ?_, fun g => ?_, fun g => ?_, fun g => ?_,
        fun g => ?_, fun g => ?_⟩ <;> rw [hk] at g <;> exact absurd g (by decide)
    · intro h; exact h.2.1 hk
  · rename_i hk
    rw [op_0xEXNN_defined]
    constructor
    · intro h
      refine ⟨hpc, fun g => ?_, fun _ => h, fun g => ?_, fun g => ?_, fun g => ?_,
        fun g => ?_, fun g => ?_⟩ <;> rw [hk] at g <;> exact absurd g (by decide)
    · intro h; exact h.2.2.1 hk
  · rename_i hk
    rw [op_0xFXNN_defined]
    constructor
    · intro h
      refine ⟨hpc, fun g => ?_, fun g => ?_, fun _ => h.1, fun _ => h.2.1, fun _ => h.2.2,
        fun g => ?_, fun g => ?_⟩ <;> rw [hk] at g <;> exact absurd g (by decide)
    · intro h
      exact ⟨h.2.2.2.1 hk, h.2.2.2.2.1 hk, h.2.2.2.2.2.1 hk⟩
  · rename_i n0 n1 n2 n3 n4 n5 n6 n7 n8 n9 nA nB nC nD nE nF
    refine ⟨fun _ => ⟨hpc, ?_⟩, fun _ => ⟨_, rfl⟩⟩
    refine ⟨fun h => absurd h nD, fun h => absurd h nE, fun h => absurd h nF,
      fun h => absurd h nF, fun h => absurd h nF, fun h => absurd h n0, fun h => absurd h n2⟩

/-! ## The stack pointer over steps with every access in bounds -/

/-- C1 as stated fails.  Six instructions of the ROM `60 FF AF FF F0 1E 60 36 F0 1E
60 C8 F0 55` reach a state with `sp = 0`, `halt_code` none, `i = 4404`, `v[0] = 200`
and the opcode `0xF055` at `pc`.  Its store `memory[i + 0] = v[0]` has index 4404,
outside `memory[4096]`: not every access of the step is in bounds, and the step
does not produce a state with `sp ≤ 16` (C leaves the write undefined; in the
struct of `chip8.h`, laid out in declaration order, byte 4404 is `sp`). -/
theorem sp_unguarded_store :
    ∃ s, state_after (fun _ => 0) stray_store_state 6 = some s ∧
      s.sp ≤ 16 ∧ s.halt_code = HaltCode.HLT_NONE ∧
      chip8_current_instruction s = some 0xF055 ∧ s.v 0 = 200 ∧ s.i = 4404 ∧
      ¬ (s.i + 0 < SIZE_MEMORY) ∧ ¬ step_in_bounds s ∧
      ¬ (∃ c', chip8_next_instruction s 0 = some c' ∧ c'.sp ≤ 16) := by
  have hk : state_after (fun _ => 0) stray_store_state 6 =
      some ((state_after (fun _ => 0) stray_store_state 6).getD blank) := rfl
  have hi : ((state_after (fun _ => 0) stray_store_state 6).getD blank).i = 4404 := rfl
  have hop : chip8_current_instruction
      ((state_after (fun _ => 0) stray_store_state 6).getD blank) = some 0xF055 := rfl
  have hnot : ¬ step_in_bounds ((state_after (fun _ => 0) stray_store_state 6).getD blank) := by
    intro h
    obtain ⟨hpc, hexpr⟩ := fetch_some _ _ hop
    have h55 := h.2.2.2.2.2.1
    rw [hexpr, hi] at h55
    exact absurd (h55 (by decide) (Or.inl (by decide))) (by decide)
  refine ⟨_, hk, ?_, rfl, hop, rfl, hi, ?_, hnot, ?_⟩
  · have hsp : ((state_after (fun _ => 0) stray_store_state 6).getD blank).sp = 0 := rfl
    rw [hsp]; decide
  · rw [hi]; decide
  · intro ⟨c', h, _⟩
    exact hnot ((step_defined_iff _ 0).1 ⟨c', h⟩)

/-- C1, amended: stack depth invariant over the calls whose array accesses are in
bounds.  From any machine state with `sp ≤ 16`, a vblank tick, key down, key up
and a load (successful or not) produce a state with `0 ≤ sp ≤ 16`, and so does one
instruction on any opcode, provided every array access of that instruction is in
bounds (`step_in_bounds`: the fetch, the sprite rows of a proceeding draw, the
font lookup, the BCD bytes, the block transfer, the key-test shift). -/
theorem sp_invariant (c : Chip8) (e : Entry) (hsp : c.sp ≤ 16)
    (hin : ∀ rnd, e = Entry.step rnd → step_in_bounds c) :
    ∃ c', run_entry c e = some c' ∧ 0 ≤ c'.sp ∧ c'.sp ≤ 16 := by
  cases e with
  | step rnd =>
    obtain ⟨c', h⟩ := (step_defined_iff c rnd).2 (hin rnd rfl)
    exact ⟨c', h, Nat.zero_le _, chip8_next_instruction_sp c c' rnd hsp h⟩
  | vblank =>
    refine ⟨_, rfl, Nat.zero_le _, ?_⟩
    rw [chip8_vblank_sp]; exact hsp
  | key_down key => exact ⟨_, rfl, Nat.zero_le _, hsp⟩
  | key_up key => exact ⟨_, rfl, Nat.zero_le _, hsp⟩
  | load file => exact ⟨_, rfl, Nat.zero_le _, chip8_load_sp c file hsp⟩

/-- Witness for `sp_invariant`: the call at the start of `call_state` has its
accesses in bounds and takes `sp` from 0 to 1. -/
theorem sp_invariant_witness :
    call_state.sp ≤ 16 ∧ step_in_bounds call_state ∧
      ∃ c', run_entry call_state (Entry.step 0) = some c' ∧ 0 ≤ c'.sp ∧ c'.sp ≤ 16 :=
  ⟨by decide, by decide,
    sp_invariant call_state (Entry.step 0) (by decide) (fun _ _ => by decide)⟩

/-! ## Memory below `0x200` over steps with every access in bounds -/

/-- C18, amended: memory is written by execution only through `0xFX33` and
`0xFX55`, with no check of `i`.  A tick and the key calls leave memory unchanged.
An instruction whose array accesses are all in bounds (`step_in_bounds`: for the
stores, `i + 2 < 4096` resp. `i + x < 4096`) produces a state; if it is not
`0xFX33` or `0xFX55` memory is unchanged; `0xFX33` changes only
`memory[i .. i + 2]` and `0xFX55` only `memory[i .. i + x]`; hence whenever
`i ≥ 0x200` every byte below `0x200`, the font included, is unchanged by it. -/
theorem low_memory_kept (c : Chip8) (rnd op : Nat)
    (hop : chip8_current_instruction c = some op) (hin : step_in_bounds c) :
    (∃ c', chip8_next_instruction c rnd = some c' ∧
      (¬ (op &&& 0xF000 = 0xF000 ∧ (op &&& 0x00FF = 0x33 ∨ op &&& 0x00FF = 0x55)) →
        c'.memory = c.memory) ∧
      (op &&& 0xF000 = 0xF000 → op &&& 0x00FF = 0x33 →
        c.i + 2 < 4096 ∧ ∀ a, (a < c.i ∨ c.i + 2 < a) → c'.memory a = c.memory a) ∧
      (op &&& 0xF000 = 0xF000 → op &&& 0x00FF = 0x55 →
        c.i + ((op &&& 0x0F00) >>> 8) % 256 < 4096 ∧
        ∀ a, (a < c.i ∨ c.i + ((op &&& 0x0F00) >>> 8) % 256 < a) →
          c'.memory a = c.memory a) ∧
      (0x200 ≤ c.i → ∀ a, a < 0x200 → c'.memory a = c.memory a)) ∧
    (∀ d : Chip8, (chip8_vblank d).memory = d.memory ∧
      (∀ key, (chip8_key_down d key).memory = d.memory) ∧
      (∀ key, (chip8_key_up d key).memory = d.memory)) := by
  obtain ⟨c', hstep⟩ := (step_defined_iff c rnd).2 hin
  obtain ⟨_, hexpr⟩ := fetch_some c op hop
  have hh := hin.2
  rw [hexpr] at hh
  have hframe := fun a hne => step_memory c c' rnd op a hop hstep hne
  refine ⟨⟨c', hstep, ?_, ?_, ?_, ?_⟩,
    fun d => ⟨(chip8_vblank_frame d).1, fun _ => rfl, fun _ => rfl⟩⟩
  · intro hnot
    funext a
    by_contra hne
    obtain ⟨hF, h | h⟩ := hframe a hne
    · exact hnot ⟨hF, Or.inl h.1⟩
    · exact hnot ⟨hF, Or.inr h.1⟩
  · intro hF h33
    refine ⟨hh.2.2.2.1 hF h33, ?_⟩
    intro a ha
    by_contra hne
    obtain ⟨_, h | h⟩ := hframe a hne
    · omega
    · rw [h33] at h; exact absurd h.1 (by decide)
  · intro hF h55
    refine ⟨hh.2.2.2.2.1 hF (Or.inl h55), ?_⟩
    intro a ha
    by_contra hne
    obtain ⟨_, h | h⟩ := hframe a hne
    · rw [h55] at h; exact absurd h.1 (by decide)
    · omega
  · intro hi a ha
    by_contra hne
    obtain ⟨_, h | h⟩ := hframe a hne
    · omega
    · omega

/-- Witness for `low_memory_kept`: the BCD store of `bcd_state` at `i = 0x300` is
in bounds and leaves the font byte `memory[0]` in place. -/
theorem low_memory_kept_witness :
    step_in_bounds bcd_state ∧ 0x200 ≤ bcd_state.i ∧
    ∃ c', chip8_next_instruction bcd_state 0 = some c' ∧
      c'.memory 0 = bcd_state.memory 0 := by
  have hin : step_in_bounds bcd_state := by decide
  obtain ⟨⟨c', hs, _, _, _, h⟩, _⟩ := low_memory_kept bcd_state 0 0xF033 rfl hin
  exact ⟨hin, by decide, c', hs, h (by decide) 0 (by decide)⟩

/-! ## The program counter over runs with every access in bounds -/

theorem run_entry_defined (c : Chip8) (e : Entry)
    (hin : ∀ rnd, e = Entry.step rnd → step_in_bounds c) : ∃ c', run_entry c e = some c' := by
  cases e with
  | step rnd => exact (step_defined_iff c rnd).2 (hin rnd rfl)
  | vblank => exact ⟨_, rfl⟩
  | key_down key => exact ⟨_, rfl⟩
  | key_up key => exact ⟨_, rfl⟩
  | load file => exact ⟨_, rfl⟩

theorem run_in_bounds_inv (es : List Entry) :
    ∀ (c : Chip8), c.WF → c.pc_inv → (∀ e, e ∈ es → e.bytes_ok) → run_in_bounds c es →
      ∃ s, run_entries c es = some s ∧ s.WF ∧ s.pc_inv := by
  induction es with
  | nil =>
    intro c hwf hinv _ _
    exact ⟨c, rfl, hwf, hinv⟩
  | cons e es ih =>
    intro c hwf hinv hok hin
    obtain ⟨c1, h1⟩ := run_entry_defined c e hin.1
    obtain ⟨s, hs, hswf, hsinv⟩ := ih c1
      (run_entry_WF c c1 e hwf (hok e (List.mem_cons_self _ _)) h1)
      (run_entry_pc_inv c c1 e hwf hinv h1)
      (fun e' he' => hok e' (List.mem_cons_of_mem _ he')) (hin.2 c1 h1)
    refine ⟨s, ?_, hswf, hsinv⟩
    unfold run_entries
    rw [h1]
    exact hs

/-- C19 as stated fails.  After the successful load of the ROM `10 00` one step
(the jump `0x1000`) leaves `pc = 0` with `halt_code` none, below `0x200`; after
the load of `60 FF BF FF` two steps (`v[0] = 0xFF`, jump to `0xFFF + v[0]`) leave
`pc = 0x10FE` with `halt_code` none, above `0xFFE`, so that the next fetch
`memory[pc]`, `memory[pc + 1]` has its indices outside `memory[4096]`. -/
theorem pc_leaves_range :
    (chip8_load blank (some [0x10, 0x00])).1 = 0 ∧
    (∃ s, run_entries jump_low_state [Entry.step 0] = some s ∧
      s.halt_code = HaltCode.HLT_NONE ∧ s.pc = 0 ∧ ¬ (0x200 ≤ s.pc ∧ s.pc ≤ 0xFFE)) ∧
    (chip8_load blank (some [0x60, 0xFF, 0xBF, 0xFF])).1 = 0 ∧
    (∃ s, run_entries jump_high_state [Entry.step 0, Entry.step 0] = some s ∧
      s.halt_code = HaltCode.HLT_NONE ∧ s.pc = 0x10FE ∧ ¬ (0x200 ≤ s.pc ∧ s.pc ≤ 0xFFE) ∧
      ¬ (s.pc + 1 < SIZE_MEMORY)) := by
  have k1 : run_entries jump_low_state [Entry.step 0] =
      some ((run_entries jump_low_state [Entry.step 0]).getD blank) := rfl
  have k2 : run_entries jump_high_state [Entry.step 0, Entry.step 0] =
      some ((run_entries jump_high_state [Entry.step 0, Entry.step 0]).getD blank) := rfl
  have p1 : ((run_entries jump_low_state [Entry.step 0]).getD blank).pc = 0 := rfl
  have p2 : ((run_entries jump_high_state [Entry.step 0, Entry.step 0]).getD blank).pc =
      0x10FE := rfl
  refine ⟨rfl, ⟨_, k1, rfl, p1, ?_⟩, rfl, ⟨_, k2, rfl, p2, ?_, ?_⟩⟩
  · rw [p1]; decide
  · rw [p2]; decide
  · rw [p2]; decide

/-- C19, amended: the code checks neither bound of `pc`.  Right after a successful
load `pc = 0x200`; and every run of step, tick, key and load calls from it in which
each executed instruction has all its array accesses in bounds (in particular its
fetch, `pc ≤ 0xFFE` when it executes) produces a state, with `pc ≤ 0x10FE` in it,
whatever `halt_code` is. -/
theorem pc_range_reachable (c0 : Chip8) (bytes : List Nat) (es : List Entry)
    (hwf : c0.WF) (hb : ∀ b, b ∈ bytes → b < 256) (hlen : bytes.length ≤ 3584)
    (hes : ∀ e, e ∈ es → e.bytes_ok)
    (hin : run_in_bounds (chip8_load c0 (some bytes)).2 es) :
    (chip8_load c0 (some bytes)).1 = 0 ∧ (chip8_load c0 (some bytes)).2.pc = 0x200 ∧
    ∃ s, run_entries (chip8_load c0 (some bytes)).2 es = some s ∧ s.pc ≤ 0x10FE := by
  have hl := chip8_load_ok c0 bytes hlen
  have hwf1 : (chip8_load c0 (some bytes)).2.WF := chip8_load_WF c0 (some bytes) hwf hb
  have hinv1 : (chip8_load c0 (some bytes)).2.pc_inv := by
    rw [hl]
    refine ⟨Nat.zero_le _, ?_, ?_⟩
    · show ADDRESS_CODE_BEG ≤ 0x10FE
      decide
    · intro k hk
      exact absurd hk (Nat.not_lt_zero k)
  obtain ⟨s, hs, _, hsinv⟩ := run_in_bounds_inv es _ hwf1 hinv1 hes hin
  exact ⟨by rw [hl], by rw [hl]; rfl, s, hs, hsinv.2.1⟩

/-- Witness for `pc_range_reachable`: the two instructions of `60 FF BF FF` and a
tick are in bounds and end at `pc = 0x10FE`. -/
theorem pc_range_reachable_witness :
    run_in_bounds jump_high_state [Entry.step 0, Entry.step 0, Entry.vblank] ∧
    ∃ s, run_entries (chip8_load blank (some [0x60, 0xFF, 0xBF, 0xFF])).2
        [Entry.step 0, Entry.step 0, Entry.vblank] = some s ∧ s.pc ≤ 0x10FE := by
  have e1 : run_entry jump_high_state (Entry.step 0) =
      some ((run_entry jump_high_state (Entry.step 0)).getD blank) := rfl
  have hin : run_in_bounds jump_high_state [Entry.step 0, Entry.step 0, Entry.vblank] := by
    refine ⟨fun _ _ => by decide, fun c1 h1 => ?_⟩
    rw [e1] at h1
    cases h1
    refine ⟨fun _ _ => by decide, fun c2 _ => ?_⟩
    refine ⟨fun rnd h => ?_, fun _ _ => True.intro⟩
    cases h
  exact ⟨hin, (pc_range_reachable blank [0x60, 0xFF, 0xBF, 0xFF]
    [Entry.step 0, Entry.step 0, Entry.vblank] blank_WF
    (by intro b hb; simp only [List.mem_cons, List.mem_singleton, List.not_mem_nil,
          or_false] at hb; omega)
    (by decide)
    (by intro e he; simp only [List.mem_cons, List.mem_singleton, List.not_mem_nil,
          or_false] at he; rcases he with h | h | h <;> rw [h] <;> exact True.intro)
    hin).2.2⟩
